import Mathlib

/-!
Verification of the content-addressed object store and hash-chained log
of the rusttodo repository (modules hash.rs, io.rs, hashio.rs, hashio_1.rs,
iolog.rs, log.rs, lazyio.rs).  The Rust code is shallowly embedded:
byte strings are lists of naturals below 256, the filesystem is an
association list from paths to file contents, machine integers are
naturals or integers reduced modulo the word size at the points where
the Rust code wraps, and fallible operations return Except values.
-/

set_option maxRecDepth 40000

/-! ## SHA3-256 (the digest used throughout the crate via crypto::sha3) -/

/-- All 64-bit lanes are naturals masked to 64 bits. -/
def mask64 : Nat := 18446744073709551615

/-- Rotate a 64-bit lane left by n bits. -/
def rotl64 (x n : Nat) : Nat :=
  ((x <<< (n % 64)) ||| (x >>> (64 - n % 64))) &&& mask64

/-- Read a lane from the 25-lane state, 0 outside. -/
def lget (A : List Nat) (i : Nat) : Nat := A.getD i 0

/-- Keccak theta step. -/
def keccakTheta (A : List Nat) : List Nat :=
  let C := (List.range 5).map fun x =>
    lget A x ^^^ lget A (x + 5) ^^^ lget A (x + 10) ^^^ lget A (x + 15) ^^^ lget A (x + 20)
  let D := (List.range 5).map fun x =>
    lget C ((x + 4) % 5) ^^^ rotl64 (lget C ((x + 1) % 5)) 1
  (List.range 25).map fun i => lget A i ^^^ lget D (i % 5)

/-- Keccak rotation offsets, indexed by 5*x + y. -/
def rhoTable : List Nat :=
  [0, 36, 3, 41, 18,
   1, 44, 10, 45, 2,
   62, 6, 43, 15, 61,
   28, 55, 25, 21, 56,
   27, 20, 39, 8, 14]

/-- Keccak rho and pi steps: B[y, 2x+3y] = rotl(A[x, y], r[x, y]),
    lane (x, y) stored at index x + 5y. -/
def keccakRhoPi (A : List Nat) : List Nat :=
  (List.range 25).foldl
    (fun B k =>
      let x := k % 5
      let y := k / 5
      B.set (y + 5 * ((2 * x + 3 * y) % 5))
        (rotl64 (lget A (x + 5 * y)) (lget rhoTable (5 * x + y))))
    (List.replicate 25 0)

/-- Keccak chi step. -/
def keccakChi (B : List Nat) : List Nat :=
  (List.range 25).map fun k =>
    let x := k % 5
    let y := k / 5
    lget B k ^^^ ((lget B ((x + 1) % 5 + 5 * y) ^^^ mask64) &&& lget B ((x + 2) % 5 + 5 * y))

/-- Keccak round constants. -/
def keccakRC : List Nat :=
  [1, 32898, 9223372036854808714,
   9223372039002292224, 32907, 2147483649,
   9223372039002292353, 9223372036854808585, 138,
   136, 2147516425, 2147483658,
   2147516555, 9223372036854775947, 9223372036854808713,
   9223372036854808579, 9223372036854808578, 9223372036854775936,
   32778, 9223372039002259466, 9223372039002292353,
   9223372036854808704, 2147483649, 9223372039002292232]

/-- One Keccak round. -/
def keccakRound (A : List Nat) (rc : Nat) : List Nat :=
  let B := keccakChi (keccakRhoPi (keccakTheta A))
  B.set 0 (lget B 0 ^^^ rc)

/-- The Keccak-f[1600] permutation. -/
def keccakF (A : List Nat) : List Nat := keccakRC.foldl keccakRound A

/-- Interpret up to eight bytes as a little-endian 64-bit lane. -/
def leLane (bytes : List Nat) : Nat :=
  bytes.foldr (fun b acc => acc * 256 + b % 256) 0

/-- SHA3 pad10*1 padding with domain separator 0x06, rate 136 bytes. -/
def sha3Pad (m : List Nat) : List Nat :=
  let padlen := 136 - m.length % 136
  if padlen = 1 then m ++ [0x86]
  else m ++ [0x06] ++ List.replicate (padlen - 2) 0 ++ [0x80]

/-- Absorb one 136-byte block into the state. -/
def absorbBlock (S block : List Nat) : List Nat :=
  let lanes := (List.range 17).map fun i => leLane ((block.drop (8 * i)).take 8)
  keccakF ((List.range 25).map fun i => lget S i ^^^ lanes.getD i 0)

/-- Split a list into chunks of size n, with explicit fuel. -/
def chunksAux (n : Nat) : Nat → List Nat → List (List Nat)
  | 0, _ => []
  | _ + 1, [] => []
  | fuel + 1, l => l.take n :: chunksAux n fuel (l.drop n)

/-- SHA3-256 of a byte string: 32 output bytes. -/
def sha3Bytes (m : List Nat) : List Nat :=
  let padded := sha3Pad m
  let blocks := chunksAux 136 padded.length padded
  let S := blocks.foldl absorbBlock (List.replicate 25 0)
  (List.range 32).map fun i => (lget S (i / 8) >>> (8 * (i % 8))) % 256

/-! ## hash.rs: the Hash type and its hex codec -/

/-- hash.rs Hash: either the None sentinel or a SHA3-256 digest.
    The 32-byte array is modelled as a list of naturals below 256. -/
inductive Hash where
  | none : Hash
  | sha3 : List Nat → Hash
deriving DecidableEq, Repr

/-- hash.rs half_byte_to_string: ASCII code of the hex digit of a half byte
    (falls back to the character that is a question mark). -/
def halfByteToChar : Nat → Nat
  | 0 => 48 | 1 => 49 | 2 => 50 | 3 => 51 | 4 => 52
  | 5 => 53 | 6 => 54 | 7 => 55 | 8 => 56 | 9 => 57
  | 10 => 97 | 11 => 98 | 12 => 99 | 13 => 100 | 14 => 101 | 15 => 102
  | _ => 63

/-- hash.rs byte_to_string: two hex characters of one byte. -/
def byteToChars (b : Nat) : List Nat :=
  [halfByteToChar (b / 16), halfByteToChar (b % 16)]

/-- hash.rs bytes_to_string: lowercase hex of a byte string
    (a Rust String is modelled by its UTF-8 byte list). -/
def bytesToHexChars (bytes : List Nat) : List Nat :=
  bytes.flatMap byteToChars

/-- hash.rs hex_str_to_u8: value of an ASCII hex character,
    any other byte is mapped to 0. -/
def hexCharToNat : Nat → Nat
  | 48 => 0 | 49 => 1 | 50 => 2 | 51 => 3 | 52 => 4
  | 53 => 5 | 54 => 6 | 55 => 7 | 56 => 8 | 57 => 9
  | 97 => 10 | 98 => 11 | 99 => 12 | 100 => 13 | 101 => 14 | 102 => 15
  | _ => 0

/-- hash.rs Hash::get_bytes. -/
def Hash.getBytes : Hash → List Nat
  | Hash.none => []
  | Hash.sha3 b => b

/-- hash.rs Hash::as_string: hex form of the digest bytes. -/
def Hash.asString (h : Hash) : List Nat :=
  bytesToHexChars h.getBytes

/-- hash.rs Hash::from_string.  The Rust code indexes bytes 0..63 of the
    string without a length check, so a string shorter than 64 bytes
    panics: that is modelled by Option.none.  Bytes past index 63 are
    ignored and non-hex bytes are mapped through hex_str_to_u8 to 0. -/
def Hash.fromString (s : List Nat) : Option Hash :=
  if s.length < 64 then Option.none
  else some (Hash.sha3 ((List.range 32).map fun i =>
    hexCharToNat (s.getD (2 * i) 0) * 16 + hexCharToNat (s.getD (2 * i + 1) 0)))

/-- hash.rs Hash::hash_bytes: SHA3-256 digest of a byte string. -/
def Hash.hashBytes (bytes : List Nat) : Hash :=
  Hash.sha3 (sha3Bytes bytes)

/-- hash.rs Hash::hash_with: digest of the concatenated byte forms. -/
def Hash.hashWith (h o : Hash) : Hash :=
  Hash.hashBytes (h.getBytes ++ o.getBytes)

/-- hash.rs impl Hashable for Hash: as_hash hashes the byte view. -/
def Hash.asHash (h : Hash) : Hash :=
  Hash.hashBytes h.getBytes

/-! ## io.rs: fixed-width big-endian codec over byte streams

A reader source is a list of the remaining bytes, exactly the semantics
of reading from an in-memory Cursor (or a file): Read::read fills
min(buffer size, bytes left) bytes, returns Ok with that count, and
leaves the rest of the buffer untouched.  The Rust readers ignore the
returned count, so a fresh zeroed buffer is returned zero-padded. -/

/-- The contents of a freshly zero-initialised n-byte buffer after one
    read call on a source holding s. -/
def fillZero (n : Nat) (s : List Nat) : List Nat :=
  s.take n ++ List.replicate (n - s.length) 0

/-- Big-endian value of a byte list. -/
def beNat (bytes : List Nat) : Nat :=
  bytes.foldl (fun acc b => acc * 256 + b) 0

/-- Two's complement interpretation of a w-bit value. -/
def toSigned (w x : Nat) : Int :=
  if x < 2 ^ (w - 1) then (x : Int) else (x : Int) - 2 ^ w

/-- io.rs read_u8. -/
def readU8 (s : List Nat) : Nat × List Nat :=
  ((fillZero 1 s).getD 0 0, s.drop 1)

/-- io.rs read_u32 (big-endian, buffer zero-padded on short reads). -/
def readU32 (s : List Nat) : Nat × List Nat :=
  (beNat (fillZero 4 s), s.drop 4)

/-- io.rs read_i32. -/
def readI32 (s : List Nat) : Int × List Nat :=
  (toSigned 32 (beNat (fillZero 4 s)), s.drop 4)

/-- io.rs read_i16. -/
def readI16 (s : List Nat) : Int × List Nat :=
  (toSigned 16 (beNat (fillZero 2 s)), s.drop 2)

/-- io.rs read_f32; an f32 is modelled by its 32-bit pattern. -/
def readF32 (s : List Nat) : Nat × List Nat :=
  (beNat (fillZero 4 s), s.drop 4)

/-- io.rs read_bytes: reads one byte at a time into a one-byte buffer
    that is only initialised once, so after the source is exhausted the
    last byte read (initially 0) is pushed again and again. -/
def readBytesAux : Nat → Nat → List Nat → List Nat × List Nat
  | 0, _, s => ([], s)
  | n + 1, last, [] =>
    let r := readBytesAux n last []
    (last :: r.1, r.2)
  | n + 1, _, b :: rest =>
    let r := readBytesAux n b rest
    (b :: r.1, r.2)

/-- io.rs read_bytes. -/
def readBytes (n : Nat) (s : List Nat) : List Nat × List Nat :=
  readBytesAux n 0 s

/-- io.rs read_hash: tag byte 1 is a Sha3 digest; every other tag
    (0 included) yields Hash::None. -/
def readHash (s : List Nat) : Hash × List Nat :=
  let t := readU8 s
  if t.1 = 1 then (Hash.sha3 (fillZero 32 t.2), t.2.drop 32)
  else (Hash.none, t.2)

/-- time::Tm, eleven i32 fields. -/
structure Tm where
  sec : Int
  minute : Int
  hour : Int
  mday : Int
  mon : Int
  year : Int
  wday : Int
  yday : Int
  isdst : Int
  utcoff : Int
  nsec : Int
deriving DecidableEq, Repr

/-- io.rs read_tm: eleven consecutive i32 reads. -/
def readTm (s : List Nat) : Tm × List Nat :=
  let r1 := readI32 s
  let r2 := readI32 r1.2
  let r3 := readI32 r2.2
  let r4 := readI32 r3.2
  let r5 := readI32 r4.2
  let r6 := readI32 r5.2
  let r7 := readI32 r6.2
  let r8 := readI32 r7.2
  let r9 := readI32 r8.2
  let r10 := readI32 r9.2
  let r11 := readI32 r10.2
  (⟨r1.1, r2.1, r3.1, r4.1, r5.1, r6.1, r7.1, r8.1, r9.1, r10.1, r11.1⟩, r11.2)

/-- io.rs write_u8 (the argument is a u8 value). -/
def writeU8 (i : Nat) : List Nat := [i % 256]

/-- Big-endian bytes of a 32-bit word (BigEndian::write_u32). -/
def beBytes32 (i : Nat) : List Nat :=
  [i / 2 ^ 24 % 256, i / 2 ^ 16 % 256, i / 2 ^ 8 % 256, i % 256]

/-- io.rs write_u32. -/
def writeU32 (i : Nat) : List Nat := beBytes32 i

/-- io.rs write_i32 (two's complement big-endian). -/
def writeI32 (z : Int) : List Nat := beBytes32 (z % 2 ^ 32).toNat

/-- io.rs write_i16. -/
def writeI16 (z : Int) : List Nat :=
  [(z % 2 ^ 16).toNat / 256, (z % 2 ^ 16).toNat % 256]

/-- io.rs write_f32 on the bit pattern. -/
def writeF32 (bits : Nat) : List Nat := beBytes32 bits

/-- io.rs usize_to_u32_bytes: the usize is cast to u32 and written
    big-endian, silently truncating values of 2^32 and above. -/
def usizeToU32Bytes (x : Nat) : List Nat := beBytes32 x

/-- io.rs write_hash: one tag byte, then the digest bytes. -/
def writeHash (h : Hash) : List Nat :=
  (match h with
   | Hash.none => writeU8 0
   | Hash.sha3 _ => writeU8 1) ++ h.getBytes

/-- io.rs write_tm. -/
def writeTm (t : Tm) : List Nat :=
  writeI32 t.sec ++ writeI32 t.minute ++ writeI32 t.hour ++ writeI32 t.mday ++
  writeI32 t.mon ++ writeI32 t.year ++ writeI32 t.wday ++ writeI32 t.yday ++
  writeI32 t.isdst ++ writeI32 t.utcoff ++ writeI32 t.nsec

/-- io.rs Writable::writable_to_hash: SHA3-256 of the serialized bytes. -/
def writableToHash (serialized : List Nat) : Hash :=
  Hash.sha3 (sha3Bytes serialized)

/-! ## Hex codec facts (claim C9) -/

/-- The sixteen ASCII codes of lowercase hex characters. -/
def hexCharCodes : List Nat :=
  [48, 49, 50, 51, 52, 53, 54, 55, 56, 57, 97, 98, 99, 100, 101, 102]

/-- The byte values named by consecutive pairs of hex characters,
    exactly as Hash::from_string combines them. -/
def hexPairsList : List Nat → List Nat
  | c1 :: c2 :: r => (hexCharToNat c1 * 16 + hexCharToNat c2) :: hexPairsList r
  | _ => []

lemma halfByteToChar_hexCharToNat {c : Nat} (hc : c ∈ hexCharCodes) :
    halfByteToChar (hexCharToNat c) = c := by
  fin_cases hc <;> rfl

lemma hexCharToNat_halfByteToChar {x : Nat} (hx : x < 16) :
    hexCharToNat (halfByteToChar x) = x := by
  interval_cases x <;> rfl

lemma halfByteToChar_mem {x : Nat} (hx : x < 16) :
    halfByteToChar x ∈ hexCharCodes := by
  interval_cases x <;> decide

lemma hexCharToNat_lt (c : Nat) : hexCharToNat c < 16 := by
  unfold hexCharToNat
  split <;> omega

lemma fromString_eq_hexPairsList :
    ∀ (n : Nat) (s : List Nat), s.length = 2 * n →
      ((List.range n).map fun i =>
        hexCharToNat (s.getD (2 * i) 0) * 16 + hexCharToNat (s.getD (2 * i + 1) 0)) =
      hexPairsList s := by
  intro n
  induction n with
  | zero =>
    intro s hs
    have : s = [] := List.eq_nil_of_length_eq_zero (by omega)
    subst this
    rfl
  | succ m ih =>
    intro s hs
    match s with
    | [] => simp at hs
    | [c] => simp at hs; omega
    | c1 :: c2 :: r =>
      have hr : r.length = 2 * m := by
        simp [List.length_cons] at hs
        omega
      rw [List.range_succ_eq_map, List.map_cons, List.map_map]
      have hrest : List.map ((fun i =>
          hexCharToNat ((c1 :: c2 :: r).getD (2 * i) 0) * 16 +
            hexCharToNat ((c1 :: c2 :: r).getD (2 * i + 1) 0)) ∘ Nat.succ)
          (List.range m) = hexPairsList r := by
        rw [← ih r hr]
        apply List.map_congr_left
        intro i _
        simp only [Function.comp_apply]
        have e1 : 2 * Nat.succ i = 2 * i + 1 + 1 := by omega
        rw [e1, List.getD_cons_succ, List.getD_cons_succ,
          List.getD_cons_succ, List.getD_cons_succ]
      rw [hrest]
      rfl

lemma bytesToHexChars_hexPairsList :
    ∀ (n : Nat) (s : List Nat), s.length = 2 * n → (∀ c ∈ s, c ∈ hexCharCodes) →
      bytesToHexChars (hexPairsList s) = s := by
  intro n
  induction n with
  | zero =>
    intro s hs _
    have : s = [] := List.eq_nil_of_length_eq_zero (by omega)
    subst this
    rfl
  | succ m ih =>
    intro s hs hhex
    match s with
    | [] => simp at hs
    | [c] => simp at hs; omega
    | c1 :: c2 :: r =>
      have hr : r.length = 2 * m := by
        simp [List.length_cons] at hs
        omega
      have hc1 : c1 ∈ hexCharCodes := hhex c1 (by simp)
      have hc2 : c2 ∈ hexCharCodes := hhex c2 (by simp)
      have hlt2 : hexCharToNat c2 < 16 := hexCharToNat_lt c2
      show byteToChars (hexCharToNat c1 * 16 + hexCharToNat c2) ++
        bytesToHexChars (hexPairsList r) = c1 :: c2 :: r
      have hdiv : (hexCharToNat c1 * 16 + hexCharToNat c2) / 16 = hexCharToNat c1 := by
        omega
      have hmod : (hexCharToNat c1 * 16 + hexCharToNat c2) % 16 = hexCharToNat c2 := by
        omega
      rw [byteToChars, hdiv, hmod, halfByteToChar_hexCharToNat hc1,
        halfByteToChar_hexCharToNat hc2,
        ih r hr (fun c hcv => hhex c (by simp [hcv]))]
      rfl

lemma hexPairsList_bytesToHexChars :
    ∀ (b : List Nat), (∀ x ∈ b, x < 256) →
      hexPairsList (bytesToHexChars b) = b := by
  intro b
  induction b with
  | nil => intro _; rfl
  | cons x r ih =>
    intro hb
    have hx : x < 256 := hb x (by simp)
    show hexPairsList (byteToChars x ++ bytesToHexChars r) = x :: r
    have hd : x / 16 < 16 := by omega
    have hm : x % 16 < 16 := by omega
    rw [byteToChars]
    show (hexCharToNat (halfByteToChar (x / 16)) * 16 +
      hexCharToNat (halfByteToChar (x % 16))) :: hexPairsList (bytesToHexChars r) = x :: r
    rw [hexCharToNat_halfByteToChar hd, hexCharToNat_halfByteToChar hm,
      ih (fun y hy => hb y (by simp [hy]))]
    have : x / 16 * 16 + x % 16 = x := by omega
    rw [this]

lemma bytesToHexChars_length (b : List Nat) :
    (bytesToHexChars b).length = 2 * b.length := by
  induction b with
  | nil => rfl
  | cons x r ih =>
    show (byteToChars x ++ bytesToHexChars r).length = 2 * (r.length + 1)
    simp [byteToChars, ih]
    omega

lemma bytesToHexChars_mem {b : List Nat} (hb : ∀ x ∈ b, x < 256) :
    ∀ c ∈ bytesToHexChars b, c ∈ hexCharCodes := by
  induction b with
  | nil => intro c hc; simp [bytesToHexChars] at hc
  | cons x r ih =>
    intro c hc
    have hx : x < 256 := hb x (by simp)
    have : c ∈ byteToChars x ∨ c ∈ bytesToHexChars r := by
      simpa [bytesToHexChars] using hc
    rcases this with h | h
    · rcases (by simpa [byteToChars] using h : c = halfByteToChar (x / 16) ∨
        c = halfByteToChar (x % 16)) with rfl | rfl
      · exact halfByteToChar_mem (by omega)
      · exact halfByteToChar_mem (by omega)
    · exact ih (fun y hy => hb y (by simp [hy])) c h

/-- C9 (amended): for every 64-character lowercase-hex string,
    from_string succeeds and as_string returns the same string; and for
    every 32-byte Sha3 digest h, from_string (as_string h) = h.  As
    literally stated the claim fails — from_string is not strict and the
    Hash::None case panics — see the counterexample theorem. -/
theorem c9_hex_roundtrip :
    (∀ s : List Nat, s.length = 64 → (∀ c ∈ s, c ∈ hexCharCodes) →
      (Hash.fromString s).map Hash.asString = some s) ∧
    (∀ b : List Nat, b.length = 32 → (∀ x ∈ b, x < 256) →
      Hash.fromString (Hash.asString (Hash.sha3 b)) = some (Hash.sha3 b)) := by
  constructor
  · intro s hlen hhex
    have h32 : s.length = 2 * 32 := by omega
    rw [Hash.fromString, if_neg (by omega), fromString_eq_hexPairsList 32 s h32]
    show some (Hash.asString (Hash.sha3 (hexPairsList s))) = some s
    rw [Hash.asString]
    show some (bytesToHexChars (hexPairsList s)) = some s
    rw [bytesToHexChars_hexPairsList 32 s h32 hhex]
  · intro b hlen hb
    have hbh : Hash.asString (Hash.sha3 b) = bytesToHexChars b := rfl
    have hsl : (bytesToHexChars b).length = 2 * 32 := by
      rw [bytesToHexChars_length, hlen]
    rw [hbh, Hash.fromString, if_neg (by omega),
      fromString_eq_hexPairsList 32 _ hsl, hexPairsList_bytesToHexChars b hb]

/-- Witness for c9_hex_roundtrip at the all-zero hex string and digest. -/
theorem c9_hex_roundtrip_witness :
    (Hash.fromString (List.replicate 64 48)).map Hash.asString =
      some (List.replicate 64 48) ∧
    Hash.fromString (Hash.asString (Hash.sha3 (List.replicate 32 0))) =
      some (Hash.sha3 (List.replicate 32 0)) :=
  ⟨c9_hex_roundtrip.1 (List.replicate 64 48) (by decide) (by decide),
   c9_hex_roundtrip.2 (List.replicate 32 0) (by decide) (by decide)⟩

/-- C9 counterexample: from_string applied to the hex form of Hash::None
    (the empty string) panics instead of returning Hash::None; a
    65-character string is accepted, and so is a 64-character string of
    non-hex bytes (ASCII 103 is the letter g), refuting strictness. -/
theorem c9_counterexample :
    Hash.fromString (Hash.asString Hash.none) = Option.none ∧
    Hash.fromString (List.replicate 65 48) = some (Hash.sha3 (List.replicate 32 0)) ∧
    Hash.fromString (List.replicate 64 103) = some (Hash.sha3 (List.replicate 32 0)) := by
  refine ⟨rfl, ?_, ?_⟩ <;> decide

/-! ## Reader behaviour on short or malformed input (claim C2) -/

lemma foldl_be_replicate_zero (x k : Nat) :
    List.foldl (fun acc b => acc * 256 + b) x (List.replicate k 0) = x * 256 ^ k := by
  induction k generalizing x with
  | zero => simp
  | succ m ih =>
    rw [List.replicate_succ, List.foldl_cons, ih]
    ring

lemma beNat_append_zeros (l : List Nat) (k : Nat) :
    beNat (l ++ List.replicate k 0) = beNat l * 256 ^ k := by
  rw [beNat, List.foldl_append]
  exact foldl_be_replicate_zero _ _

lemma readBytesAux_nil (n last : Nat) :
    readBytesAux n last [] = (List.replicate n last, []) := by
  induction n with
  | zero => rfl
  | succ m ih =>
    show (last :: (readBytesAux m last []).1, (readBytesAux m last []).2) = _
    rw [ih]
    rfl

lemma readBytesAux_spec :
    ∀ (s : List Nat) (n last : Nat), s.length ≤ n →
      readBytesAux n last s =
        (s ++ List.replicate (n - s.length) (s.getLastD last), []) := by
  intro s
  induction s with
  | nil =>
    intro n last _
    simp [readBytesAux_nil]
  | cons b r ih =>
    intro n last h
    match n with
    | 0 => simp at h
    | m + 1 =>
      show (b :: (readBytesAux m b r).1, (readBytesAux m b r).2) = _
      rw [ih m b (by simpa using h)]
      have hgl : (b :: r).getLastD last = r.getLastD b := by
        cases r with
        | nil => rfl
        | cons c t => rfl
      have harith : m + 1 - (b :: r).length = m - r.length := by
        simp [List.length_cons]
      rw [harith, hgl]
      rfl

/-- C2 counterexample: a four-byte read on the empty source yields the
    value 0 rather than an error; read_hash maps the undefined tag 2 to
    Hash::None rather than an error; a short read_bytes pads with the
    last byte seen instead of failing. -/
theorem c2_counterexample :
    readU32 [] = (0, []) ∧ readHash [2] = (Hash.none, []) ∧
    readBytes 3 [7] = ([7, 7, 7], []) := by
  decide

/-- C2 (amended): no reader signals an error on a short source — the
    zero-initialised buffer is simply consumed as data: read_u32 returns
    the available bytes zero-extended, read_bytes pads with the last byte
    read, read_hash yields Hash::None for every tag other than 1, and all
    fixed-width readers return the all-zero value on an empty source. -/
theorem c2_readers_total :
    (∀ s : List Nat, s.length < 4 →
      readU32 s = (beNat s * 256 ^ (4 - s.length), [])) ∧
    (∀ (n : Nat) (s : List Nat), s.length ≤ n →
      readBytes n s = (s ++ List.replicate (n - s.length) (s.getLastD 0), [])) ∧
    (∀ (t : Nat) (s : List Nat), t < 256 → t ≠ 1 →
      readHash (t :: s) = (Hash.none, s)) ∧
    readU8 [] = (0, []) ∧ readI16 [] = (0, []) ∧ readI32 [] = (0, []) ∧
    readF32 [] = (0, []) ∧ readTm [] = (⟨0, 0, 0, 0, 0, 0, 0, 0, 0, 0, 0⟩, []) := by
  refine ⟨?_, ?_, ?_, rfl, rfl, rfl, rfl, rfl⟩
  · intro s h
    rw [readU32, fillZero, List.take_of_length_le (by omega), beNat_append_zeros,
      List.drop_eq_nil_of_le (by omega)]
  · intro n s h
    exact readBytesAux_spec s n 0 h
  · intro t s ht h1
    have hu8 : readU8 (t :: s) = (t, s) := by
      simp [readU8, fillZero]
    simp only [readHash, hu8]
    rw [if_neg h1]

/-- Witness for c2_readers_total at concrete short sources. -/
theorem c2_readers_total_witness :
    readU32 [7] = (7 * 256 ^ 3, []) ∧ readBytes 2 [5] = ([5] ++ [5], []) ∧
    readHash [2, 9] = (Hash.none, [9]) :=
  ⟨c2_readers_total.1 [7] (by decide),
   c2_readers_total.2.1 2 [5] (by decide),
   c2_readers_total.2.2.1 2 [9] (by decide) (by decide)⟩

/-! ## The persistable-type universe (hashio.rs, hashio_1.rs)

hashio.rs defines persistence for String, Vec, BTreeMap and for the
structs generated by the tbd_model macro (scalar fields written with the
io.rs codecs, then child fields referenced by hash).  The universe of
static types is the mutual inductive Ty/TyList; values are embedded
untyped as PVal with a typing predicate, and every operation recurses on
the static type exactly as the generic Rust code is instantiated per
type.  BTreeMap keys are Strings as in every instantiation in the
repository (map keys must implement Ord, which tbd_model types do not
derive). -/

inductive ScalarKind where
  | u8 | u32 | i16 | i32 | f32 | tm
deriving DecidableEq, Repr

/-- A scalar field of a tbd_model struct: the literal source token of the
    field type (hashed into the type hash) and its codec. -/
structure ScalarTy where
  name : List Nat
  kind : ScalarKind
deriving DecidableEq, Repr

mutual
inductive Ty where
  | str : Ty
  | vec : Ty → Ty
  | bmap : Ty → Ty
  | model : List ScalarTy → TyList → Ty
deriving DecidableEq, Repr
inductive TyList where
  | nil : TyList
  | cons : Ty → TyList → TyList
deriving DecidableEq, Repr
end

/-- A scalar field value; f32 is carried as its 32-bit pattern. -/
inductive ScalarVal where
  | u8 : Nat → ScalarVal
  | u32 : Nat → ScalarVal
  | i16 : Int → ScalarVal
  | i32 : Int → ScalarVal
  | f32 : Nat → ScalarVal
  | tm : Tm → ScalarVal
deriving DecidableEq, Repr

/-- Values of persistable types, untyped. -/
inductive PVal where
  | vstr : List Nat → PVal
  | vvec : List PVal → PVal
  | vmap : List (List Nat × PVal) → PVal
  | vmodel : List ScalarVal → List PVal → PVal

/-- Byte-lexicographic order, the Ord of Rust byte slices and Strings. -/
def lexLt : List Nat → List Nat → Bool
  | [], [] => false
  | [], _ :: _ => true
  | _ :: _, [] => false
  | a :: as, b :: bs => if a < b then true else if b < a then false else lexLt as bs

/-- UTF-8 validity of a byte list (RFC 3629 table). -/
def utf8Valid : List Nat → Bool
  | [] => true
  | b :: r =>
    if b ≤ 0x7F then utf8Valid r
    else if 0xC2 ≤ b && b ≤ 0xDF then
      match r with
      | c1 :: r2 => (0x80 ≤ c1 && c1 ≤ 0xBF) && utf8Valid r2
      | _ => false
    else if b = 0xE0 then
      match r with
      | c1 :: c2 :: r2 =>
        (0xA0 ≤ c1 && c1 ≤ 0xBF) && (0x80 ≤ c2 && c2 ≤ 0xBF) && utf8Valid r2
      | _ => false
    else if (0xE1 ≤ b && b ≤ 0xEC) || b = 0xEE || b = 0xEF then
      match r with
      | c1 :: c2 :: r2 =>
        (0x80 ≤ c1 && c1 ≤ 0xBF) && (0x80 ≤ c2 && c2 ≤ 0xBF) && utf8Valid r2
      | _ => false
    else if b = 0xED then
      match r with
      | c1 :: c2 :: r2 =>
        (0x80 ≤ c1 && c1 ≤ 0x9F) && (0x80 ≤ c2 && c2 ≤ 0xBF) && utf8Valid r2
      | _ => false
    else if b = 0xF0 then
      match r with
      | c1 :: c2 :: c3 :: r2 =>
        (0x90 ≤ c1 && c1 ≤ 0xBF) && (0x80 ≤ c2 && c2 ≤ 0xBF) &&
          (0x80 ≤ c3 && c3 ≤ 0xBF) && utf8Valid r2
      | _ => false
    else if 0xF1 ≤ b && b ≤ 0xF3 then
      match r with
      | c1 :: c2 :: c3 :: r2 =>
        (0x80 ≤ c1 && c1 ≤ 0xBF) && (0x80 ≤ c2 && c2 ≤ 0xBF) &&
          (0x80 ≤ c3 && c3 ≤ 0xBF) && utf8Valid r2
      | _ => false
    else if b = 0xF4 then
      match r with
      | c1 :: c2 :: c3 :: r2 =>
        (0x80 ≤ c1 && c1 ≤ 0x8F) && (0x80 ≤ c2 && c2 ≤ 0xBF) &&
          (0x80 ≤ c3 && c3 ≤ 0xBF) && utf8Valid r2
      | _ => false
    else false

/-- The bytes of the string literal String. -/
def strTyName : List Nat := [83, 116, 114, 105, 110, 103]

/-- The bytes of the string literal Vec. -/
def vecTyName : List Nat := [86, 101, 99]

/-- The bytes of the string literal BTreeMap. -/
def mapTyName : List Nat := [66, 84, 114, 101, 101, 77, 97, 112]

mutual
/-- Typeable::type_hash of each persistable type.  The tbd_model macro
    hashes the concatenation of the digests of the scalar field type
    tokens with the digests of the child types; the container impls hash
    their name digest followed by the element type digests; note the
    model type name itself is not part of the digest (hashio.rs
    lines 282-301). -/
def typeHash : Ty → Hash
  | Ty.str => Hash.hashBytes strTyName
  | Ty.vec t => Hash.hashBytes ((Hash.hashBytes vecTyName).getBytes ++ (typeHash t).getBytes)
  | Ty.bmap t => Hash.hashBytes ((Hash.hashBytes mapTyName).getBytes ++
      (Hash.hashBytes strTyName).getBytes ++ (typeHash t).getBytes)
  | Ty.model sts cts => Hash.hashBytes
      ((sts.flatMap fun st => (Hash.hashBytes st.name).getBytes) ++ typeHashList cts)
/-- Concatenated child type digests of a tbd_model struct. -/
def typeHashList : TyList → List Nat
  | TyList.nil => []
  | TyList.cons t ts => (typeHash t).getBytes ++ typeHashList ts
end

/-- hashio_1.rs impl Writable for String: u32 length then the bytes
    (shared by the current store; note no version, no type hash). -/
def serializeStr (b : List Nat) : List Nat :=
  usizeToU32Bytes b.length ++ b

/-- The writer the tbd_model macro pairs with each scalar field. -/
def writeScalar : ScalarVal → List Nat
  | ScalarVal.u8 n => writeU8 n
  | ScalarVal.u32 n => writeU32 n
  | ScalarVal.i16 z => writeI16 z
  | ScalarVal.i32 z => writeI32 z
  | ScalarVal.f32 b => writeF32 b
  | ScalarVal.tm t => writeTm t

mutual
/-- Writable::write_to of each persistable type: String writes length
    then bytes; Vec and BTreeMap (hashio_1.rs lines 352-364 and 431-442)
    write u32 0, u32 count, then the tagged element hashes; tbd_model
    structs write u32 1, the type hash, the scalar fields, then the
    tagged child hashes.  A child hash is the SHA3-256 of the child's own
    serialization (hashable_for_writable).  The catch-all arm covers the
    type/value mismatches that Rust's type system makes unrepresentable. -/
def serialize : Ty → PVal → List Nat
  | Ty.str, PVal.vstr b => serializeStr b
  | Ty.vec t, PVal.vvec es =>
    writeU32 0 ++ writeU32 es.length ++
      es.flatMap fun e => writeHash (Hash.sha3 (sha3Bytes (serialize t e)))
  | Ty.bmap t, PVal.vmap kvs =>
    writeU32 0 ++ writeU32 kvs.length ++
      kvs.flatMap fun kv =>
        writeHash (Hash.sha3 (sha3Bytes (serializeStr kv.1))) ++
        writeHash (Hash.sha3 (sha3Bytes (serialize t kv.2)))
  | Ty.model sts cts, PVal.vmodel svs cvs =>
    writeU32 1 ++ writeHash (typeHash (Ty.model sts cts)) ++
      svs.flatMap writeScalar ++ childHashBytes cts cvs
  | _, _ => []
/-- The tagged child hashes written by a tbd_model struct. -/
def childHashBytes : TyList → List PVal → List Nat
  | TyList.cons t ts, v :: vs =>
    writeHash (Hash.sha3 (sha3Bytes (serialize t v))) ++ childHashBytes ts vs
  | _, _ => []
end

/-- Hashable::as_hash via writable_to_hash: SHA3-256 of the value's
    serialization. -/
def pvalHash (t : Ty) (v : PVal) : Hash :=
  Hash.sha3 (sha3Bytes (serialize t v))

/-! ## The on-disk store (hashio.rs HashIO) -/

/-- Store error type, hashio.rs HashIOError (payloads of the wrapped
    io::Error and parse error are not modelled). -/
inductive HashIOError where
  | undefined : HashIOError
  | versionError : Nat → HashIOError
  | typeError : Hash → HashIOError
  | ioError : HashIOError
  | parseError : HashIOError
deriving DecidableEq, Repr

/-- The filesystem: an association list from file paths (byte lists) to
    contents, together with the set of paths at which File::create fails,
    modelling the environment's injected I/O failures.  Directories are
    not tracked (create_dir_all cannot fail in this model). -/
structure FS where
  files : List (List Nat × List Nat)
  failCreate : List (List Nat)
deriving DecidableEq, Repr

/-- Look a path up. -/
def fsLookup (fs : FS) (p : List Nat) : Option (List Nat) :=
  (fs.files.find? fun e => e.1 = p).map Prod.snd

/-- Replace the entry at a path, or append a new entry. -/
def fsFilesInsert : List (List Nat × List Nat) → List Nat → List Nat →
    List (List Nat × List Nat)
  | [], p, c => [(p, c)]
  | e :: r, p, c => if e.1 = p then (p, c) :: r else e :: fsFilesInsert r p c

/-- Write a file: replace the entry if the path exists, append otherwise. -/
def fsInsert (fs : FS) (p c : List Nat) : FS :=
  { fs with files := fsFilesInsert fs.files p c }

/-- Remove every entry at a path. -/
def fsFilesErase : List (List Nat × List Nat) → List Nat → List (List Nat × List Nat)
  | [], _ => []
  | e :: r, p => if e.1 = p then fsFilesErase r p else e :: fsFilesErase r p

/-- Remove a file. -/
def fsErase (fs : FS) (p : List Nat) : FS :=
  { fs with files := fsFilesErase fs.files p }

/-- File::create followed by writing the full contents and closing. -/
def fsCreate (fs : FS) (p c : List Nat) : Except HashIOError FS :=
  if p ∈ fs.failCreate then Except.error HashIOError.ioError
  else Except.ok (fsInsert fs p c)

/-- fs::rename: fails if the source is absent, else moves the contents. -/
def fsRename (fs : FS) (src dst : List Nat) : Except HashIOError FS :=
  match fsLookup fs src with
  | Option.none => Except.error HashIOError.ioError
  | some c => Except.ok (fsInsert (fsErase fs src) dst c)

/-- hashio.rs HashIO::directory_for_hash: base, slash, the first two hex
    characters of the digest, slash.  (47 is the ASCII slash; for
    Hash::None the Rust slice hash_str[0..2] would panic, the model
    simply takes the empty prefix.) -/
def directoryForHash (base : List Nat) (h : Hash) : List Nat :=
  base ++ [47] ++ h.asString.take 2 ++ [47]

/-- hashio.rs HashIO::filename_for_hash. -/
def filenameForHash (base : List Nat) (h : Hash) : List Nat :=
  directoryForHash base h ++ h.asString.drop 2

/-- The temporary sibling path: the file name with an underscore (95)
    appended, hashio.rs put writes to it and renames. -/
def safeFilename (base : List Nat) (h : Hash) : List Nat :=
  filenameForHash base h ++ [95]

/-- hashio.rs HashIO::put instantiated at String (also used for BTreeMap
    keys, whose static type is String in this repository). -/
def putStr (b : List Nat) (base : List Nat) (fs : FS) : Except HashIOError FS :=
  let h := pvalHash Ty.str (PVal.vstr b)
  let filename := filenameForHash base h
  if (fsLookup fs filename).isSome then Except.ok fs
  else do
    let fs1 ← fsCreate fs (safeFilename base h) (serializeStr b)
    fsRename fs1 (safeFilename base h) filename

mutual
/-- hashio.rs HashIO::put, instantiated at each persistable type.
    If the target file exists the insert is skipped.  Otherwise children
    are stored (the tbd_model store_childs runs before the parent file is
    created; Vec and BTreeMap put their elements inside store_hashable,
    after File::create of the temp file but before its contents are
    written), and the serialization lands at the temp path which is then
    renamed over the final path. -/
def putVal : Ty → PVal → List Nat → FS → Except HashIOError FS
  | t, v, base, fs =>
    let h := pvalHash t v
    let filename := filenameForHash base h
    if (fsLookup fs filename).isSome then Except.ok fs
    else
      match t, v with
      | Ty.str, PVal.vstr b => do
        let fs1 ← fsCreate fs (safeFilename base h) (serializeStr b)
        fsRename fs1 (safeFilename base h) filename
      | Ty.vec t1, PVal.vvec es => do
        let fs1 ← fsCreate fs (safeFilename base h) []
        let fs2 ← es.foldlM (fun acc e => putVal t1 e base acc) fs1
        let fs3 := fsInsert fs2 (safeFilename base h) (serialize (Ty.vec t1) (PVal.vvec es))
        fsRename fs3 (safeFilename base h) filename
      | Ty.bmap t1, PVal.vmap kvs => do
        let fs1 ← fsCreate fs (safeFilename base h) []
        let fs2 ← kvs.foldlM
          (fun acc kv => do
            let acc1 ← putStr kv.1 base acc
            putVal t1 kv.2 base acc1) fs1
        let fs3 := fsInsert fs2 (safeFilename base h) (serialize (Ty.bmap t1) (PVal.vmap kvs))
        fsRename fs3 (safeFilename base h) filename
      | Ty.model sts cts, PVal.vmodel svs cvs => do
        let fs1 ← putChildren cts cvs base fs
        let fs2 ← fsCreate fs1 (safeFilename base h)
          (serialize (Ty.model sts cts) (PVal.vmodel svs cvs))
        fsRename fs2 (safeFilename base h) filename
      | _, _ => Except.error HashIOError.undefined
/-- The tbd_model store_childs: put every child field in order. -/
def putChildren : TyList → List PVal → List Nat → FS → Except HashIOError FS
  | TyList.cons t ts, v :: vs, base, fs => do
    let fs1 ← putVal t v base fs
    putChildren ts vs base fs1
  | _, _, _, fs => Except.ok fs
end

/-- The reader for the scalar field codecs of tbd_model. -/
def readScalar : ScalarKind → List Nat → ScalarVal × List Nat
  | ScalarKind.u8, s => let r := readU8 s; (ScalarVal.u8 r.1, r.2)
  | ScalarKind.u32, s => let r := readU32 s; (ScalarVal.u32 r.1, r.2)
  | ScalarKind.i16, s => let r := readI16 s; (ScalarVal.i16 r.1, r.2)
  | ScalarKind.i32, s => let r := readI32 s; (ScalarVal.i32 r.1, r.2)
  | ScalarKind.f32, s => let r := readF32 s; (ScalarVal.f32 r.1, r.2)
  | ScalarKind.tm, s => let r := readTm s; (ScalarVal.tm r.1, r.2)

/-- Consecutive scalar field reads. -/
def readScalars : List ScalarTy → List Nat → List ScalarVal × List Nat
  | [], s => ([], s)
  | st :: sts, s =>
    let r := readScalar st.kind s
    let rest := readScalars sts r.2
    (r.1 :: rest.1, rest.2)

/-- BTreeMap::insert into the sorted association list. -/
def mapInsert : List (List Nat × PVal) → List Nat → PVal → List (List Nat × PVal)
  | [], k, v => [(k, v)]
  | (k1, v1) :: r, k, v =>
    if lexLt k k1 then (k, v) :: (k1, v1) :: r
    else if k = k1 then (k, v) :: r
    else (k1, v1) :: mapInsert r k v

/-- String receive_hashable (hashio.rs lines 173-179): u32 length, that
    many bytes, then the UTF-8 check of String::from_utf8. -/
def receiveStr (bytes : List Nat) : Except HashIOError PVal :=
  let r1 := readU32 bytes
  let r2 := readBytes r1.1 r1.2
  if utf8Valid r2.1 then Except.ok (PVal.vstr r2.1)
  else Except.error HashIOError.parseError

mutual
/-- hashio.rs HashIO::get followed by the per-type receive_hashable
    (with the default flex_no hook, which never produces a value, so
    receive_hashable reduces to internal_receive; the flex wrapper is
    studied separately).  File::open of a missing path is the IOError
    case.  Strings read length and bytes; Vec and BTreeMap read and
    discard a u32, read the count, then fetch each element by its tagged
    hash; tbd_model structs check version and type hash, read the
    scalars, then fetch each child by its tagged hash. -/
def getVal : Ty → Hash → List Nat → FS → Except HashIOError PVal
  | t, h, base, fs =>
    match fsLookup fs (filenameForHash base h) with
    | Option.none => Except.error HashIOError.ioError
    | some bytes =>
      match t with
      | Ty.str => receiveStr bytes
      | Ty.vec t1 =>
        let r1 := readU32 bytes
        let r2 := readU32 r1.2
        (fun st => Except.map (fun acc => PVal.vvec acc.1) st)
          ((List.range r2.1).foldlM
            (fun (acc : List PVal × List Nat) _ => do
              let rh := readHash acc.2
              let v ← getVal t1 rh.1 base fs
              Except.ok (acc.1 ++ [v], rh.2))
            (([] : List PVal), r2.2))
      | Ty.bmap t1 =>
        let r1 := readU32 bytes
        let r2 := readU32 r1.2
        (fun st => Except.map (fun acc => PVal.vmap acc.1) st)
          ((List.range r2.1).foldlM
            (fun (acc : List (List Nat × PVal) × List Nat) _ => do
              let kh := readHash acc.2
              let vh := readHash kh.2
              let k ← match fsLookup fs (filenameForHash base kh.1) with
                | Option.none => Except.error HashIOError.ioError
                | some kbytes => receiveStr kbytes
              let v ← getVal t1 vh.1 base fs
              match k with
              | PVal.vstr kb => Except.ok (mapInsert acc.1 kb v, vh.2)
              | _ => Except.error HashIOError.undefined)
            (([] : List (List Nat × PVal)), r2.2))
      | Ty.model sts cts =>
        let r1 := readU32 bytes
        if r1.1 < 1 then Except.error (HashIOError.versionError r1.1)
        else
          let r2 := readHash r1.2
          if r2.1 ≠ typeHash (Ty.model sts cts) then
            Except.error (HashIOError.typeError r2.1)
          else
            let r3 := readScalars sts r2.2
            Except.map (fun cvs => PVal.vmodel r3.1 cvs)
              (getChildren cts r3.2 base fs)
/-- Child reads of a tbd_model struct: a tagged hash then a recursive
    get, in field order. -/
def getChildren : TyList → List Nat → List Nat → FS → Except HashIOError (List PVal)
  | TyList.nil, _, _, _ => Except.ok []
  | TyList.cons t ts, s, base, fs => do
    let rh := readHash s
    let v ← getVal t rh.1 base fs
    let rest ← getChildren ts rh.2 base fs
    Except.ok (v :: rest)
end

/-! ## Well-typedness, closure and Rust equality -/

/-- Every Tm field fits in an i32. -/
def tmWf (t : Tm) : Bool :=
  decide (-2 ^ 31 ≤ t.sec ∧ t.sec < 2 ^ 31) &&
  decide (-2 ^ 31 ≤ t.minute ∧ t.minute < 2 ^ 31) &&
  decide (-2 ^ 31 ≤ t.hour ∧ t.hour < 2 ^ 31) &&
  decide (-2 ^ 31 ≤ t.mday ∧ t.mday < 2 ^ 31) &&
  decide (-2 ^ 31 ≤ t.mon ∧ t.mon < 2 ^ 31) &&
  decide (-2 ^ 31 ≤ t.year ∧ t.year < 2 ^ 31) &&
  decide (-2 ^ 31 ≤ t.wday ∧ t.wday < 2 ^ 31) &&
  decide (-2 ^ 31 ≤ t.yday ∧ t.yday < 2 ^ 31) &&
  decide (-2 ^ 31 ≤ t.isdst ∧ t.isdst < 2 ^ 31) &&
  decide (-2 ^ 31 ≤ t.utcoff ∧ t.utcoff < 2 ^ 31) &&
  decide (-2 ^ 31 ≤ t.nsec ∧ t.nsec < 2 ^ 31)

/-- A scalar value inhabits its declared scalar type (the Rust machine
    integer ranges). -/
def scalarWf : ScalarTy → ScalarVal → Bool
  | ⟨_, ScalarKind.u8⟩, ScalarVal.u8 n => decide (n < 2 ^ 8)
  | ⟨_, ScalarKind.u32⟩, ScalarVal.u32 n => decide (n < 2 ^ 32)
  | ⟨_, ScalarKind.i16⟩, ScalarVal.i16 z => decide (-2 ^ 15 ≤ z ∧ z < 2 ^ 15)
  | ⟨_, ScalarKind.i32⟩, ScalarVal.i32 z => decide (-2 ^ 31 ≤ z ∧ z < 2 ^ 31)
  | ⟨_, ScalarKind.f32⟩, ScalarVal.f32 b => decide (b < 2 ^ 32)
  | ⟨_, ScalarKind.tm⟩, ScalarVal.tm t => tmWf t
  | _, _ => false

/-- Scalar field list against the declared scalar types. -/
def scalarsWf : List ScalarTy → List ScalarVal → Bool
  | [], [] => true
  | st :: sts, sv :: svs => scalarWf st sv && scalarsWf sts svs
  | _, _ => false

/-- Strictly increasing keys, the BTreeMap iteration-order invariant. -/
def keysSorted : List (List Nat × PVal) → Bool
  | [] => true
  | [_] => true
  | k1 :: k2 :: r => lexLt k1.1 k2.1 && keysSorted (k2 :: r)

mutual
/-- The Rust value v inhabits the persistable type t: strings are valid
    UTF-8 (a Rust String invariant) and shorter than 2^32 (the length is
    cast to u32 on disk), container counts fit a u32, map keys are
    sorted Strings, scalar fields are in range, children are wellformed
    at their declared types. -/
def wt : Ty → PVal → Bool
  | Ty.str, PVal.vstr b => utf8Valid b && decide (b.length < 2 ^ 32)
  | Ty.vec t, PVal.vvec es => decide (es.length < 2 ^ 32) && es.all fun e => wt t e
  | Ty.bmap t, PVal.vmap kvs =>
    decide (kvs.length < 2 ^ 32) && keysSorted kvs &&
      kvs.all fun kv =>
        (utf8Valid kv.1 && decide (kv.1.length < 2 ^ 32)) && wt t kv.2
  | Ty.model sts cts, PVal.vmodel svs cvs => scalarsWf sts svs && wtChildren cts cvs
  | _, _ => false
/-- Children against the declared child type list. -/
def wtChildren : TyList → List PVal → Bool
  | TyList.nil, [] => true
  | TyList.cons t ts, v :: vs => wt t v && wtChildren ts vs
  | _, _ => false
end

mutual
/-- All objects stored when the value is put: the value itself and,
    recursively, the vec elements, the map keys (String objects) and
    values, and the model children, each paired with its static type. -/
def pclosure : Ty → PVal → List (Ty × PVal)
  | Ty.str, v => [(Ty.str, v)]
  | Ty.vec t, PVal.vvec es => (Ty.vec t, PVal.vvec es) :: es.flatMap fun e => pclosure t e
  | Ty.bmap t, PVal.vmap kvs =>
    (Ty.bmap t, PVal.vmap kvs) ::
      kvs.flatMap fun kv => (Ty.str, PVal.vstr kv.1) :: pclosure t kv.2
  | Ty.model sts cts, PVal.vmodel svs cvs =>
    (Ty.model sts cts, PVal.vmodel svs cvs) :: pclosureChildren cts cvs
  | t, v => [(t, v)]
/-- Closures of the children of a model value. -/
def pclosureChildren : TyList → List PVal → List (Ty × PVal)
  | TyList.cons t ts, v :: vs => pclosure t v ++ pclosureChildren ts vs
  | _, _ => []
end

/-- IEEE-754 single: NaN bit patterns. -/
def f32IsNan (bits : Nat) : Bool :=
  decide (bits / 2 ^ 23 % 2 ^ 8 = 255) && decide (¬ bits % 2 ^ 23 = 0)

/-- Rust PartialEq on a scalar field: derived equality except on f32,
    where IEEE semantics make NaN unequal to itself and the two zero
    patterns equal. -/
def scalarRustEq : ScalarVal → ScalarVal → Bool
  | ScalarVal.u8 a, ScalarVal.u8 b => a = b
  | ScalarVal.u32 a, ScalarVal.u32 b => a = b
  | ScalarVal.i16 a, ScalarVal.i16 b => a = b
  | ScalarVal.i32 a, ScalarVal.i32 b => a = b
  | ScalarVal.f32 a, ScalarVal.f32 b =>
    (!f32IsNan a && !f32IsNan b) &&
      ((decide (a % 2 ^ 31 = 0) && decide (b % 2 ^ 31 = 0)) || a = b)
  | ScalarVal.tm a, ScalarVal.tm b => a = b
  | _, _ => false

/-- Pairwise scalar equality. -/
def scalarsRustEq : List ScalarVal → List ScalarVal → Bool
  | [], [] => true
  | a :: as, b :: bs => scalarRustEq a b && scalarsRustEq as bs
  | _, _ => false

mutual
/-- The derived Rust PartialEq of two values of persistable type t
    (field-wise, with IEEE comparison on f32 fields). -/
def rustEq : Ty → PVal → PVal → Bool
  | Ty.str, PVal.vstr a, PVal.vstr b => a = b
  | Ty.vec t, PVal.vvec as, PVal.vvec bs =>
    decide (as.length = bs.length) && (as.zip bs).all fun p => rustEq t p.1 p.2
  | Ty.bmap t, PVal.vmap as, PVal.vmap bs =>
    decide (as.length = bs.length) &&
      (as.zip bs).all fun p => decide (p.1.1 = p.2.1) && rustEq t p.1.2 p.2.2
  | Ty.model _ cts, PVal.vmodel svs1 cvs1, PVal.vmodel svs2 cvs2 =>
    scalarsRustEq svs1 svs2 && rustEqChildren cts cvs1 cvs2
  | _, _, _ => false
/-- PartialEq of the child fields. -/
def rustEqChildren : TyList → List PVal → List PVal → Bool
  | TyList.nil, [], [] => true
  | TyList.cons t ts, v :: vs, w :: ws => rustEq t v w && rustEqChildren ts vs ws
  | _, _, _ => false
end

/-! ## Filesystem and path lemmas -/

lemma filesInsert_find_self :
    ∀ (l : List (List Nat × List Nat)) (p c : List Nat),
      (fsFilesInsert l p c).find? (fun e => decide (e.1 = p)) = some (p, c) := by
  intro l p c
  induction l with
  | nil => simp [fsFilesInsert]
  | cons e r ih =>
    by_cases he : e.1 = p
    · simp [fsFilesInsert, he]
    · simp [fsFilesInsert, he, ih]

lemma filesInsert_find_ne :
    ∀ (l : List (List Nat × List Nat)) (p c q : List Nat), q ≠ p →
      (fsFilesInsert l p c).find? (fun e => decide (e.1 = q)) =
        l.find? (fun e => decide (e.1 = q)) := by
  intro l p c q hq
  have hpq : ¬ (p = q) := fun h => hq h.symm
  induction l with
  | nil => simp [fsFilesInsert, hpq]
  | cons e r ih =>
    by_cases he : e.1 = p
    · have heq : ¬ (e.1 = q) := by rw [he]; exact hpq
      show List.find? _ (if e.1 = p then (p, c) :: r else e :: fsFilesInsert r p c) = _
      rw [if_pos he, List.find?_cons_of_neg _ (by simpa using hpq),
        List.find?_cons_of_neg _ (by simpa using heq)]
    · by_cases heq : e.1 = q
      · show List.find? _ (if e.1 = p then (p, c) :: r else e :: fsFilesInsert r p c) = _
        rw [if_neg he, List.find?_cons_of_pos _ (by simpa using heq),
          List.find?_cons_of_pos _ (by simpa using heq)]
      · show List.find? _ (if e.1 = p then (p, c) :: r else e :: fsFilesInsert r p c) = _
        rw [if_neg he, List.find?_cons_of_neg _ (by simpa using heq),
          List.find?_cons_of_neg _ (by simpa using heq)]
        exact ih

lemma fsLookup_insert (fs : FS) (p c : List Nat) :
    fsLookup (fsInsert fs p c) p = some c := by
  show ((fsFilesInsert fs.files p c).find? (fun e => decide (e.1 = p))).map Prod.snd = _
  rw [filesInsert_find_self]
  rfl

lemma fsLookup_insert_ne (fs : FS) {p q : List Nat} (hq : q ≠ p) (c : List Nat) :
    fsLookup (fsInsert fs p c) q = fsLookup fs q := by
  show ((fsFilesInsert fs.files p c).find? (fun e => decide (e.1 = q))).map Prod.snd = _
  rw [filesInsert_find_ne fs.files p c q hq]
  rfl

lemma filesErase_find_self :
    ∀ (l : List (List Nat × List Nat)) (p : List Nat),
      (fsFilesErase l p).find? (fun e => decide (e.1 = p)) = Option.none := by
  intro l p
  induction l with
  | nil => rfl
  | cons e r ih =>
    by_cases he : e.1 = p
    · simp [fsFilesErase, he, ih]
    · simp [fsFilesErase, he, ih]

lemma filesErase_find_ne :
    ∀ (l : List (List Nat × List Nat)) (p q : List Nat), q ≠ p →
      (fsFilesErase l p).find? (fun e => decide (e.1 = q)) =
        l.find? (fun e => decide (e.1 = q)) := by
  intro l p q hq
  induction l with
  | nil => rfl
  | cons e r ih =>
    by_cases he : e.1 = p
    · have heq : ¬ (e.1 = q) := by rw [he]; exact fun h => hq h.symm
      show List.find? _ (if e.1 = p then fsFilesErase r p else e :: fsFilesErase r p) = _
      rw [if_pos he, List.find?_cons_of_neg _ (by simpa using heq)]
      exact ih
    · by_cases heq : e.1 = q
      · show List.find? _ (if e.1 = p then fsFilesErase r p else e :: fsFilesErase r p) = _
        rw [if_neg he, List.find?_cons_of_pos _ (by simpa using heq),
          List.find?_cons_of_pos _ (by simpa using heq)]
      · show List.find? _ (if e.1 = p then fsFilesErase r p else e :: fsFilesErase r p) = _
        rw [if_neg he, List.find?_cons_of_neg _ (by simpa using heq),
          List.find?_cons_of_neg _ (by simpa using heq)]
        exact ih

lemma fsLookup_erase_self (fs : FS) (p : List Nat) :
    fsLookup (fsErase fs p) p = Option.none := by
  show ((fsFilesErase fs.files p).find? (fun e => decide (e.1 = p))).map Prod.snd = _
  rw [filesErase_find_self]
  rfl

lemma fsLookup_erase_ne (fs : FS) {p q : List Nat} (hq : q ≠ p) :
    fsLookup (fsErase fs p) q = fsLookup fs q := by
  show ((fsFilesErase fs.files p).find? (fun e => decide (e.1 = q))).map Prod.snd = _
  rw [filesErase_find_ne fs.files p q hq]
  rfl

lemma fsInsert_failCreate (fs : FS) (p c : List Nat) :
    (fsInsert fs p c).failCreate = fs.failCreate := rfl

lemma fsErase_failCreate (fs : FS) (p : List Nat) :
    (fsErase fs p).failCreate = fs.failCreate := rfl

lemma sha3Bytes_length (m : List Nat) : (sha3Bytes m).length = 32 := by
  simp [sha3Bytes]

lemma sha3Bytes_lt (m : List Nat) : ∀ x ∈ sha3Bytes m, x < 256 := by
  intro x hx
  simp only [sha3Bytes, List.mem_map] at hx
  obtain ⟨i, _, rfl⟩ := hx
  exact Nat.mod_lt _ (by omega)

lemma asString_sha3_length {b : List Nat} (hb : b.length = 32) :
    (Hash.sha3 b).asString.length = 64 := by
  show (bytesToHexChars b).length = 64
  rw [bytesToHexChars_length, hb]

lemma filenameForHash_length {b : List Nat} (hb : b.length = 32) (base : List Nat) :
    (filenameForHash base (Hash.sha3 b)).length = base.length + 66 := by
  have h64 := asString_sha3_length hb
  simp [filenameForHash, directoryForHash, h64]

lemma safeFilename_length {b : List Nat} (hb : b.length = 32) (base : List Nat) :
    (safeFilename base (Hash.sha3 b)).length = base.length + 67 := by
  simp [safeFilename, filenameForHash_length hb]

lemma fname_ne_safe {b1 b2 : List Nat} (h1 : b1.length = 32) (h2 : b2.length = 32)
    (base : List Nat) :
    filenameForHash base (Hash.sha3 b1) ≠ safeFilename base (Hash.sha3 b2) := by
  intro h
  have := congrArg List.length h
  rw [filenameForHash_length h1, safeFilename_length h2] at this
  omega

lemma filenameForHash_inj {b1 b2 : List Nat} (h1 : b1.length = 32) (h2 : b2.length = 32)
    (l1 : ∀ x ∈ b1, x < 256) (l2 : ∀ x ∈ b2, x < 256) (base : List Nat)
    (h : filenameForHash base (Hash.sha3 b1) = filenameForHash base (Hash.sha3 b2)) :
    b1 = b2 := by
  have hs1 : (Hash.sha3 b1).asString = bytesToHexChars b1 := rfl
  have hs2 : (Hash.sha3 b2).asString = bytesToHexChars b2 := rfl
  simp only [filenameForHash, directoryForHash, hs1, hs2, List.append_assoc] at h
  have h3 := List.append_cancel_left h
  have h4 := List.append_cancel_left h3
  have hlen : ((bytesToHexChars b1).take 2).length = ((bytesToHexChars b2).take 2).length := by
    rw [List.length_take, List.length_take, bytesToHexChars_length, bytesToHexChars_length,
      h1, h2]
  have h5 := List.append_inj h4 hlen
  have h6 := List.append_cancel_left h5.2
  have hhex : bytesToHexChars b1 = bytesToHexChars b2 := by
    have := congrArg₂ List.append h5.1 h6
    simpa [List.take_append_drop] using this
  have := congrArg hexPairsList hhex
  rwa [hexPairsList_bytesToHexChars b1 l1, hexPairsList_bytesToHexChars b2 l2] at this

/-! ## Codec round-trip lemmas -/

lemma beNat_beBytes32 {n : Nat} (h : n < 2 ^ 32) : beNat (beBytes32 n) = n := by
  simp [beNat, beBytes32]
  omega

lemma readU32_write {n : Nat} (h : n < 2 ^ 32) (rest : List Nat) :
    readU32 (writeU32 n ++ rest) = (n, rest) := by
  have hlen : (writeU32 n).length = 4 := rfl
  have h1 : fillZero 4 (writeU32 n ++ rest) = writeU32 n := by
    rw [fillZero, List.take_left' hlen]
    have h0 : 4 - (writeU32 n ++ rest).length = 0 := by
      rw [List.length_append, hlen]; omega
    rw [h0]
    simp
  rw [readU32, h1, List.drop_left' hlen, show writeU32 n = beBytes32 n from rfl,
    beNat_beBytes32 h]

lemma readU8_write {n : Nat} (h : n < 256) (rest : List Nat) :
    readU8 (writeU8 n ++ rest) = (n, rest) := by
  simp [readU8, writeU8, fillZero, Nat.mod_eq_of_lt h]

lemma toSigned_roundtrip32 {z : Int} (h1 : -2 ^ 31 ≤ z) (h2 : z < 2 ^ 31) :
    toSigned 32 (z % 2 ^ 32).toNat = z := by
  unfold toSigned
  have e1 : (2 : Int) ^ 31 = 2147483648 := by norm_num
  have e2 : (2 : Int) ^ 32 = 4294967296 := by norm_num
  have e3 : (2 : Nat) ^ (32 - 1) = 2147483648 := by norm_num
  rw [e3, e2]
  rw [e1] at h1 h2
  split <;> omega

lemma toSigned_roundtrip16 {z : Int} (h1 : -2 ^ 15 ≤ z) (h2 : z < 2 ^ 15) :
    toSigned 16 (z % 2 ^ 16).toNat = z := by
  unfold toSigned
  have e1 : (2 : Int) ^ 15 = 32768 := by norm_num
  have e2 : (2 : Int) ^ 16 = 65536 := by norm_num
  have e3 : (2 : Nat) ^ (16 - 1) = 32768 := by norm_num
  rw [e3, e2]
  rw [e1] at h1 h2
  split <;> omega

lemma readI32_write {z : Int} (h1 : -2 ^ 31 ≤ z) (h2 : z < 2 ^ 31) (rest : List Nat) :
    readI32 (writeI32 z ++ rest) = (z, rest) := by
  have hn : (z % 2 ^ 32).toNat < 2 ^ 32 := by omega
  have hlen : (writeI32 z).length = 4 := rfl
  have hfz : fillZero 4 (writeI32 z ++ rest) = writeI32 z := by
    rw [fillZero, List.take_left' hlen]
    have h0 : 4 - (writeI32 z ++ rest).length = 0 := by
      rw [List.length_append, hlen]; omega
    rw [h0]
    simp
  have hwz : writeI32 z = beBytes32 (z % 2 ^ 32).toNat := rfl
  rw [readI32, hfz, List.drop_left' hlen, hwz, beNat_beBytes32 hn, toSigned_roundtrip32 h1 h2]

lemma readI16_write {z : Int} (h1 : -2 ^ 15 ≤ z) (h2 : z < 2 ^ 15) (rest : List Nat) :
    readI16 (writeI16 z ++ rest) = (z, rest) := by
  have hlen : (writeI16 z).length = 2 := rfl
  have hfz : fillZero 2 (writeI16 z ++ rest) = writeI16 z := by
    rw [fillZero, List.take_left' hlen]
    have h0 : 2 - (writeI16 z ++ rest).length = 0 := by
      rw [List.length_append, hlen]; omega
    rw [h0]
    simp
  have hbe : beNat (writeI16 z) = (z % 2 ^ 16).toNat := by
    have hlt : (z % 2 ^ 16).toNat < 2 ^ 16 := by omega
    simp [beNat, writeI16]
    omega
  rw [readI16, hfz, List.drop_left' hlen, hbe, toSigned_roundtrip16 h1 h2]

lemma readF32_write {b : Nat} (h : b < 2 ^ 32) (rest : List Nat) :
    readF32 (writeF32 b ++ rest) = (b, rest) := by
  have h1 : readU32 (writeU32 b ++ rest) = (b, rest) := readU32_write h rest
  simpa [readU32, readF32, writeU32, writeF32] using h1

lemma readTm_write {t : Tm} (h : tmWf t = true) (rest : List Nat) :
    readTm (writeTm t ++ rest) = (t, rest) := by
  simp only [tmWf, Bool.and_eq_true, decide_eq_true_eq] at h
  obtain ⟨⟨⟨⟨⟨⟨⟨⟨⟨⟨hs, hmi⟩, hh⟩, hmd⟩, hmo⟩, hy⟩, hw⟩, hyd⟩, hi⟩, hu⟩, hn⟩ := h
  simp only [writeTm, List.append_assoc]
  simp only [readTm, readI32_write hs.1 hs.2, readI32_write hmi.1 hmi.2,
    readI32_write hh.1 hh.2, readI32_write hmd.1 hmd.2, readI32_write hmo.1 hmo.2,
    readI32_write hy.1 hy.2, readI32_write hw.1 hw.2, readI32_write hyd.1 hyd.2,
    readI32_write hi.1 hi.2, readI32_write hu.1 hu.2, readI32_write hn.1 hn.2]

lemma readHash_write_sha3 {b : List Nat} (hb : b.length = 32) (rest : List Nat) :
    readHash (writeHash (Hash.sha3 b) ++ rest) = (Hash.sha3 b, rest) := by
  have hw : writeHash (Hash.sha3 b) ++ rest = [1] ++ (b ++ rest) := by
    simp [writeHash, writeU8, Hash.getBytes]
  have hu8 : readU8 ([1] ++ (b ++ rest)) = (1, b ++ rest) := by
    simp [readU8, fillZero]
  have hfz : fillZero 32 (b ++ rest) = b := by
    rw [fillZero, List.take_left' hb]
    have h0 : 32 - (b ++ rest).length = 0 := by
      rw [List.length_append, hb]; omega
    rw [h0]
    simp
  rw [hw, readHash]
  simp only [hu8, hfz]
  simp [List.drop_left' hb]

lemma readHash_write_none (rest : List Nat) :
    readHash (writeHash Hash.none ++ rest) = (Hash.none, rest) := by
  have hw : writeHash Hash.none ++ rest = [0] ++ rest := by
    simp [writeHash, writeU8, Hash.getBytes]
  have hu8 : readU8 ([0] ++ rest) = (0, rest) := by
    simp [readU8, fillZero]
  rw [hw, readHash]
  simp only [hu8]
  rw [if_neg (by omega)]

lemma readBytesAux_exact :
    ∀ (l rest : List Nat) (last : Nat), readBytesAux l.length last (l ++ rest) = (l, rest) := by
  intro l
  induction l with
  | nil => intro rest last; rfl
  | cons b r ih =>
    intro rest last
    show (b :: (readBytesAux r.length b (r ++ rest)).1,
      (readBytesAux r.length b (r ++ rest)).2) = _
    rw [ih rest b]

lemma receiveStr_serialize {b : List Nat} (hu : utf8Valid b = true)
    (hlen : b.length < 2 ^ 32) :
    receiveStr (serializeStr b) = Except.ok (PVal.vstr b) := by
  have hser : serializeStr b = writeU32 b.length ++ b := rfl
  have hb : b ++ ([] : List Nat) = b := List.append_nil b
  rw [receiveStr, hser]
  simp only [readU32_write hlen]
  show (if utf8Valid (readBytes b.length b).1 = true then _ else _) = _
  have hrb : readBytes b.length b = (b, []) := by
    have := readBytesAux_exact b [] 0
    rw [List.append_nil] at this
    rw [readBytes, this]
  rw [hrb]
  simp [hu]

lemma readScalar_write {st : ScalarTy} {sv : ScalarVal} (h : scalarWf st sv = true)
    (rest : List Nat) :
    readScalar st.kind (writeScalar sv ++ rest) = (sv, rest) := by
  obtain ⟨nm, k⟩ := st
  cases k <;> cases sv <;> simp [scalarWf] at h <;> simp only [readScalar, writeScalar]
  · rw [readU8_write (by omega) rest]
  · rw [readU32_write (by omega) rest]
  · rw [readI16_write h.1 h.2 rest]
  · rw [readI32_write h.1 h.2 rest]
  · rw [readF32_write (by omega) rest]
  · rw [readTm_write h rest]

lemma readScalars_write :
    ∀ (sts : List ScalarTy) (svs : List ScalarVal), scalarsWf sts svs = true →
      ∀ rest : List Nat, readScalars sts (svs.flatMap writeScalar ++ rest) = (svs, rest) := by
  intro sts
  induction sts with
  | nil =>
    intro svs h rest
    cases svs with
    | nil => rfl
    | cons sv svs => simp [scalarsWf] at h
  | cons st sts ih =>
    intro svs h rest
    cases svs with
    | nil => simp [scalarsWf] at h
    | cons sv svs =>
      simp only [scalarsWf, Bool.and_eq_true] at h
      show (let r := readScalar st.kind ((sv :: svs).flatMap writeScalar ++ rest)
        let rr := readScalars sts r.2
        (r.1 :: rr.1, rr.2)) = _
      have hflat : (sv :: svs).flatMap writeScalar ++ rest =
          writeScalar sv ++ (svs.flatMap writeScalar ++ rest) := by
        simp [List.flatMap_cons, List.append_assoc]
      rw [hflat]
      simp only [readScalar_write h.1]
      rw [ih svs h.2 rest]

/-! ## Key order and fold helpers -/

lemma lexLt_trans : ∀ a b c : List Nat, lexLt a b = true → lexLt b c = true →
    lexLt a c = true := by
  intro a
  induction a with
  | nil =>
    intro b c hab hbc
    cases b with
    | nil => simp [lexLt] at hab
    | cons xb bs =>
      cases c with
      | nil => simp [lexLt] at hbc
      | cons xc cs => simp [lexLt]
  | cons xa as ih =>
    intro b c hab hbc
    cases b with
    | nil => simp [lexLt] at hab
    | cons xb bs =>
      cases c with
      | nil => simp [lexLt] at hbc
      | cons xc cs =>
        simp only [lexLt] at hab hbc ⊢
        by_cases h1 : xa < xb
        · by_cases h2 : xb < xc
          · rw [if_pos (by omega)]
          · rw [if_neg h2] at hbc
            by_cases h3 : xc < xb
            · rw [if_pos h3] at hbc
              exact absurd hbc (by simp)
            · rw [if_pos (by omega)]
        · rw [if_neg h1] at hab
          by_cases h1b : xb < xa
          · rw [if_pos h1b] at hab
            exact absurd hab (by simp)
          · rw [if_neg h1b] at hab
            have hxab : xa = xb := by omega
            by_cases h2 : xb < xc
            · rw [if_pos (by omega)]
            · rw [if_neg h2] at hbc
              by_cases h2b : xc < xb
              · rw [if_pos h2b] at hbc
                exact absurd hbc (by simp)
              · rw [if_neg h2b] at hbc
                rw [if_neg (by omega), if_neg (by omega)]
                exact ih bs cs hab hbc

lemma lexLt_irrefl : ∀ a : List Nat, lexLt a a = false := by
  intro a
  induction a with
  | nil => rfl
  | cons x as ih => simp [lexLt, ih]

lemma mapInsert_append :
    ∀ (acc : List (List Nat × PVal)) (k : List Nat) (v : PVal),
      (∀ kv ∈ acc, lexLt kv.1 k = true) → mapInsert acc k v = acc ++ [(k, v)] := by
  intro acc
  induction acc with
  | nil => intro k v _; rfl
  | cons kv1 r ih =>
    intro k v h
    have h1 : lexLt kv1.1 k = true := h kv1 (by simp)
    have hne : ¬ (k = kv1.1) := by
      intro he
      rw [he] at h1
      rw [lexLt_irrefl] at h1
      exact absurd h1 (by simp)
    have hnlt : lexLt k kv1.1 = false := by
      by_contra hc
      have hc2 : lexLt k kv1.1 = true := by
        cases hx : lexLt k kv1.1
        · exact absurd hx hc
        · rfl
      have := lexLt_trans _ _ _ h1 hc2
      rw [lexLt_irrefl] at this
      exact absurd this (by simp)
    obtain ⟨k1, v1⟩ := kv1
    show mapInsert ((k1, v1) :: r) k v = _
    rw [mapInsert]
    simp only at h1 hne hnlt
    rw [hnlt]
    simp only [Bool.false_eq_true, if_false]
    rw [if_neg hne, ih k v (fun x hx => h x (by simp [hx]))]
    rfl

lemma keysSorted_cons_all :
    ∀ (r : List (List Nat × PVal)) (k : List Nat) (v : PVal),
      keysSorted ((k, v) :: r) = true → ∀ kv ∈ r, lexLt k kv.1 = true := by
  intro r
  induction r with
  | nil => intro k v _ kv hkv; simp at hkv
  | cons kv2 r2 ih =>
    intro k v h kv hkv
    obtain ⟨k2, v2⟩ := kv2
    have h12 : lexLt k k2 = true ∧ keysSorted ((k2, v2) :: r2) = true := by
      have : keysSorted ((k, v) :: (k2, v2) :: r2) =
          (lexLt k k2 && keysSorted ((k2, v2) :: r2)) := rfl
      rw [this] at h
      simpa using h
    rcases List.mem_cons.mp hkv with rfl | hkv2
    · exact h12.1
    · exact lexLt_trans _ _ _ h12.1 (ih k2 v2 h12.2 kv hkv2)

lemma keysSorted_tail :
    ∀ (kv : List Nat × PVal) (r : List (List Nat × PVal)),
      keysSorted (kv :: r) = true → keysSorted r = true := by
  intro kv r h
  cases r with
  | nil => rfl
  | cons kv2 r2 =>
    obtain ⟨k, v⟩ := kv
    obtain ⟨k2, v2⟩ := kv2
    have : keysSorted ((k, v) :: (k2, v2) :: r2) =
        (lexLt k k2 && keysSorted ((k2, v2) :: r2)) := rfl
    rw [this] at h
    simp only [Bool.and_eq_true] at h
    exact h.2

lemma foldlM_index_free {α β γ : Type} (g : α → Except β α) :
    ∀ (l1 l2 : List γ) (a : α), l1.length = l2.length →
      List.foldlM (fun acc _ => g acc) a l1 = List.foldlM (fun acc _ => g acc) a l2 := by
  intro l1
  induction l1 with
  | nil =>
    intro l2 a h
    cases l2 with
    | nil => rfl
    | cons y ys => simp at h
  | cons x xs ih =>
    intro l2 a h
    cases l2 with
    | nil => simp at h
    | cons y ys =>
      rw [List.foldlM_cons, List.foldlM_cons]
      have hlen : xs.length = ys.length := by simpa using h
      show g a >>= (fun b => List.foldlM (fun acc _ => g acc) b xs) =
        g a >>= (fun b => List.foldlM (fun acc _ => g acc) b ys)
      cases hb : g a with
      | error e => rfl
      | ok b => exact ih ys b hlen

lemma vecFold (t1 : Ty) (base : List Nat) (fs : FS) :
    ∀ (es : List PVal) (acc : List PVal) (rest : List Nat),
      (∀ e ∈ es, getVal t1 (pvalHash t1 e) base fs = Except.ok e) →
      List.foldlM
        (fun (acc : List PVal × List Nat) _ => do
          let rh := readHash acc.2
          let v ← getVal t1 rh.1 base fs
          Except.ok (acc.1 ++ [v], rh.2))
        (acc, (es.flatMap fun e => writeHash (pvalHash t1 e)) ++ rest)
        (List.range es.length) =
      Except.ok (acc ++ es, rest) := by
  intro es
  induction es with
  | nil =>
    intro acc rest _
    show Except.ok (acc, rest) = Except.ok (acc ++ [], rest)
    rw [List.append_nil]
  | cons e es ih =>
    intro acc rest h
    have hget := h e (by simp)
    have hflat : ((e :: es).flatMap fun x => writeHash (pvalHash t1 x)) ++ rest =
        writeHash (pvalHash t1 e) ++
          ((es.flatMap fun x => writeHash (pvalHash t1 x)) ++ rest) := by
      simp [List.append_assoc]
    rw [hflat, List.length_cons, List.range_succ_eq_map, List.foldlM_cons]
    show ((do
        let rh := readHash (writeHash (pvalHash t1 e) ++
          ((es.flatMap fun x => writeHash (pvalHash t1 x)) ++ rest))
        let v ← getVal t1 rh.1 base fs
        Except.ok (acc ++ [v], rh.2) : Except HashIOError (List PVal × List Nat)) >>=
      fun b => List.foldlM
        (fun (acc : List PVal × List Nat) _ => do
          let rh := readHash acc.2
          let v ← getVal t1 rh.1 base fs
          Except.ok (acc.1 ++ [v], rh.2)) b (List.map Nat.succ (List.range es.length))) =
      Except.ok (acc ++ e :: es, rest)
    have hrh : readHash (writeHash (pvalHash t1 e) ++
        ((es.flatMap fun x => writeHash (pvalHash t1 x)) ++ rest)) =
        (pvalHash t1 e, (es.flatMap fun x => writeHash (pvalHash t1 x)) ++ rest) :=
      readHash_write_sha3 (sha3Bytes_length (serialize t1 e)) _
    rw [hrh]
    show ((getVal t1 (pvalHash t1 e) base fs >>= fun v =>
        Except.ok (acc ++ [v], (es.flatMap fun x => writeHash (pvalHash t1 x)) ++ rest)) >>=
      fun b => List.foldlM
        (fun (acc : List PVal × List Nat) _ => do
          let rh := readHash acc.2
          let v ← getVal t1 rh.1 base fs
          Except.ok (acc.1 ++ [v], rh.2)) b (List.map Nat.succ (List.range es.length))) =
      Except.ok (acc ++ e :: es, rest)
    rw [hget]
    show List.foldlM
        (fun (acc : List PVal × List Nat) _ => do
          let rh := readHash acc.2
          let v ← getVal t1 rh.1 base fs
          Except.ok (acc.1 ++ [v], rh.2))
        (acc ++ [e], (es.flatMap fun x => writeHash (pvalHash t1 x)) ++ rest)
        (List.map Nat.succ (List.range es.length)) =
      Except.ok (acc ++ e :: es, rest)
    refine Eq.trans (foldlM_index_free _ _ (List.range es.length) _ (by simp)) ?_
    rw [ih (acc ++ [e]) rest (fun x hx => h x (by simp [hx]))]
    simp

lemma bmapFold (t1 : Ty) (base : List Nat) (fs : FS) :
    ∀ (kvs : List (List Nat × PVal)) (acc : List (List Nat × PVal)) (rest : List Nat),
      (∀ kv ∈ kvs, getVal t1 (pvalHash t1 kv.2) base fs = Except.ok kv.2) →
      (∀ kv ∈ kvs, fsLookup fs (filenameForHash base
        (Hash.sha3 (sha3Bytes (serializeStr kv.1)))) = some (serializeStr kv.1)) →
      (∀ kv ∈ kvs, utf8Valid kv.1 = true ∧ kv.1.length < 2 ^ 32) →
      (∀ kv ∈ kvs, ∀ a ∈ acc, lexLt a.1 kv.1 = true) →
      keysSorted kvs = true →
      List.foldlM
        (fun (acc : List (List Nat × PVal) × List Nat) _ => do
          let kh := readHash acc.2
          let vh := readHash kh.2
          let k ← match fsLookup fs (filenameForHash base kh.1) with
            | Option.none => Except.error HashIOError.ioError
            | some kbytes => receiveStr kbytes
          let v ← getVal t1 vh.1 base fs
          match k with
          | PVal.vstr kb => Except.ok (mapInsert acc.1 kb v, vh.2)
          | _ => Except.error HashIOError.undefined)
        (acc, (kvs.flatMap fun kv =>
          writeHash (Hash.sha3 (sha3Bytes (serializeStr kv.1))) ++
          writeHash (Hash.sha3 (sha3Bytes (serialize t1 kv.2)))) ++ rest)
        (List.range kvs.length) =
      Except.ok (acc ++ kvs, rest) := by
  intro kvs
  induction kvs with
  | nil =>
    intro acc rest _ _ _ _ _
    show Except.ok (acc, rest) = Except.ok (acc ++ [], rest)
    rw [List.append_nil]
  | cons kv kvs ih =>
    obtain ⟨k, v⟩ := kv
    intro acc rest hget hkey hwfk hord hsort
    have hgv := hget (k, v) (by simp)
    have hkv := hkey (k, v) (by simp)
    have hwf := hwfk (k, v) (by simp)
    have hflat : (((k, v) :: kvs).flatMap fun kv =>
        writeHash (Hash.sha3 (sha3Bytes (serializeStr kv.1))) ++
        writeHash (Hash.sha3 (sha3Bytes (serialize t1 kv.2)))) ++ rest =
        writeHash (Hash.sha3 (sha3Bytes (serializeStr k))) ++
        (writeHash (Hash.sha3 (sha3Bytes (serialize t1 v))) ++
          ((kvs.flatMap fun kv =>
            writeHash (Hash.sha3 (sha3Bytes (serializeStr kv.1))) ++
            writeHash (Hash.sha3 (sha3Bytes (serialize t1 kv.2)))) ++ rest)) := by
      simp [List.append_assoc]
    rw [hflat, List.length_cons, List.range_succ_eq_map, List.foldlM_cons]
    have hkh := readHash_write_sha3 (sha3Bytes_length (serializeStr k))
      (writeHash (Hash.sha3 (sha3Bytes (serialize t1 v))) ++
        ((kvs.flatMap fun kv =>
          writeHash (Hash.sha3 (sha3Bytes (serializeStr kv.1))) ++
          writeHash (Hash.sha3 (sha3Bytes (serialize t1 kv.2)))) ++ rest))
    have hvh := readHash_write_sha3 (sha3Bytes_length (serialize t1 v))
      ((kvs.flatMap fun kv =>
        writeHash (Hash.sha3 (sha3Bytes (serializeStr kv.1))) ++
        writeHash (Hash.sha3 (sha3Bytes (serialize t1 kv.2)))) ++ rest)
    show ((do
        let kh := readHash (writeHash (Hash.sha3 (sha3Bytes (serializeStr k))) ++
          (writeHash (Hash.sha3 (sha3Bytes (serialize t1 v))) ++
            ((kvs.flatMap fun kv =>
              writeHash (Hash.sha3 (sha3Bytes (serializeStr kv.1))) ++
              writeHash (Hash.sha3 (sha3Bytes (serialize t1 kv.2)))) ++ rest)))
        let vh := readHash kh.2
        let kk ← match fsLookup fs (filenameForHash base kh.1) with
          | Option.none => Except.error HashIOError.ioError
          | some kbytes => receiveStr kbytes
        let vv ← getVal t1 vh.1 base fs
        (match kk with
          | PVal.vstr kb => Except.ok (mapInsert acc kb vv, vh.2)
          | _ => Except.error HashIOError.undefined :
          Except HashIOError (List (List Nat × PVal) × List Nat))) >>=
      fun b => List.foldlM
        (fun (acc : List (List Nat × PVal) × List Nat) _ => do
          let kh := readHash acc.2
          let vh := readHash kh.2
          let k ← match fsLookup fs (filenameForHash base kh.1) with
            | Option.none => Except.error HashIOError.ioError
            | some kbytes => receiveStr kbytes
          let v ← getVal t1 vh.1 base fs
          match k with
          | PVal.vstr kb => Except.ok (mapInsert acc.1 kb v, vh.2)
          | _ => Except.error HashIOError.undefined) b
        (List.map Nat.succ (List.range kvs.length))) =
      Except.ok (acc ++ (k, v) :: kvs, rest)
    rw [hkh]
    show ((do
        let vh := readHash (writeHash (Hash.sha3 (sha3Bytes (serialize t1 v))) ++
          ((kvs.flatMap fun kv =>
            writeHash (Hash.sha3 (sha3Bytes (serializeStr kv.1))) ++
            writeHash (Hash.sha3 (sha3Bytes (serialize t1 kv.2)))) ++ rest))
        let kk ← match fsLookup fs (filenameForHash base (Hash.sha3 (sha3Bytes (serializeStr k)))) with
          | Option.none => Except.error HashIOError.ioError
          | some kbytes => receiveStr kbytes
        let vv ← getVal t1 vh.1 base fs
        (match kk with
          | PVal.vstr kb => Except.ok (mapInsert acc kb vv, vh.2)
          | _ => Except.error HashIOError.undefined :
          Except HashIOError (List (List Nat × PVal) × List Nat))) >>=
      fun b => List.foldlM
        (fun (acc : List (List Nat × PVal) × List Nat) _ => do
          let kh := readHash acc.2
          let vh := readHash kh.2
          let k ← match fsLookup fs (filenameForHash base kh.1) with
            | Option.none => Except.error HashIOError.ioError
            | some kbytes => receiveStr kbytes
          let v ← getVal t1 vh.1 base fs
          match k with
          | PVal.vstr kb => Except.ok (mapInsert acc.1 kb v, vh.2)
          | _ => Except.error HashIOError.undefined) b
        (List.map Nat.succ (List.range kvs.length))) =
      Except.ok (acc ++ (k, v) :: kvs, rest)
    rw [hvh, hkv]
    show ((receiveStr (serializeStr k) >>= fun kk =>
        getVal t1 (pvalHash t1 v) base fs >>= fun vv =>
        (match kk with
          | PVal.vstr kb => Except.ok (mapInsert acc kb vv,
              (kvs.flatMap fun kv =>
                writeHash (Hash.sha3 (sha3Bytes (serializeStr kv.1))) ++
                writeHash (Hash.sha3 (sha3Bytes (serialize t1 kv.2)))) ++ rest)
          | _ => Except.error HashIOError.undefined :
          Except HashIOError (List (List Nat × PVal) × List Nat))) >>=
      fun b => List.foldlM
        (fun (acc : List (List Nat × PVal) × List Nat) _ => do
          let kh := readHash acc.2
          let vh := readHash kh.2
          let k ← match fsLookup fs (filenameForHash base kh.1) with
            | Option.none => Except.error HashIOError.ioError
            | some kbytes => receiveStr kbytes
          let v ← getVal t1 vh.1 base fs
          match k with
          | PVal.vstr kb => Except.ok (mapInsert acc.1 kb v, vh.2)
          | _ => Except.error HashIOError.undefined) b
        (List.map Nat.succ (List.range kvs.length))) =
      Except.ok (acc ++ (k, v) :: kvs, rest)
    rw [receiveStr_serialize hwf.1 hwf.2, hgv]
    show List.foldlM
        (fun (acc : List (List Nat × PVal) × List Nat) _ => do
          let kh := readHash acc.2
          let vh := readHash kh.2
          let k ← match fsLookup fs (filenameForHash base kh.1) with
            | Option.none => Except.error HashIOError.ioError
            | some kbytes => receiveStr kbytes
          let v ← getVal t1 vh.1 base fs
          match k with
          | PVal.vstr kb => Except.ok (mapInsert acc.1 kb v, vh.2)
          | _ => Except.error HashIOError.undefined)
        (mapInsert acc k v, (kvs.flatMap fun kv =>
          writeHash (Hash.sha3 (sha3Bytes (serializeStr kv.1))) ++
          writeHash (Hash.sha3 (sha3Bytes (serialize t1 kv.2)))) ++ rest)
        (List.map Nat.succ (List.range kvs.length)) =
      Except.ok (acc ++ (k, v) :: kvs, rest)
    rw [mapInsert_append acc k v (fun a ha => hord (k, v) (by simp) a ha)]
    refine Eq.trans (foldlM_index_free _ _ (List.range kvs.length) _ (by simp)) ?_
    rw [ih (acc ++ [(k, v)]) rest
      (fun x hx => hget x (by simp [hx]))
      (fun x hx => hkey x (by simp [hx]))
      (fun x hx => hwfk x (by simp [hx]))
      (fun x hx a ha => by
        rcases List.mem_append.mp ha with h1 | h2
        · exact hord x (by simp [hx]) a h1
        · have : a = (k, v) := by simpa using h2
          rw [this]
          exact keysSorted_cons_all kvs k v hsort x hx)
      (keysSorted_tail _ _ hsort)]
    simp

/-- Every object of L is on disk under its content address. -/
def storedAll (fs : FS) (base : List Nat) (L : List (Ty × PVal)) : Prop :=
  ∀ t v, (t, v) ∈ L →
    fsLookup fs (filenameForHash base (pvalHash t v)) = some (serialize t v)

mutual
theorem getVal_stored (t : Ty) (v : PVal) (base : List Nat) (fs : FS)
    (hwt : wt t v = true) (hst : storedAll fs base (pclosure t v)) :
    getVal t (pvalHash t v) base fs = Except.ok v := by
  cases t with
  | str =>
    cases v with
    | vstr b =>
      have hl := hst Ty.str (PVal.vstr b) (by simp [pclosure])
      simp only [wt, Bool.and_eq_true, decide_eq_true_eq] at hwt
      rw [getVal, hl]
      exact receiveStr_serialize hwt.1 hwt.2
    | vvec es => simp [wt] at hwt
    | vmap kvs => simp [wt] at hwt
    | vmodel svs cvs => simp [wt] at hwt
  | vec t1 =>
    cases v with
    | vstr b => simp [wt] at hwt
    | vmap kvs => simp [wt] at hwt
    | vmodel svs cvs => simp [wt] at hwt
    | vvec es =>
      have hl := hst (Ty.vec t1) (PVal.vvec es) (by simp [pclosure])
      simp only [wt, Bool.and_eq_true, decide_eq_true_eq, List.all_eq_true] at hwt
      have hser : serialize (Ty.vec t1) (PVal.vvec es) =
          writeU32 0 ++ (writeU32 es.length ++
            es.flatMap fun e => writeHash (pvalHash t1 e)) := by
        show writeU32 0 ++ writeU32 es.length ++
            (es.flatMap fun e => writeHash (Hash.sha3 (sha3Bytes (serialize t1 e)))) = _
        rw [List.append_assoc]
        rfl
      have hr1 : readU32 (serialize (Ty.vec t1) (PVal.vvec es)) =
          (0, writeU32 es.length ++ es.flatMap fun e => writeHash (pvalHash t1 e)) := by
        rw [hser]
        exact readU32_write (by norm_num) _
      have hr2 : readU32 (writeU32 es.length ++
          es.flatMap fun e => writeHash (pvalHash t1 e)) =
          (es.length, es.flatMap fun e => writeHash (pvalHash t1 e)) :=
        readU32_write hwt.1 _
      rw [getVal, hl]
      show Except.map (fun acc => PVal.vvec acc.1)
          ((List.range (readU32 ((readU32 (serialize (Ty.vec t1) (PVal.vvec es))).2)).1).foldlM
            (fun (acc : List PVal × List Nat) _ => do
              let rh := readHash acc.2
              let v ← getVal t1 rh.1 base fs
              Except.ok (acc.1 ++ [v], rh.2))
            (([] : List PVal),
              (readU32 ((readU32 (serialize (Ty.vec t1) (PVal.vvec es))).2)).2)) =
        Except.ok (PVal.vvec es)
      rw [hr1]
      show Except.map (fun acc => PVal.vvec acc.1)
          ((List.range (readU32 (writeU32 es.length ++
              es.flatMap fun e => writeHash (pvalHash t1 e))).1).foldlM
            (fun (acc : List PVal × List Nat) _ => do
              let rh := readHash acc.2
              let v ← getVal t1 rh.1 base fs
              Except.ok (acc.1 ++ [v], rh.2))
            (([] : List PVal),
              (readU32 (writeU32 es.length ++
                es.flatMap fun e => writeHash (pvalHash t1 e))).2)) =
        Except.ok (PVal.vvec es)
      rw [hr2]
      have hfold := vecFold t1 base fs es [] []
        (fun e he => getVal_stored t1 e base fs (hwt.2 e he)
          (fun t2 v2 hm => hst t2 v2 (by
            simp only [pclosure, List.mem_cons]
            right
            exact List.mem_flatMap.mpr ⟨e, he, hm⟩)))
      rw [List.append_nil] at hfold
      show Except.map (fun acc => PVal.vvec acc.1)
          ((List.range es.length).foldlM
            (fun (acc : List PVal × List Nat) _ => do
              let rh := readHash acc.2
              let v ← getVal t1 rh.1 base fs
              Except.ok (acc.1 ++ [v], rh.2))
            (([] : List PVal), es.flatMap fun e => writeHash (pvalHash t1 e))) =
        Except.ok (PVal.vvec es)
      rw [hfold]
      rfl
  | bmap t1 =>
    cases v with
    | vstr b => simp [wt] at hwt
    | vvec es => simp [wt] at hwt
    | vmodel svs cvs => simp [wt] at hwt
    | vmap kvs =>
      have hl := hst (Ty.bmap t1) (PVal.vmap kvs) (by simp [pclosure])
      simp only [wt, Bool.and_eq_true, decide_eq_true_eq, List.all_eq_true] at hwt
      have hser : serialize (Ty.bmap t1) (PVal.vmap kvs) =
          writeU32 0 ++ (writeU32 kvs.length ++
            kvs.flatMap fun kv =>
              writeHash (Hash.sha3 (sha3Bytes (serializeStr kv.1))) ++
              writeHash (Hash.sha3 (sha3Bytes (serialize t1 kv.2)))) := by
        show writeU32 0 ++ writeU32 kvs.length ++ _ = _
        rw [List.append_assoc]
      have hr1 : readU32 (serialize (Ty.bmap t1) (PVal.vmap kvs)) =
          (0, writeU32 kvs.length ++
            kvs.flatMap fun kv =>
              writeHash (Hash.sha3 (sha3Bytes (serializeStr kv.1))) ++
              writeHash (Hash.sha3 (sha3Bytes (serialize t1 kv.2)))) := by
        rw [hser]
        exact readU32_write (by norm_num) _
      have hr2 : readU32 (writeU32 kvs.length ++
          kvs.flatMap fun kv =>
            writeHash (Hash.sha3 (sha3Bytes (serializeStr kv.1))) ++
            writeHash (Hash.sha3 (sha3Bytes (serialize t1 kv.2)))) =
          (kvs.length, kvs.flatMap fun kv =>
            writeHash (Hash.sha3 (sha3Bytes (serializeStr kv.1))) ++
            writeHash (Hash.sha3 (sha3Bytes (serialize t1 kv.2)))) :=
        readU32_write hwt.1.1 _
      rw [getVal, hl]
      show Except.map (fun acc => PVal.vmap acc.1)
          ((List.range (readU32 ((readU32 (serialize (Ty.bmap t1) (PVal.vmap kvs))).2)).1).foldlM
            (fun (acc : List (List Nat × PVal) × List Nat) _ => do
              let kh := readHash acc.2
              let vh := readHash kh.2
              let k ← match fsLookup fs (filenameForHash base kh.1) with
                | Option.none => Except.error HashIOError.ioError
                | some kbytes => receiveStr kbytes
              let v ← getVal t1 vh.1 base fs
              match k with
              | PVal.vstr kb => Except.ok (mapInsert acc.1 kb v, vh.2)
              | _ => Except.error HashIOError.undefined)
            (([] : List (List Nat × PVal)),
              (readU32 ((readU32 (serialize (Ty.bmap t1) (PVal.vmap kvs))).2)).2)) =
        Except.ok (PVal.vmap kvs)
      rw [hr1]
      show Except.map (fun acc => PVal.vmap acc.1)
          ((List.range (readU32 (writeU32 kvs.length ++
              kvs.flatMap fun kv =>
                writeHash (Hash.sha3 (sha3Bytes (serializeStr kv.1))) ++
                writeHash (Hash.sha3 (sha3Bytes (serialize t1 kv.2))))).1).foldlM
            (fun (acc : List (List Nat × PVal) × List Nat) _ => do
              let kh := readHash acc.2
              let vh := readHash kh.2
              let k ← match fsLookup fs (filenameForHash base kh.1) with
                | Option.none => Except.error HashIOError.ioError
                | some kbytes => receiveStr kbytes
              let v ← getVal t1 vh.1 base fs
              match k with
              | PVal.vstr kb => Except.ok (mapInsert acc.1 kb v, vh.2)
              | _ => Except.error HashIOError.undefined)
            (([] : List (List Nat × PVal)),
              (readU32 (writeU32 kvs.length ++
                kvs.flatMap fun kv =>
                  writeHash (Hash.sha3 (sha3Bytes (serializeStr kv.1))) ++
                  writeHash (Hash.sha3 (sha3Bytes (serialize t1 kv.2))))).2)) =
        Except.ok (PVal.vmap kvs)
      rw [hr2]
      have hfold := bmapFold t1 base fs kvs [] []
        (fun kv hkv => getVal_stored t1 kv.2 base fs ((hwt.2 kv hkv).2)
          (fun t2 v2 hm => hst t2 v2 (by
            simp only [pclosure, List.mem_cons]
            right
            exact List.mem_flatMap.mpr ⟨kv, hkv, by simp [hm]⟩)))
        (fun kv hkv => hst Ty.str (PVal.vstr kv.1) (by
          simp only [pclosure, List.mem_cons]
          right
          exact List.mem_flatMap.mpr ⟨kv, hkv, by simp⟩))
        (fun kv hkv => by
          have h := (hwt.2 kv hkv).1
          simp only [Bool.and_eq_true, decide_eq_true_eq] at h
          exact h)
        (fun kv _ a ha => by simp at ha)
        hwt.1.2
      rw [List.append_nil] at hfold
      show Except.map (fun acc => PVal.vmap acc.1)
          ((List.range kvs.length).foldlM
            (fun (acc : List (List Nat × PVal) × List Nat) _ => do
              let kh := readHash acc.2
              let vh := readHash kh.2
              let k ← match fsLookup fs (filenameForHash base kh.1) with
                | Option.none => Except.error HashIOError.ioError
                | some kbytes => receiveStr kbytes
              let v ← getVal t1 vh.1 base fs
              match k with
              | PVal.vstr kb => Except.ok (mapInsert acc.1 kb v, vh.2)
              | _ => Except.error HashIOError.undefined)
            (([] : List (List Nat × PVal)),
              kvs.flatMap fun kv =>
                writeHash (Hash.sha3 (sha3Bytes (serializeStr kv.1))) ++
                writeHash (Hash.sha3 (sha3Bytes (serialize t1 kv.2))))) =
        Except.ok (PVal.vmap kvs)
      rw [hfold]
      rfl
  | model sts cts =>
    cases v with
    | vstr b => simp [wt] at hwt
    | vvec es => simp [wt] at hwt
    | vmap kvs => simp [wt] at hwt
    | vmodel svs cvs =>
      have hl := hst (Ty.model sts cts) (PVal.vmodel svs cvs) (by simp [pclosure])
      simp only [wt, Bool.and_eq_true] at hwt
      have hser : serialize (Ty.model sts cts) (PVal.vmodel svs cvs) =
          writeU32 1 ++ (writeHash (typeHash (Ty.model sts cts)) ++
            (svs.flatMap writeScalar ++ childHashBytes cts cvs)) := by
        show writeU32 1 ++ writeHash (typeHash (Ty.model sts cts)) ++
          svs.flatMap writeScalar ++ childHashBytes cts cvs = _
        rw [List.append_assoc, List.append_assoc]
      have hr1 : readU32 (serialize (Ty.model sts cts) (PVal.vmodel svs cvs)) =
          (1, writeHash (typeHash (Ty.model sts cts)) ++
            (svs.flatMap writeScalar ++ childHashBytes cts cvs)) := by
        rw [hser]
        exact readU32_write (by norm_num) _
      have hr2 : readHash (writeHash (typeHash (Ty.model sts cts)) ++
          (svs.flatMap writeScalar ++ childHashBytes cts cvs)) =
          (typeHash (Ty.model sts cts),
            svs.flatMap writeScalar ++ childHashBytes cts cvs) :=
        readHash_write_sha3 (sha3Bytes_length _) _
      have hr3 : readScalars sts (svs.flatMap writeScalar ++ childHashBytes cts cvs) =
          (svs, childHashBytes cts cvs) :=
        readScalars_write sts svs hwt.1 _
      rw [getVal, hl]
      show (let r1 := readU32 (serialize (Ty.model sts cts) (PVal.vmodel svs cvs))
        if r1.1 < 1 then Except.error (HashIOError.versionError r1.1)
        else
          let r2 := readHash r1.2
          if r2.1 ≠ typeHash (Ty.model sts cts) then
            Except.error (HashIOError.typeError r2.1)
          else
            let r3 := readScalars sts r2.2
            Except.map (fun cvs => PVal.vmodel r3.1 cvs)
              (getChildren cts r3.2 base fs)) = Except.ok (PVal.vmodel svs cvs)
      rw [hr1]
      show (let r2 := readHash (writeHash (typeHash (Ty.model sts cts)) ++
          (svs.flatMap writeScalar ++ childHashBytes cts cvs))
        if r2.1 ≠ typeHash (Ty.model sts cts) then
          Except.error (HashIOError.typeError r2.1)
        else
          let r3 := readScalars sts r2.2
          Except.map (fun cvs => PVal.vmodel r3.1 cvs)
            (getChildren cts r3.2 base fs)) = Except.ok (PVal.vmodel svs cvs)
      rw [hr2]
      show (if typeHash (Ty.model sts cts) ≠ typeHash (Ty.model sts cts) then
          Except.error (HashIOError.typeError (typeHash (Ty.model sts cts)))
        else
          let r3 := readScalars sts (svs.flatMap writeScalar ++ childHashBytes cts cvs)
          Except.map (fun cvs => PVal.vmodel r3.1 cvs)
            (getChildren cts r3.2 base fs)) = Except.ok (PVal.vmodel svs cvs)
      rw [if_neg (fun h => h rfl), hr3]
      have hch := getChildren_stored cts cvs base fs [] hwt.2
        (fun t2 v2 hm => hst t2 v2 (by
          simp only [pclosure, List.mem_cons]
          right
          exact hm))
      rw [List.append_nil] at hch
      show Except.map (fun cvs => PVal.vmodel svs cvs)
        (getChildren cts (childHashBytes cts cvs) base fs) = Except.ok (PVal.vmodel svs cvs)
      rw [hch]
      rfl

theorem getChildren_stored (cts : TyList) (cvs : List PVal) (base : List Nat) (fs : FS)
    (rest : List Nat) (hwt : wtChildren cts cvs = true)
    (hst : storedAll fs base (pclosureChildren cts cvs)) :
    getChildren cts (childHashBytes cts cvs ++ rest) base fs = Except.ok cvs := by
  cases cts with
  | nil =>
    cases cvs with
    | nil => rfl
    | cons v vs => simp [wtChildren] at hwt
  | cons t ts =>
    cases cvs with
    | nil => simp [wtChildren] at hwt
    | cons v vs =>
      simp only [wtChildren, Bool.and_eq_true] at hwt
      have hch : childHashBytes (TyList.cons t ts) (v :: vs) ++ rest =
          writeHash (pvalHash t v) ++ (childHashBytes ts vs ++ rest) := by
        show writeHash (Hash.sha3 (sha3Bytes (serialize t v))) ++
          childHashBytes ts vs ++ rest = _
        rw [List.append_assoc]
        rfl
      have hrh : readHash (writeHash (pvalHash t v) ++ (childHashBytes ts vs ++ rest)) =
          (pvalHash t v, childHashBytes ts vs ++ rest) :=
        readHash_write_sha3 (sha3Bytes_length _) _
      have hv := getVal_stored t v base fs hwt.1
        (fun t2 v2 hm => hst t2 v2 (by
          simp only [pclosureChildren, List.mem_append]
          left
          exact hm))
      have hvs := getChildren_stored ts vs base fs rest hwt.2
        (fun t2 v2 hm => hst t2 v2 (by
          simp only [pclosureChildren, List.mem_append]
          right
          exact hm))
      rw [hch, getChildren]
      show (do
        let rh := readHash (writeHash (pvalHash t v) ++ (childHashBytes ts vs ++ rest))
        let v2 ← getVal t rh.1 base fs
        let rest2 ← getChildren ts rh.2 base fs
        Except.ok (v2 :: rest2) : Except HashIOError (List PVal)) = Except.ok (v :: vs)
      rw [hrh]
      show (do
        let v2 ← getVal t (pvalHash t v) base fs
        let rest2 ← getChildren ts (childHashBytes ts vs ++ rest) base fs
        Except.ok (v2 :: rest2) : Except HashIOError (List PVal)) = Except.ok (v :: vs)
      rw [hv, hvs]
      rfl
end

/-! ## Put-side invariants -/

/-- The content-addressing assumption on a finite universe of objects:
    equal digests come only from the same typed value.  SHA3-256
    collisions cannot be exhibited, and the store design relies on their
    absence. -/
def hashInj (U : List (Ty × PVal)) : Prop :=
  ∀ t1 v1 t2 v2, (t1, v1) ∈ U → (t2, v2) ∈ U →
    pvalHash t1 v1 = pvalHash t2 v2 → t1 = t2 ∧ v1 = v2

/-- Every universe object is either absent from the store or present
    together with its whole closure (the I2 invariant of the spec). -/
def goodStore (fs : FS) (base : List Nat) (U : List (Ty × PVal)) : Prop :=
  ∀ t v, (t, v) ∈ U →
    fsLookup fs (filenameForHash base (pvalHash t v)) = Option.none ∨
    storedAll fs base (pclosure t v)

lemma pclosure_self : ∀ (t : Ty) (v : PVal), (t, v) ∈ pclosure t v := by
  intro t v
  cases t <;> cases v <;> simp [pclosure]

lemma fname_inj_pval {t1 t2 : Ty} {v1 v2 : PVal} (base : List Nat)
    (h : filenameForHash base (pvalHash t1 v1) = filenameForHash base (pvalHash t2 v2)) :
    pvalHash t1 v1 = pvalHash t2 v2 := by
  have := filenameForHash_inj (sha3Bytes_length (serialize t1 v1))
    (sha3Bytes_length (serialize t2 v2)) (sha3Bytes_lt _) (sha3Bytes_lt _) base h
  exact congrArg Hash.sha3 this

lemma fname_ne_safe_pval {t1 t2 : Ty} {v1 v2 : PVal} (base : List Nat) :
    filenameForHash base (pvalHash t1 v1) ≠ safeFilename base (pvalHash t2 v2) :=
  fname_ne_safe (sha3Bytes_length (serialize t1 v1)) (sha3Bytes_length (serialize t2 v2)) base

lemma fsCreate_ok {fs : FS} (h : fs.failCreate = []) (p c : List Nat) :
    fsCreate fs p c = Except.ok (fsInsert fs p c) := by
  rw [fsCreate, if_neg]
  rw [h]
  simp

mutual
theorem pclosure_trans (t : Ty) (v : PVal) :
    ∀ t2 v2, (t2, v2) ∈ pclosure t v → ∀ o ∈ pclosure t2 v2, o ∈ pclosure t v := by
  cases t with
  | str =>
    intro t2 v2 h2 o ho
    simp only [pclosure, List.mem_singleton] at h2
    obtain ⟨rfl, rfl⟩ : t2 = Ty.str ∧ v2 = v := by
      constructor <;> [exact congrArg Prod.fst h2; exact congrArg Prod.snd h2]
    exact ho
  | vec t1 =>
    intro t2 v2 h2 o ho
    cases v with
    | vvec es =>
      simp only [pclosure, List.mem_cons] at h2 ⊢
      rcases h2 with h2 | h2
      · obtain ⟨rfl, rfl⟩ : t2 = Ty.vec t1 ∧ v2 = PVal.vvec es := by
          constructor <;> [exact congrArg Prod.fst h2; exact congrArg Prod.snd h2]
        have := ho
        simp only [pclosure, List.mem_cons] at this
        exact this
      · rcases List.mem_flatMap.mp h2 with ⟨e, he, hin⟩
        right
        exact List.mem_flatMap.mpr ⟨e, he, pclosure_trans t1 e t2 v2 hin o ho⟩
    | vstr b =>
      simp only [pclosure, List.mem_singleton] at h2
      obtain ⟨rfl, rfl⟩ : t2 = Ty.vec t1 ∧ v2 = PVal.vstr b := by
        constructor <;> [exact congrArg Prod.fst h2; exact congrArg Prod.snd h2]
      exact ho
    | vmap kvs =>
      simp only [pclosure, List.mem_singleton] at h2
      obtain ⟨rfl, rfl⟩ : t2 = Ty.vec t1 ∧ v2 = PVal.vmap kvs := by
        constructor <;> [exact congrArg Prod.fst h2; exact congrArg Prod.snd h2]
      exact ho
    | vmodel svs cvs =>
      simp only [pclosure, List.mem_singleton] at h2
      obtain ⟨rfl, rfl⟩ : t2 = Ty.vec t1 ∧ v2 = PVal.vmodel svs cvs := by
        constructor <;> [exact congrArg Prod.fst h2; exact congrArg Prod.snd h2]
      exact ho
  | bmap t1 =>
    intro t2 v2 h2 o ho
    cases v with
    | vmap kvs =>
      simp only [pclosure, List.mem_cons] at h2 ⊢
      rcases h2 with h2 | h2
      · obtain ⟨rfl, rfl⟩ : t2 = Ty.bmap t1 ∧ v2 = PVal.vmap kvs := by
          constructor <;> [exact congrArg Prod.fst h2; exact congrArg Prod.snd h2]
        have := ho
        simp only [pclosure, List.mem_cons] at this
        exact this
      · rcases List.mem_flatMap.mp h2 with ⟨kv, hkv, hin⟩
        simp only [List.mem_cons] at hin
        rcases hin with hin | hin
        · obtain ⟨rfl, rfl⟩ : t2 = Ty.str ∧ v2 = PVal.vstr kv.1 := by
            constructor <;> [exact congrArg Prod.fst hin; exact congrArg Prod.snd hin]
          simp only [pclosure, List.mem_singleton] at ho
          right
          exact List.mem_flatMap.mpr ⟨kv, hkv, by simp [ho]⟩
        · right
          exact List.mem_flatMap.mpr ⟨kv, hkv, by
            simp only [List.mem_cons]
            right
            exact pclosure_trans t1 kv.2 t2 v2 hin o ho⟩
    | vstr b =>
      simp only [pclosure, List.mem_singleton] at h2
      obtain ⟨rfl, rfl⟩ : t2 = Ty.bmap t1 ∧ v2 = PVal.vstr b := by
        constructor <;> [exact congrArg Prod.fst h2; exact congrArg Prod.snd h2]
      exact ho
    | vvec es =>
      simp only [pclosure, List.mem_singleton] at h2
      obtain ⟨rfl, rfl⟩ : t2 = Ty.bmap t1 ∧ v2 = PVal.vvec es := by
        constructor <;> [exact congrArg Prod.fst h2; exact congrArg Prod.snd h2]
      exact ho
    | vmodel svs cvs =>
      simp only [pclosure, List.mem_singleton] at h2
      obtain ⟨rfl, rfl⟩ : t2 = Ty.bmap t1 ∧ v2 = PVal.vmodel svs cvs := by
        constructor <;> [exact congrArg Prod.fst h2; exact congrArg Prod.snd h2]
      exact ho
  | model sts cts =>
    intro t2 v2 h2 o ho
    cases v with
    | vmodel svs cvs =>
      simp only [pclosure, List.mem_cons] at h2 ⊢
      rcases h2 with h2 | h2
      · obtain ⟨rfl, rfl⟩ : t2 = Ty.model sts cts ∧ v2 = PVal.vmodel svs cvs := by
          constructor <;> [exact congrArg Prod.fst h2; exact congrArg Prod.snd h2]
        have := ho
        simp only [pclosure, List.mem_cons] at this
        exact this
      · right
        exact pclosureChildren_trans cts cvs t2 v2 h2 o ho
    | vstr b =>
      simp only [pclosure, List.mem_singleton] at h2
      obtain ⟨rfl, rfl⟩ : t2 = Ty.model sts cts ∧ v2 = PVal.vstr b := by
        constructor <;> [exact congrArg Prod.fst h2; exact congrArg Prod.snd h2]
      exact ho
    | vvec es =>
      simp only [pclosure, List.mem_singleton] at h2
      obtain ⟨rfl, rfl⟩ : t2 = Ty.model sts cts ∧ v2 = PVal.vvec es := by
        constructor <;> [exact congrArg Prod.fst h2; exact congrArg Prod.snd h2]
      exact ho
    | vmap kvs =>
      simp only [pclosure, List.mem_singleton] at h2
      obtain ⟨rfl, rfl⟩ : t2 = Ty.model sts cts ∧ v2 = PVal.vmap kvs := by
        constructor <;> [exact congrArg Prod.fst h2; exact congrArg Prod.snd h2]
      exact ho

theorem pclosureChildren_trans (cts : TyList) (cvs : List PVal) :
    ∀ t2 v2, (t2, v2) ∈ pclosureChildren cts cvs →
      ∀ o ∈ pclosure t2 v2, o ∈ pclosureChildren cts cvs := by
  cases cts with
  | nil =>
    intro t2 v2 h2
    cases cvs <;> simp [pclosureChildren] at h2
  | cons t ts =>
    intro t2 v2 h2 o ho
    cases cvs with
    | nil => simp [pclosureChildren] at h2
    | cons v vs =>
      simp only [pclosureChildren, List.mem_append] at h2 ⊢
      rcases h2 with h2 | h2
      · left
        exact pclosure_trans t v t2 v2 h2 o ho
      · right
        exact pclosureChildren_trans ts vs t2 v2 h2 o ho
end

lemma preserve_stored {U C : List (Ty × PVal)} {fs fs2 : FS} (base : List Nat)
    (hinj : hashInj U) (hCU : ∀ o ∈ C, o ∈ U)
    (hstC2 : ∀ o ∈ C, storedAll fs2 base (pclosure o.1 o.2))
    (hframe : ∀ p, (∀ o ∈ C, ¬ p = filenameForHash base (pvalHash o.1 o.2) ∧
        ¬ p = safeFilename base (pvalHash o.1 o.2)) → fsLookup fs2 p = fsLookup fs p)
    {t2 : Ty} {v2 : PVal} (hU : (t2, v2) ∈ U)
    (hprev : fsLookup fs (filenameForHash base (pvalHash t2 v2)) = some (serialize t2 v2)) :
    fsLookup fs2 (filenameForHash base (pvalHash t2 v2)) = some (serialize t2 v2) := by
  by_cases hex : ∃ o ∈ C, filenameForHash base (pvalHash o.1 o.2) =
      filenameForHash base (pvalHash t2 v2)
  · obtain ⟨o, hoC, heq⟩ := hex
    have hh := fname_inj_pval base heq
    have := hinj o.1 o.2 t2 v2 (hCU o hoC) hU hh
    obtain ⟨he1, he2⟩ := this
    have hself := hstC2 o hoC o.1 o.2 (pclosure_self o.1 o.2)
    rw [he1, he2] at hself
    exact hself
  · push_neg at hex
    rw [hframe _ (fun o hoC => ⟨fun hp => hex o hoC hp.symm,
      fun hp => fname_ne_safe_pval base hp⟩)]
    exact hprev

lemma preserve_goodStore {U C : List (Ty × PVal)} {fs fs2 : FS} (base : List Nat)
    (hinj : hashInj U) (hCU : ∀ o ∈ C, o ∈ U)
    (hstC2 : ∀ o ∈ C, storedAll fs2 base (pclosure o.1 o.2))
    (hframe : ∀ p, (∀ o ∈ C, ¬ p = filenameForHash base (pvalHash o.1 o.2) ∧
        ¬ p = safeFilename base (pvalHash o.1 o.2)) → fsLookup fs2 p = fsLookup fs p)
    (hUclosed : ∀ t2 v2, (t2, v2) ∈ U → ∀ o ∈ pclosure t2 v2, o ∈ U)
    (hgs : goodStore fs base U) : goodStore fs2 base U := by
  intro t2 v2 hU
  rcases hgs t2 v2 hU with hnone | hstored
  · by_cases hex : ∃ o ∈ C, filenameForHash base (pvalHash o.1 o.2) =
        filenameForHash base (pvalHash t2 v2)
    · obtain ⟨o, hoC, heq⟩ := hex
      have hh := fname_inj_pval base heq
      obtain ⟨he1, he2⟩ := hinj o.1 o.2 t2 v2 (hCU o hoC) hU hh
      right
      have := hstC2 o hoC
      rw [he1, he2] at this
      exact this
    · push_neg at hex
      left
      rw [hframe _ (fun o hoC => ⟨fun hp => hex o hoC hp.symm,
        fun hp => fname_ne_safe_pval base hp⟩)]
      exact hnone
  · right
    intro t3 v3 h3
    exact preserve_stored base hinj hCU hstC2 hframe
      (hUclosed t2 v2 hU (t3, v3) h3) (hstored t3 v3 h3)

lemma lookup_end_steps (fs : FS) (sfn ffn c : List Nat) (p : List Nat)
    (h1 : ¬ p = ffn) (h2 : ¬ p = sfn) :
    fsLookup (fsInsert (fsErase (fsInsert fs sfn c) sfn) ffn c) p = fsLookup fs p := by
  rw [fsLookup_insert_ne _ h1, fsLookup_erase_ne _ h2, fsLookup_insert_ne _ h2]

lemma createRename_eval {fs : FS} (hfc : fs.failCreate = []) (sfn ffn c : List Nat) :
    (do
      let fs1 ← fsCreate fs sfn c
      fsRename fs1 sfn ffn) =
    Except.ok (fsInsert (fsErase (fsInsert fs sfn c) sfn) ffn c) := by
  rw [fsCreate_ok hfc]
  show fsRename (fsInsert fs sfn c) sfn ffn = _
  rw [fsRename, fsLookup_insert]

lemma storedAll_insert_safe {fs : FS} {base : List Nat} {L : List (Ty × PVal)}
    (tp : Ty) (vp : PVal) (c : List Nat) (h : storedAll fs base L) :
    storedAll (fsInsert fs (safeFilename base (pvalHash tp vp)) c) base L := by
  intro t2 v2 hm
  rw [fsLookup_insert_ne _ (fname_ne_safe_pval base)]
  exact h t2 v2 hm

lemma goodStore_insert_safe {fs : FS} {base : List Nat} {U : List (Ty × PVal)}
    (tp : Ty) (vp : PVal) (c : List Nat) (h : goodStore fs base U) :
    goodStore (fsInsert fs (safeFilename base (pvalHash tp vp)) c) base U := by
  intro t2 v2 hm
  rcases h t2 v2 hm with hnone | hst
  · left
    rw [fsLookup_insert_ne _ (fname_ne_safe_pval base)]
    exact hnone
  · right
    exact storedAll_insert_safe tp vp c hst

lemma preserve_stored_one {U : List (Ty × PVal)} {fs fs2 : FS} (base : List Nat)
    (hinj : hashInj U) {tp : Ty} {vp : PVal} (hpU : (tp, vp) ∈ U)
    (hstP : fsLookup fs2 (filenameForHash base (pvalHash tp vp)) = some (serialize tp vp))
    (hframe : ∀ p, ¬ p = filenameForHash base (pvalHash tp vp) →
      ¬ p = safeFilename base (pvalHash tp vp) → fsLookup fs2 p = fsLookup fs p)
    {t2 : Ty} {v2 : PVal} (hU : (t2, v2) ∈ U)
    (hprev : fsLookup fs (filenameForHash base (pvalHash t2 v2)) = some (serialize t2 v2)) :
    fsLookup fs2 (filenameForHash base (pvalHash t2 v2)) = some (serialize t2 v2) := by
  by_cases heq : filenameForHash base (pvalHash t2 v2) = filenameForHash base (pvalHash tp vp)
  · have hh := fname_inj_pval base heq
    obtain ⟨he1, he2⟩ := hinj t2 v2 tp vp hU hpU hh
    rw [he1, he2]
    exact hstP
  · rw [hframe _ heq (fname_ne_safe_pval base)]
    exact hprev

lemma putStr_spec (b : List Nat) (base : List Nat) (fs : FS) (U : List (Ty × PVal))
    (hU : (Ty.str, PVal.vstr b) ∈ U)
    (hinj : hashInj U)
    (hUclosed : ∀ t2 v2, (t2, v2) ∈ U → ∀ o ∈ pclosure t2 v2, o ∈ U)
    (hgs : goodStore fs base U) (hfc : fs.failCreate = []) :
    ∃ fs2, putStr b base fs = Except.ok fs2 ∧
      fs2.failCreate = [] ∧
      storedAll fs2 base (pclosure Ty.str (PVal.vstr b)) ∧
      goodStore fs2 base U ∧
      (∀ p, ¬ p = filenameForHash base (pvalHash Ty.str (PVal.vstr b)) →
        ¬ p = safeFilename base (pvalHash Ty.str (PVal.vstr b)) →
        fsLookup fs2 p = fsLookup fs p) := by
  cases hlook : fsLookup fs (filenameForHash base (pvalHash Ty.str (PVal.vstr b))) with
  | some c =>
    refine ⟨fs, ?_, hfc, ?_, hgs, fun p _ _ => rfl⟩
    · rw [putStr, hlook]
      rfl
    · rcases hgs Ty.str (PVal.vstr b) hU with hnone | hst
      · rw [hlook] at hnone
        exact absurd hnone (by simp)
      · exact hst
  | none =>
    refine ⟨fsInsert (fsErase (fsInsert fs
      (safeFilename base (pvalHash Ty.str (PVal.vstr b))) (serializeStr b))
      (safeFilename base (pvalHash Ty.str (PVal.vstr b))))
      (filenameForHash base (pvalHash Ty.str (PVal.vstr b))) (serializeStr b), ?_, hfc, ?_, ?_, ?_⟩
    · rw [putStr, hlook]
      show (do
        let fs1 ← fsCreate fs (safeFilename base (pvalHash Ty.str (PVal.vstr b))) (serializeStr b)
        fsRename fs1 (safeFilename base (pvalHash Ty.str (PVal.vstr b)))
          (filenameForHash base (pvalHash Ty.str (PVal.vstr b)))) = _
      exact createRename_eval hfc _ _ _
    · intro t2 v2 hm
      simp only [pclosure, List.mem_singleton] at hm
      obtain ⟨rfl, rfl⟩ : t2 = Ty.str ∧ v2 = PVal.vstr b := by
        constructor <;> [exact congrArg Prod.fst hm; exact congrArg Prod.snd hm]
      exact fsLookup_insert _ _ _
    · refine preserve_goodStore base hinj
        (show ∀ o ∈ [(Ty.str, PVal.vstr b)], o ∈ U from fun o ho => by
          have : o = (Ty.str, PVal.vstr b) := by simpa using ho
          rw [this]; exact hU)
        ?_ ?_ hUclosed hgs
      · intro o ho
        have : o = (Ty.str, PVal.vstr b) := by simpa using ho
        rw [this]
        intro t2 v2 hm
        simp only [pclosure, List.mem_singleton] at hm
        obtain ⟨rfl, rfl⟩ : t2 = Ty.str ∧ v2 = PVal.vstr b := by
          constructor <;> [exact congrArg Prod.fst hm; exact congrArg Prod.snd hm]
        exact fsLookup_insert _ _ _
      · intro p hp
        have h := hp (Ty.str, PVal.vstr b) (by simp)
        exact lookup_end_steps fs _ _ _ p h.1 h.2
    · intro p h1 h2
      exact lookup_end_steps fs _ _ _ p h1 h2

lemma putVal_skip : ∀ (t : Ty) (v : PVal) (base : List Nat) (fs : FS) (c : List Nat),
    fsLookup fs (filenameForHash base (pvalHash t v)) = some c →
    putVal t v base fs = Except.ok fs := by
  intro t v base fs c hlook
  cases t <;> cases v <;> simp [putVal, hlook]

lemma pairClosure_trans (t1 : Ty) (kv : List Nat × PVal) :
    ∀ t2 v2, (t2, v2) ∈ (Ty.str, PVal.vstr kv.1) :: pclosure t1 kv.2 →
      ∀ o ∈ pclosure t2 v2, o ∈ (Ty.str, PVal.vstr kv.1) :: pclosure t1 kv.2 := by
  intro t2 v2 h2 o ho
  rcases List.mem_cons.mp h2 with h2 | h2
  · obtain ⟨rfl, rfl⟩ : t2 = Ty.str ∧ v2 = PVal.vstr kv.1 := by
      constructor <;> [exact congrArg Prod.fst h2; exact congrArg Prod.snd h2]
    simp only [pclosure, List.mem_singleton] at ho
    simp [ho]
  · exact List.mem_cons.mpr (Or.inr (pclosure_trans t1 kv.2 t2 v2 h2 o ho))

mutual
theorem putVal_spec (t : Ty) (v : PVal) (base : List Nat) (fs : FS) (U : List (Ty × PVal))
    (hsub : ∀ o ∈ pclosure t v, o ∈ U)
    (hwt : wt t v = true)
    (hinj : hashInj U)
    (hUclosed : ∀ t2 v2, (t2, v2) ∈ U → ∀ o ∈ pclosure t2 v2, o ∈ U)
    (hgs : goodStore fs base U) (hfc : fs.failCreate = []) :
    ∃ fs2, putVal t v base fs = Except.ok fs2 ∧
      fs2.failCreate = [] ∧
      storedAll fs2 base (pclosure t v) ∧
      goodStore fs2 base U ∧
      (∀ p, (∀ o ∈ pclosure t v, ¬ p = filenameForHash base (pvalHash o.1 o.2) ∧
          ¬ p = safeFilename base (pvalHash o.1 o.2)) →
        fsLookup fs2 p = fsLookup fs p) := by
  have hself : (t, v) ∈ U := hsub (t, v) (pclosure_self t v)
  cases hlook : fsLookup fs (filenameForHash base (pvalHash t v)) with
  | some c =>
    refine ⟨fs, putVal_skip t v base fs c hlook, hfc, ?_, hgs, fun p _ => rfl⟩
    rcases hgs t v hself with hnone | hst
    · rw [hlook] at hnone
      exact absurd hnone (by simp)
    · exact hst
  | none =>
    cases t with
    | str =>
      cases v with
      | vvec es => simp [wt] at hwt
      | vmap kvs => simp [wt] at hwt
      | vmodel svs cvs => simp [wt] at hwt
      | vstr b =>
        obtain ⟨fs2, hok, hfc2, hst2, hgs2, hfr2⟩ :=
          putStr_spec b base fs U hself hinj hUclosed hgs hfc
        refine ⟨fs2, ?_, hfc2, hst2, hgs2, ?_⟩
        · show putStr b base fs = Except.ok fs2
          exact hok
        · intro p hp
          have hh := hp (Ty.str, PVal.vstr b) (pclosure_self _ _)
          exact hfr2 p hh.1 hh.2
    | vec t1 =>
      cases v with
      | vstr b => simp [wt] at hwt
      | vmap kvs => simp [wt] at hwt
      | vmodel svs cvs => simp [wt] at hwt
      | vvec es =>
        simp only [wt, Bool.and_eq_true, decide_eq_true_eq, List.all_eq_true] at hwt
        have hsubm : ∀ e ∈ es, ∀ o ∈ pclosure t1 e, o ∈ U := fun e he o ho =>
          hsub o (by
            simp only [pclosure, List.mem_cons]
            right
            exact List.mem_flatMap.mpr ⟨e, he, ho⟩)
        obtain ⟨fsC, hfold, hfcC, hstC, hgsC, hfrC⟩ :=
          putList_spec t1 es base
            (fsInsert fs (safeFilename base (pvalHash (Ty.vec t1) (PVal.vvec es))) []) U
            hsubm hwt.2 hinj hUclosed
            (goodStore_insert_safe (Ty.vec t1) (PVal.vvec es) [] hgs) hfc
        have hstE : storedAll (fsInsert (fsErase (fsInsert fsC
            (safeFilename base (pvalHash (Ty.vec t1) (PVal.vvec es)))
            (serialize (Ty.vec t1) (PVal.vvec es)))
            (safeFilename base (pvalHash (Ty.vec t1) (PVal.vvec es))))
            (filenameForHash base (pvalHash (Ty.vec t1) (PVal.vvec es)))
            (serialize (Ty.vec t1) (PVal.vvec es))) base
            (pclosure (Ty.vec t1) (PVal.vvec es)) := by
          intro t2 v2 hm
          simp only [pclosure, List.mem_cons] at hm
          rcases hm with hm | hm
          · obtain ⟨rfl, rfl⟩ : t2 = Ty.vec t1 ∧ v2 = PVal.vvec es := by
              constructor <;> [exact congrArg Prod.fst hm; exact congrArg Prod.snd hm]
            exact fsLookup_insert _ _ _
          · rcases List.mem_flatMap.mp hm with ⟨e, he, hin⟩
            refine preserve_stored_one base hinj hself (fsLookup_insert _ _ _)
              (fun p h1 h2 => lookup_end_steps fsC _ _ _ p h1 h2)
              (hsub (t2, v2) (by
                simp only [pclosure, List.mem_cons]
                right
                exact List.mem_flatMap.mpr ⟨e, he, hin⟩))
              (hstC e he t2 v2 hin)
        have hframeE : ∀ p, (∀ o ∈ pclosure (Ty.vec t1) (PVal.vvec es),
            ¬ p = filenameForHash base (pvalHash o.1 o.2) ∧
            ¬ p = safeFilename base (pvalHash o.1 o.2)) →
            fsLookup (fsInsert (fsErase (fsInsert fsC
              (safeFilename base (pvalHash (Ty.vec t1) (PVal.vvec es)))
              (serialize (Ty.vec t1) (PVal.vvec es)))
              (safeFilename base (pvalHash (Ty.vec t1) (PVal.vvec es))))
              (filenameForHash base (pvalHash (Ty.vec t1) (PVal.vvec es)))
              (serialize (Ty.vec t1) (PVal.vvec es))) p = fsLookup fs p := by
          intro p hp
          have hpar := hp (Ty.vec t1, PVal.vvec es) (pclosure_self _ _)
          rw [lookup_end_steps fsC _ _ _ p hpar.1 hpar.2]
          rw [hfrC p (fun e he o ho => hp o (by
            simp only [pclosure, List.mem_cons]
            right
            exact List.mem_flatMap.mpr ⟨e, he, ho⟩))]
          rw [fsLookup_insert_ne _ hpar.2]
        refine ⟨fsInsert (fsErase (fsInsert fsC
            (safeFilename base (pvalHash (Ty.vec t1) (PVal.vvec es)))
            (serialize (Ty.vec t1) (PVal.vvec es)))
            (safeFilename base (pvalHash (Ty.vec t1) (PVal.vvec es))))
            (filenameForHash base (pvalHash (Ty.vec t1) (PVal.vvec es)))
            (serialize (Ty.vec t1) (PVal.vvec es)), ?_, hfcC, hstE, ?_, hframeE⟩
        · show (if (fsLookup fs (filenameForHash base
              (pvalHash (Ty.vec t1) (PVal.vvec es)))).isSome then
              Except.ok fs
            else do
              let fs1 ← fsCreate fs
                (safeFilename base (pvalHash (Ty.vec t1) (PVal.vvec es))) []
              let fs2 ← es.foldlM (fun acc e => putVal t1 e base acc) fs1
              let fs3 := fsInsert fs2
                (safeFilename base (pvalHash (Ty.vec t1) (PVal.vvec es)))
                (serialize (Ty.vec t1) (PVal.vvec es))
              fsRename fs3 (safeFilename base (pvalHash (Ty.vec t1) (PVal.vvec es)))
                (filenameForHash base (pvalHash (Ty.vec t1) (PVal.vvec es)))) = _
          rw [hlook]
          show (do
              let fs1 ← fsCreate fs
                (safeFilename base (pvalHash (Ty.vec t1) (PVal.vvec es))) []
              let fs2 ← es.foldlM (fun acc e => putVal t1 e base acc) fs1
              let fs3 := fsInsert fs2
                (safeFilename base (pvalHash (Ty.vec t1) (PVal.vvec es)))
                (serialize (Ty.vec t1) (PVal.vvec es))
              fsRename fs3 (safeFilename base (pvalHash (Ty.vec t1) (PVal.vvec es)))
                (filenameForHash base (pvalHash (Ty.vec t1) (PVal.vvec es)))) = _
          rw [fsCreate_ok hfc]
          show (do
              let fs2 ← es.foldlM (fun acc e => putVal t1 e base acc)
                (fsInsert fs (safeFilename base (pvalHash (Ty.vec t1) (PVal.vvec es))) [])
              let fs3 := fsInsert fs2
                (safeFilename base (pvalHash (Ty.vec t1) (PVal.vvec es)))
                (serialize (Ty.vec t1) (PVal.vvec es))
              fsRename fs3 (safeFilename base (pvalHash (Ty.vec t1) (PVal.vvec es)))
                (filenameForHash base (pvalHash (Ty.vec t1) (PVal.vvec es)))) = _
          rw [hfold]
          show fsRename (fsInsert fsC
              (safeFilename base (pvalHash (Ty.vec t1) (PVal.vvec es)))
              (serialize (Ty.vec t1) (PVal.vvec es)))
              (safeFilename base (pvalHash (Ty.vec t1) (PVal.vvec es)))
              (filenameForHash base (pvalHash (Ty.vec t1) (PVal.vvec es))) = _
          rw [fsRename, fsLookup_insert]
        · refine preserve_goodStore base hinj hsub ?_ hframeE hUclosed hgs
          intro o ho t3 v3 h3
          exact hstE t3 v3 (pclosure_trans (Ty.vec t1) (PVal.vvec es) o.1 o.2
            (by simpa using ho) (t3, v3) h3)
    | bmap t1 =>
      cases v with
      | vstr b => simp [wt] at hwt
      | vvec es => simp [wt] at hwt
      | vmodel svs cvs => simp [wt] at hwt
      | vmap kvs =>
        simp only [wt, Bool.and_eq_true, decide_eq_true_eq, List.all_eq_true] at hwt
        have hsubm : ∀ kv ∈ kvs, ∀ o ∈ (Ty.str, PVal.vstr kv.1) :: pclosure t1 kv.2,
            o ∈ U := fun kv hkv o ho =>
          hsub o (by
            simp only [pclosure, List.mem_cons]
            right
            exact List.mem_flatMap.mpr ⟨kv, hkv, ho⟩)
        obtain ⟨fsC, hfold, hfcC, hstC, hgsC, hfrC⟩ :=
          putPairs_spec t1 kvs base
            (fsInsert fs (safeFilename base (pvalHash (Ty.bmap t1) (PVal.vmap kvs))) []) U
            hsubm (fun kv hkv => ((hwt.2 kv hkv).2)) hinj hUclosed
            (goodStore_insert_safe (Ty.bmap t1) (PVal.vmap kvs) [] hgs) hfc
        have hstE : storedAll (fsInsert (fsErase (fsInsert fsC
            (safeFilename base (pvalHash (Ty.bmap t1) (PVal.vmap kvs)))
            (serialize (Ty.bmap t1) (PVal.vmap kvs)))
            (safeFilename base (pvalHash (Ty.bmap t1) (PVal.vmap kvs))))
            (filenameForHash base (pvalHash (Ty.bmap t1) (PVal.vmap kvs)))
            (serialize (Ty.bmap t1) (PVal.vmap kvs))) base
            (pclosure (Ty.bmap t1) (PVal.vmap kvs)) := by
          intro t2 v2 hm
          simp only [pclosure, List.mem_cons] at hm
          rcases hm with hm | hm
          · obtain ⟨rfl, rfl⟩ : t2 = Ty.bmap t1 ∧ v2 = PVal.vmap kvs := by
              constructor <;> [exact congrArg Prod.fst hm; exact congrArg Prod.snd hm]
            exact fsLookup_insert _ _ _
          · rcases List.mem_flatMap.mp hm with ⟨kv, hkv, hin⟩
            refine preserve_stored_one base hinj hself (fsLookup_insert _ _ _)
              (fun p h1 h2 => lookup_end_steps fsC _ _ _ p h1 h2)
              (hsub (t2, v2) (by
                simp only [pclosure, List.mem_cons]
                right
                exact List.mem_flatMap.mpr ⟨kv, hkv, hin⟩))
              (hstC kv hkv t2 v2 hin)
        have hframeE : ∀ p, (∀ o ∈ pclosure (Ty.bmap t1) (PVal.vmap kvs),
            ¬ p = filenameForHash base (pvalHash o.1 o.2) ∧
            ¬ p = safeFilename base (pvalHash o.1 o.2)) →
            fsLookup (fsInsert (fsErase (fsInsert fsC
              (safeFilename base (pvalHash (Ty.bmap t1) (PVal.vmap kvs)))
              (serialize (Ty.bmap t1) (PVal.vmap kvs)))
              (safeFilename base (pvalHash (Ty.bmap t1) (PVal.vmap kvs))))
              (filenameForHash base (pvalHash (Ty.bmap t1) (PVal.vmap kvs)))
              (serialize (Ty.bmap t1) (PVal.vmap kvs))) p = fsLookup fs p := by
          intro p hp
          have hpar := hp (Ty.bmap t1, PVal.vmap kvs) (pclosure_self _ _)
          rw [lookup_end_steps fsC _ _ _ p hpar.1 hpar.2]
          rw [hfrC p (fun kv hkv o ho => hp o (by
            simp only [pclosure, List.mem_cons]
            right
            exact List.mem_flatMap.mpr ⟨kv, hkv, ho⟩))]
          rw [fsLookup_insert_ne _ hpar.2]
        refine ⟨fsInsert (fsErase (fsInsert fsC
            (safeFilename base (pvalHash (Ty.bmap t1) (PVal.vmap kvs)))
            (serialize (Ty.bmap t1) (PVal.vmap kvs)))
            (safeFilename base (pvalHash (Ty.bmap t1) (PVal.vmap kvs))))
            (filenameForHash base (pvalHash (Ty.bmap t1) (PVal.vmap kvs)))
            (serialize (Ty.bmap t1) (PVal.vmap kvs)), ?_, hfcC, hstE, ?_, hframeE⟩
        · show (if (fsLookup fs (filenameForHash base
              (pvalHash (Ty.bmap t1) (PVal.vmap kvs)))).isSome then
              Except.ok fs
            else do
              let fs1 ← fsCreate fs
                (safeFilename base (pvalHash (Ty.bmap t1) (PVal.vmap kvs))) []
              let fs2 ← kvs.foldlM
                (fun (acc : FS) (kv : List Nat × PVal) => do
                  let acc1 ← putStr kv.1 base acc
                  putVal t1 kv.2 base acc1) fs1
              let fs3 := fsInsert fs2
                (safeFilename base (pvalHash (Ty.bmap t1) (PVal.vmap kvs)))
                (serialize (Ty.bmap t1) (PVal.vmap kvs))
              fsRename fs3 (safeFilename base (pvalHash (Ty.bmap t1) (PVal.vmap kvs)))
                (filenameForHash base (pvalHash (Ty.bmap t1) (PVal.vmap kvs)))) = _
          rw [hlook]
          show (do
              let fs1 ← fsCreate fs
                (safeFilename base (pvalHash (Ty.bmap t1) (PVal.vmap kvs))) []
              let fs2 ← kvs.foldlM
                (fun (acc : FS) (kv : List Nat × PVal) => do
                  let acc1 ← putStr kv.1 base acc
                  putVal t1 kv.2 base acc1) fs1
              let fs3 := fsInsert fs2
                (safeFilename base (pvalHash (Ty.bmap t1) (PVal.vmap kvs)))
                (serialize (Ty.bmap t1) (PVal.vmap kvs))
              fsRename fs3 (safeFilename base (pvalHash (Ty.bmap t1) (PVal.vmap kvs)))
                (filenameForHash base (pvalHash (Ty.bmap t1) (PVal.vmap kvs)))) = _
          rw [fsCreate_ok hfc]
          show (do
              let fs2 ← kvs.foldlM
                (fun (acc : FS) (kv : List Nat × PVal) => do
                  let acc1 ← putStr kv.1 base acc
                  putVal t1 kv.2 base acc1)
                (fsInsert fs (safeFilename base (pvalHash (Ty.bmap t1) (PVal.vmap kvs))) [])
              let fs3 := fsInsert fs2
                (safeFilename base (pvalHash (Ty.bmap t1) (PVal.vmap kvs)))
                (serialize (Ty.bmap t1) (PVal.vmap kvs))
              fsRename fs3 (safeFilename base (pvalHash (Ty.bmap t1) (PVal.vmap kvs)))
                (filenameForHash base (pvalHash (Ty.bmap t1) (PVal.vmap kvs)))) = _
          rw [hfold]
          show fsRename (fsInsert fsC
              (safeFilename base (pvalHash (Ty.bmap t1) (PVal.vmap kvs)))
              (serialize (Ty.bmap t1) (PVal.vmap kvs)))
              (safeFilename base (pvalHash (Ty.bmap t1) (PVal.vmap kvs)))
              (filenameForHash base (pvalHash (Ty.bmap t1) (PVal.vmap kvs))) = _
          rw [fsRename, fsLookup_insert]
        · refine preserve_goodStore base hinj hsub ?_ hframeE hUclosed hgs
          intro o ho t3 v3 h3
          exact hstE t3 v3 (pclosure_trans (Ty.bmap t1) (PVal.vmap kvs) o.1 o.2
            (by simpa using ho) (t3, v3) h3)
    | model sts cts =>
      cases v with
      | vstr b => simp [wt] at hwt
      | vvec es => simp [wt] at hwt
      | vmap kvs => simp [wt] at hwt
      | vmodel svs cvs =>
        simp only [wt, Bool.and_eq_true] at hwt
        have hsubm : ∀ o ∈ pclosureChildren cts cvs, o ∈ U := fun o ho =>
          hsub o (by
            simp only [pclosure, List.mem_cons]
            right
            exact ho)
        obtain ⟨fsC, hchild, hfcC, hstC, hgsC, hfrC⟩ :=
          putChildren_spec cts cvs base fs U hsubm hwt.2 hinj hUclosed hgs hfc
        have hstE : storedAll (fsInsert (fsErase (fsInsert fsC
            (safeFilename base (pvalHash (Ty.model sts cts) (PVal.vmodel svs cvs)))
            (serialize (Ty.model sts cts) (PVal.vmodel svs cvs)))
            (safeFilename base (pvalHash (Ty.model sts cts) (PVal.vmodel svs cvs))))
            (filenameForHash base (pvalHash (Ty.model sts cts) (PVal.vmodel svs cvs)))
            (serialize (Ty.model sts cts) (PVal.vmodel svs cvs))) base
            (pclosure (Ty.model sts cts) (PVal.vmodel svs cvs)) := by
          intro t2 v2 hm
          simp only [pclosure, List.mem_cons] at hm
          rcases hm with hm | hm
          · obtain ⟨rfl, rfl⟩ : t2 = Ty.model sts cts ∧ v2 = PVal.vmodel svs cvs := by
              constructor <;> [exact congrArg Prod.fst hm; exact congrArg Prod.snd hm]
            exact fsLookup_insert _ _ _
          · refine preserve_stored_one base hinj hself (fsLookup_insert _ _ _)
              (fun p h1 h2 => lookup_end_steps fsC _ _ _ p h1 h2)
              (hsub (t2, v2) (by
                simp only [pclosure, List.mem_cons]
                right
                exact hm))
              (hstC t2 v2 hm)
        have hframeE : ∀ p, (∀ o ∈ pclosure (Ty.model sts cts) (PVal.vmodel svs cvs),
            ¬ p = filenameForHash base (pvalHash o.1 o.2) ∧
            ¬ p = safeFilename base (pvalHash o.1 o.2)) →
            fsLookup (fsInsert (fsErase (fsInsert fsC
              (safeFilename base (pvalHash (Ty.model sts cts) (PVal.vmodel svs cvs)))
              (serialize (Ty.model sts cts) (PVal.vmodel svs cvs)))
              (safeFilename base (pvalHash (Ty.model sts cts) (PVal.vmodel svs cvs))))
              (filenameForHash base (pvalHash (Ty.model sts cts) (PVal.vmodel svs cvs)))
              (serialize (Ty.model sts cts) (PVal.vmodel svs cvs))) p = fsLookup fs p := by
          intro p hp
          have hpar := hp (Ty.model sts cts, PVal.vmodel svs cvs) (pclosure_self _ _)
          rw [lookup_end_steps fsC _ _ _ p hpar.1 hpar.2]
          rw [hfrC p (fun o ho => hp o (by
            simp only [pclosure, List.mem_cons]
            right
            exact ho))]
        refine ⟨fsInsert (fsErase (fsInsert fsC
            (safeFilename base (pvalHash (Ty.model sts cts) (PVal.vmodel svs cvs)))
            (serialize (Ty.model sts cts) (PVal.vmodel svs cvs)))
            (safeFilename base (pvalHash (Ty.model sts cts) (PVal.vmodel svs cvs))))
            (filenameForHash base (pvalHash (Ty.model sts cts) (PVal.vmodel svs cvs)))
            (serialize (Ty.model sts cts) (PVal.vmodel svs cvs)), ?_, hfcC, hstE, ?_, hframeE⟩
        · show (if (fsLookup fs (filenameForHash base
              (pvalHash (Ty.model sts cts) (PVal.vmodel svs cvs)))).isSome then
              Except.ok fs
            else do
              let fs1 ← putChildren cts cvs base fs
              let fs2 ← fsCreate fs1
                (safeFilename base (pvalHash (Ty.model sts cts) (PVal.vmodel svs cvs)))
                (serialize (Ty.model sts cts) (PVal.vmodel svs cvs))
              fsRename fs2
                (safeFilename base (pvalHash (Ty.model sts cts) (PVal.vmodel svs cvs)))
                (filenameForHash base (pvalHash (Ty.model sts cts) (PVal.vmodel svs cvs)))) = _
          rw [hlook]
          show (do
              let fs1 ← putChildren cts cvs base fs
              let fs2 ← fsCreate fs1
                (safeFilename base (pvalHash (Ty.model sts cts) (PVal.vmodel svs cvs)))
                (serialize (Ty.model sts cts) (PVal.vmodel svs cvs))
              fsRename fs2
                (safeFilename base (pvalHash (Ty.model sts cts) (PVal.vmodel svs cvs)))
                (filenameForHash base (pvalHash (Ty.model sts cts) (PVal.vmodel svs cvs)))) = _
          rw [hchild]
          show (do
              let fs2 ← fsCreate fsC
                (safeFilename base (pvalHash (Ty.model sts cts) (PVal.vmodel svs cvs)))
                (serialize (Ty.model sts cts) (PVal.vmodel svs cvs))
              fsRename fs2
                (safeFilename base (pvalHash (Ty.model sts cts) (PVal.vmodel svs cvs)))
                (filenameForHash base (pvalHash (Ty.model sts cts) (PVal.vmodel svs cvs)))) = _
          rw [fsCreate_ok hfcC]
          show fsRename (fsInsert fsC
              (safeFilename base (pvalHash (Ty.model sts cts) (PVal.vmodel svs cvs)))
              (serialize (Ty.model sts cts) (PVal.vmodel svs cvs)))
              (safeFilename base (pvalHash (Ty.model sts cts) (PVal.vmodel svs cvs)))
              (filenameForHash base (pvalHash (Ty.model sts cts) (PVal.vmodel svs cvs))) = _
          rw [fsRename, fsLookup_insert]
        · refine preserve_goodStore base hinj hsub ?_ hframeE hUclosed hgs
          intro o ho t3 v3 h3
          exact hstE t3 v3 (pclosure_trans (Ty.model sts cts) (PVal.vmodel svs cvs) o.1 o.2
            (by simpa using ho) (t3, v3) h3)

theorem putList_spec (t1 : Ty) (es : List PVal) (base : List Nat) (fs : FS)
    (U : List (Ty × PVal))
    (hsub : ∀ e ∈ es, ∀ o ∈ pclosure t1 e, o ∈ U)
    (hwts : ∀ e ∈ es, wt t1 e = true)
    (hinj : hashInj U)
    (hUclosed : ∀ t2 v2, (t2, v2) ∈ U → ∀ o ∈ pclosure t2 v2, o ∈ U)
    (hgs : goodStore fs base U) (hfc : fs.failCreate = []) :
    ∃ fs2, es.foldlM (fun acc e => putVal t1 e base acc) fs = Except.ok fs2 ∧
      fs2.failCreate = [] ∧
      (∀ e ∈ es, storedAll fs2 base (pclosure t1 e)) ∧
      goodStore fs2 base U ∧
      (∀ p, (∀ e ∈ es, ∀ o ∈ pclosure t1 e,
          ¬ p = filenameForHash base (pvalHash o.1 o.2) ∧
          ¬ p = safeFilename base (pvalHash o.1 o.2)) →
        fsLookup fs2 p = fsLookup fs p) := by
  cases es with
  | nil => exact ⟨fs, rfl, hfc, fun e he => absurd he (by simp), hgs, fun p _ => rfl⟩
  | cons e es =>
    obtain ⟨fsB, hokB, hfcB, hstB, hgsB, hfrB⟩ :=
      putVal_spec t1 e base fs U (hsub e (by simp)) (hwts e (by simp)) hinj hUclosed hgs hfc
    obtain ⟨fsC, hokC, hfcC, hstCs, hgsC, hfrC⟩ :=
      putList_spec t1 es base fsB U (fun x hx => hsub x (by simp [hx]))
        (fun x hx => hwts x (by simp [hx])) hinj hUclosed hgsB hfcB
    refine ⟨fsC, ?_, hfcC, ?_, hgsC, ?_⟩
    · rw [List.foldlM_cons]
      show putVal t1 e base fs >>= (fun b => es.foldlM (fun acc e => putVal t1 e base acc) b) = _
      rw [hokB]
      show es.foldlM (fun acc e => putVal t1 e base acc) fsB = _
      exact hokC
    · intro x hx
      rcases List.mem_cons.mp hx with rfl | hx2
      · intro t2 v2 hm
        refine preserve_stored base hinj
          (show ∀ o ∈ es.flatMap (pclosure t1), o ∈ U from fun o ho => by
            rcases List.mem_flatMap.mp ho with ⟨e2, he2, hin⟩
            exact hsub e2 (by simp [he2]) o hin)
          (fun o ho => by
            rcases List.mem_flatMap.mp ho with ⟨e2, he2, hin⟩
            intro t3 v3 h3
            exact hstCs e2 he2 t3 v3
              (pclosure_trans t1 e2 o.1 o.2 (by simpa using hin) (t3, v3) h3))
          (fun p hp => hfrC p (fun e2 he2 o ho =>
            hp o (List.mem_flatMap.mpr ⟨e2, he2, ho⟩)))
          (hsub x (by simp) (t2, v2) hm) (hstB t2 v2 hm)
      · exact hstCs x hx2
    · intro p hp
      rw [hfrC p (fun e2 he2 o ho => hp e2 (by simp [he2]) o ho)]
      exact hfrB p (fun o ho => hp e (by simp) o ho)

theorem putPairs_spec (t1 : Ty) (kvs : List (List Nat × PVal)) (base : List Nat) (fs : FS)
    (U : List (Ty × PVal))
    (hsub : ∀ kv ∈ kvs, ∀ o ∈ (Ty.str, PVal.vstr kv.1) :: pclosure t1 kv.2, o ∈ U)
    (hwts : ∀ kv ∈ kvs, wt t1 kv.2 = true)
    (hinj : hashInj U)
    (hUclosed : ∀ t2 v2, (t2, v2) ∈ U → ∀ o ∈ pclosure t2 v2, o ∈ U)
    (hgs : goodStore fs base U) (hfc : fs.failCreate = []) :
    ∃ fs2, kvs.foldlM
        (fun acc kv => do
          let acc1 ← putStr kv.1 base acc
          putVal t1 kv.2 base acc1) fs = Except.ok fs2 ∧
      fs2.failCreate = [] ∧
      (∀ kv ∈ kvs, storedAll fs2 base ((Ty.str, PVal.vstr kv.1) :: pclosure t1 kv.2)) ∧
      goodStore fs2 base U ∧
      (∀ p, (∀ kv ∈ kvs, ∀ o ∈ (Ty.str, PVal.vstr kv.1) :: pclosure t1 kv.2,
          ¬ p = filenameForHash base (pvalHash o.1 o.2) ∧
          ¬ p = safeFilename base (pvalHash o.1 o.2)) →
        fsLookup fs2 p = fsLookup fs p) := by
  cases kvs with
  | nil => exact ⟨fs, rfl, hfc, fun kv hkv => absurd hkv (by simp), hgs, fun p _ => rfl⟩
  | cons kv kvs =>
    have hkeyU : (Ty.str, PVal.vstr kv.1) ∈ U := hsub kv (by simp) _ (by simp)
    obtain ⟨fsA, hokA, hfcA, hstA, hgsA, hfrA⟩ :=
      putStr_spec kv.1 base fs U hkeyU hinj hUclosed hgs hfc
    obtain ⟨fsB, hokB, hfcB, hstB, hgsB, hfrB⟩ :=
      putVal_spec t1 kv.2 base fsA U
        (fun o ho => hsub kv (by simp) o (by simp [ho]))
        (hwts kv (by simp)) hinj hUclosed hgsA hfcA
    obtain ⟨fsC, hokC, hfcC, hstCs, hgsC, hfrC⟩ :=
      putPairs_spec t1 kvs base fsB U (fun x hx => hsub x (by simp [hx]))
        (fun x hx => hwts x (by simp [hx])) hinj hUclosed hgsB hfcB
    have hpairStored : storedAll fsB base ((Ty.str, PVal.vstr kv.1) :: pclosure t1 kv.2) := by
      intro t2 v2 hm
      rcases List.mem_cons.mp hm with hm | hm
      · obtain ⟨rfl, rfl⟩ : t2 = Ty.str ∧ v2 = PVal.vstr kv.1 := by
          constructor <;> [exact congrArg Prod.fst hm; exact congrArg Prod.snd hm]
        refine preserve_stored base hinj
          (show ∀ o ∈ pclosure t1 kv.2, o ∈ U from
            fun o ho => hsub kv (by simp) o (by simp [ho]))
          (fun o ho t3 v3 h3 => hstB t3 v3
            (pclosure_trans t1 kv.2 o.1 o.2 (by simpa using ho) (t3, v3) h3))
          (fun p hp => hfrB p hp) hkeyU
          (hstA Ty.str (PVal.vstr kv.1) (pclosure_self _ _))
      · exact hstB t2 v2 hm
    refine ⟨fsC, ?_, hfcC, ?_, hgsC, ?_⟩
    · rw [List.foldlM_cons]
      show (do
          let acc1 ← putStr kv.1 base fs
          putVal t1 kv.2 base acc1) >>=
        (fun b => kvs.foldlM (fun acc kv => do
          let acc1 ← putStr kv.1 base acc
          putVal t1 kv.2 base acc1) b) = _
      rw [hokA]
      show putVal t1 kv.2 base fsA >>=
        (fun b => kvs.foldlM (fun acc kv => do
          let acc1 ← putStr kv.1 base acc
          putVal t1 kv.2 base acc1) b) = _
      rw [hokB]
      exact hokC
    · intro x hx
      rcases List.mem_cons.mp hx with rfl | hx2
      · intro t2 v2 hm
        refine preserve_stored base hinj
          (show ∀ o ∈ kvs.flatMap
              (fun kv2 => (Ty.str, PVal.vstr kv2.1) :: pclosure t1 kv2.2), o ∈ U from
            fun o ho => by
            rcases List.mem_flatMap.mp ho with ⟨kv2, hkv2, hin⟩
            exact hsub kv2 (by simp [hkv2]) o hin)
          (fun o ho => by
            rcases List.mem_flatMap.mp ho with ⟨kv2, hkv2, hin⟩
            intro t3 v3 h3
            exact hstCs kv2 hkv2 t3 v3
              (pairClosure_trans t1 kv2 o.1 o.2 (by simpa using hin) (t3, v3) h3))
          (fun p hp => hfrC p (fun kv2 hkv2 o ho =>
            hp o (List.mem_flatMap.mpr ⟨kv2, hkv2, ho⟩)))
          (hsub x (by simp) (t2, v2) hm) (hpairStored t2 v2 hm)
      · exact hstCs x hx2
    · intro p hp
      rw [hfrC p (fun kv2 hkv2 o ho => hp kv2 (by simp [hkv2]) o ho)]
      have hpk := hp kv (by simp) (Ty.str, PVal.vstr kv.1) (by simp)
      rw [hfrB p (fun o ho => hp kv (by simp) o (by simp [ho]))]
      exact hfrA p hpk.1 hpk.2

theorem putChildren_spec (cts : TyList) (cvs : List PVal) (base : List Nat) (fs : FS)
    (U : List (Ty × PVal))
    (hsub : ∀ o ∈ pclosureChildren cts cvs, o ∈ U)
    (hwts : wtChildren cts cvs = true)
    (hinj : hashInj U)
    (hUclosed : ∀ t2 v2, (t2, v2) ∈ U → ∀ o ∈ pclosure t2 v2, o ∈ U)
    (hgs : goodStore fs base U) (hfc : fs.failCreate = []) :
    ∃ fs2, putChildren cts cvs base fs = Except.ok fs2 ∧
      fs2.failCreate = [] ∧
      storedAll fs2 base (pclosureChildren cts cvs) ∧
      goodStore fs2 base U ∧
      (∀ p, (∀ o ∈ pclosureChildren cts cvs,
          ¬ p = filenameForHash base (pvalHash o.1 o.2) ∧
          ¬ p = safeFilename base (pvalHash o.1 o.2)) →
        fsLookup fs2 p = fsLookup fs p) := by
  cases cts with
  | nil =>
    cases cvs with
    | nil => exact ⟨fs, rfl, hfc, fun t2 v2 hm => absurd hm (by simp [pclosureChildren]),
        hgs, fun p _ => rfl⟩
    | cons v vs => simp [wtChildren] at hwts
  | cons t ts =>
    cases cvs with
    | nil => simp [wtChildren] at hwts
    | cons v vs =>
      simp only [wtChildren, Bool.and_eq_true] at hwts
      obtain ⟨fsB, hokB, hfcB, hstB, hgsB, hfrB⟩ :=
        putVal_spec t v base fs U
          (fun o ho => hsub o (by simp [pclosureChildren, ho]))
          hwts.1 hinj hUclosed hgs hfc
      obtain ⟨fsC, hokC, hfcC, hstC, hgsC, hfrC⟩ :=
        putChildren_spec ts vs base fsB U
          (fun o ho => hsub o (by simp [pclosureChildren, ho]))
          hwts.2 hinj hUclosed hgsB hfcB
      refine ⟨fsC, ?_, hfcC, ?_, hgsC, ?_⟩
      · show (do
          let fs1 ← putVal t v base fs
          putChildren ts vs base fs1) = _
        rw [hokB]
        show putChildren ts vs base fsB = _
        exact hokC
      · intro t2 v2 hm
        simp only [pclosureChildren, List.mem_append] at hm
        rcases hm with hm | hm
        · refine preserve_stored base hinj
            (show ∀ o ∈ pclosureChildren ts vs, o ∈ U from
              fun o ho => hsub o (by simp [pclosureChildren, ho]))
            (fun o ho t3 v3 h3 => hstC t3 v3
              (pclosureChildren_trans ts vs o.1 o.2 (by simpa using ho) (t3, v3) h3))
            (fun p hp => hfrC p hp)
            (hsub (t2, v2) (by simp [pclosureChildren, hm])) (hstB t2 v2 hm)
        · exact hstC t2 v2 hm
      · intro p hp
        rw [hfrC p (fun o ho => hp o (by simp [pclosureChildren, ho]))]
        exact hfrB p (fun o ho => hp o (by simp [pclosureChildren, ho]))
end

/-! ## Claim C1: put/get round trip -/

/-- put followed by get at the value's digest returns the value itself,
    under the content-addressing assumption on the value's closure and
    the store invariant. -/
lemma round_trip_general (t : Ty) (v : PVal) (base : List Nat) (fs : FS)
    (hwt : wt t v = true)
    (hinj : hashInj (pclosure t v))
    (hgs : goodStore fs base (pclosure t v))
    (hfc : fs.failCreate = []) :
    ∃ fs2, putVal t v base fs = Except.ok fs2 ∧
      getVal t (pvalHash t v) base fs2 = Except.ok v := by
  obtain ⟨fs2, hok, _, hst, _, _⟩ :=
    putVal_spec t v base fs (pclosure t v) (fun o ho => ho) hwt hinj
      (fun t2 v2 h2 o ho => pclosure_trans t v t2 v2 h2 o ho) hgs hfc
  exact ⟨fs2, hok, getVal_stored t v base fs2 hwt hst⟩

/-- C1 (amended): for every well-typed persistable value v, put on a
    store whose objects are stored with their closures, with no injected
    create failures and with SHA3-256 injective on v's closure, succeeds,
    and get at as_hash(v) returns a value structurally identical to v.
    (Equality in the sense of the derived PartialEq is weaker: it fails
    on NaN f32 fields, see the counterexample.) -/
theorem c1_round_trip (t : Ty) (v : PVal) (base : List Nat) (fs : FS)
    (hwt : wt t v = true)
    (hinj : hashInj (pclosure t v))
    (hgs : goodStore fs base (pclosure t v))
    (hfc : fs.failCreate = []) :
    ∃ fs2, putVal t v base fs = Except.ok fs2 ∧
      getVal t (pvalHash t v) base fs2 = Except.ok v :=
  round_trip_general t v base fs hwt hinj hgs hfc

/-- C1 witness: the round trip at the concrete String "foo" on the empty
    store. -/
theorem c1_round_trip_witness :
    ∃ fs2, putVal Ty.str (PVal.vstr [102, 111, 111]) [116, 109, 112] ⟨[], []⟩ =
        Except.ok fs2 ∧
      getVal Ty.str (pvalHash Ty.str (PVal.vstr [102, 111, 111])) [116, 109, 112] fs2 =
        Except.ok (PVal.vstr [102, 111, 111]) :=
  c1_round_trip Ty.str (PVal.vstr [102, 111, 111]) [116, 109, 112] ⟨[], []⟩
    (by decide)
    (by
      intro t1 v1 t2 v2 h1 h2 _
      simp only [pclosure, List.mem_singleton] at h1 h2
      obtain ⟨rfl, rfl⟩ : t1 = Ty.str ∧ v1 = PVal.vstr [102, 111, 111] := by
        constructor <;> [exact congrArg Prod.fst h1; exact congrArg Prod.snd h1]
      obtain ⟨rfl, rfl⟩ : t2 = Ty.str ∧ v2 = PVal.vstr [102, 111, 111] := by
        constructor <;> [exact congrArg Prod.fst h2; exact congrArg Prod.snd h2]
      exact ⟨rfl, rfl⟩)
    (by intro t2 v2 _; left; rfl)
    rfl

/-- A one-field model carrying an f32, at the quiet-NaN bit pattern
    0x7FC00000. -/
def tyNan : Ty := Ty.model [⟨[102], ScalarKind.f32⟩] TyList.nil

/-- The NaN-carrying model value. -/
def vNan : PVal := PVal.vmodel [ScalarVal.f32 2143289344] []

/-- C1 counterexample: the NaN-carrying model value round-trips to a
    structurally identical value, yet the derived PartialEq (the reading
    of "equal" in the claim, and the relation the repository's tests use
    via assert_eq!) does not even relate the value to itself, so "get
    returns a value equal to v" fails for v = vNan. -/
theorem c1_counterexample :
    (∃ fs2, putVal tyNan vNan [116] ⟨[], []⟩ = Except.ok fs2 ∧
        getVal tyNan (pvalHash tyNan vNan) [116] fs2 = Except.ok vNan) ∧
      rustEq tyNan vNan vNan = false := by
  constructor
  · exact round_trip_general tyNan vNan [116] ⟨[], []⟩ (by decide)
      (by
        intro t1 v1 t2 v2 h1 h2 _
        simp only [tyNan, vNan, pclosure, pclosureChildren, List.mem_singleton] at h1 h2
        obtain ⟨rfl, rfl⟩ : t1 = tyNan ∧ v1 = vNan := by
          constructor <;> [exact congrArg Prod.fst h1; exact congrArg Prod.snd h1]
        obtain ⟨rfl, rfl⟩ : t2 = tyNan ∧ v2 = vNan := by
          constructor <;> [exact congrArg Prod.fst h2; exact congrArg Prod.snd h2]
        exact ⟨rfl, rfl⟩
      )
      (by intro t2 v2 _; left; rfl) rfl
  · decide

/-! ## Claim C4: the on-disk layout of put("foo") -/

/-- C4 (amended): put of the String "foo" into the empty store at base
    "tmp" creates exactly one file, at
    tmp/b3/6ae418b6f69b6334b9953db9effba6476d076b97fdd7069d8efe71a331caf9
    (the SHA3-256 of the serialization 00 00 00 03 66 6F 6F, not of the
    raw bytes 66 6F 6F), and its contents are u32 len=3 followed by the
    bytes 66 6F 6F - with no version field and no type hash. -/
theorem c4_string_layout :
    Except.map FS.files (putVal Ty.str (PVal.vstr [102, 111, 111]) [116, 109, 112] ⟨[], []⟩) =
      Except.ok [([116, 109, 112, 47, 98, 51, 47, 54, 97, 101, 52, 49, 56, 98, 54, 102,
        54, 57, 98, 54, 51, 51, 52, 98, 57, 57, 53, 51, 100, 98, 57, 101, 102, 102,
        98, 97, 54, 52, 55, 54, 100, 48, 55, 54, 98, 57, 55, 102, 100, 100, 55, 48,
        54, 57, 100, 56, 101, 102, 101, 55, 49, 97, 51, 51, 49, 99, 97, 102, 57],
        [0, 0, 0, 3, 102, 111, 111])] := by
  rfl

/-- C4 counterexample: after put("foo") the address the claim names -
    base/76/d3bc41... , derived from SHA3-256 of the raw bytes 66 6F 6F -
    holds no file at all. -/
theorem c4_counterexample :
    Except.map
        (fun fs2 => fsLookup fs2
          (filenameForHash [116, 109, 112] (Hash.hashBytes [102, 111, 111])))
        (putVal Ty.str (PVal.vstr [102, 111, 111]) [116, 109, 112] ⟨[], []⟩) =
      Except.ok Option.none := by
  rfl

/-! ## Claim C6: sequence layout and element puts -/

/-- C6 counterexample: the header version field of a Vec serialization
    is the u32 0, not the claimed u32 1 (hashio_1.rs write_u32(0, write)
    in Writable for Vec<T>). -/
theorem c6_counterexample :
    serialize (Ty.vec Ty.str) (PVal.vvec []) = writeU32 0 ++ writeU32 0 ∧
      writeU32 0 ≠ writeU32 1 := by
  constructor
  · decide
  · decide

/-- C6 (amended): the serialization of a Vec is u32 0 (not 1), then the
    u32 element count, then the elements' tagged hashes; and put of the
    sequence stores every element (each element's whole closure is on
    disk afterwards). -/
theorem c6_sequence (t1 : Ty) (es : List PVal) (base : List Nat) (fs : FS)
    (hwt : wt (Ty.vec t1) (PVal.vvec es) = true)
    (hinj : hashInj (pclosure (Ty.vec t1) (PVal.vvec es)))
    (hgs : goodStore fs base (pclosure (Ty.vec t1) (PVal.vvec es)))
    (hfc : fs.failCreate = []) :
    serialize (Ty.vec t1) (PVal.vvec es) =
      writeU32 0 ++ writeU32 es.length ++
        (es.flatMap fun e => writeHash (pvalHash t1 e)) ∧
    ∃ fs2, putVal (Ty.vec t1) (PVal.vvec es) base fs = Except.ok fs2 ∧
      ∀ e ∈ es, storedAll fs2 base (pclosure t1 e) := by
  constructor
  · rfl
  · obtain ⟨fs2, hok, _, hst, _, _⟩ :=
      putVal_spec (Ty.vec t1) (PVal.vvec es) base fs
        (pclosure (Ty.vec t1) (PVal.vvec es)) (fun o ho => ho) hwt hinj
        (fun t2 v2 h2 o ho => pclosure_trans (Ty.vec t1) (PVal.vvec es) t2 v2 h2 o ho)
        hgs hfc
    refine ⟨fs2, hok, fun e he t2 v2 hm => hst t2 v2 ?_⟩
    simp only [pclosure, List.mem_cons]
    right
    exact List.mem_flatMap.mpr ⟨e, he, hm⟩

/-- C6 witness: the singleton sequence ["a"] on the empty store. -/
theorem c6_sequence_witness :
    serialize (Ty.vec Ty.str) (PVal.vvec [PVal.vstr [97]]) =
      writeU32 0 ++ writeU32 ([PVal.vstr [97]] : List PVal).length ++
        (([PVal.vstr [97]] : List PVal).flatMap fun e => writeHash (pvalHash Ty.str e)) ∧
    ∃ fs2, putVal (Ty.vec Ty.str) (PVal.vvec [PVal.vstr [97]]) [116] ⟨[], []⟩ =
        Except.ok fs2 ∧
      ∀ e ∈ [PVal.vstr [97]], storedAll fs2 [116] (pclosure Ty.str e) :=
  c6_sequence Ty.str [PVal.vstr [97]] [116] ⟨[], []⟩
    (by decide)
    (by
      intro t1 v1 t2 v2 h1 h2 hh
      simp only [pclosure, List.flatMap_cons, List.flatMap_nil, List.append_nil,
        List.mem_cons, List.mem_singleton, List.not_mem_nil, or_false] at h1 h2
      rcases h1 with h1 | h1 <;> rcases h2 with h2 | h2
      · obtain ⟨rfl, rfl⟩ : t1 = Ty.vec Ty.str ∧ v1 = PVal.vvec [PVal.vstr [97]] := by
          constructor <;> [exact congrArg Prod.fst h1; exact congrArg Prod.snd h1]
        obtain ⟨rfl, rfl⟩ : t2 = Ty.vec Ty.str ∧ v2 = PVal.vvec [PVal.vstr [97]] := by
          constructor <;> [exact congrArg Prod.fst h2; exact congrArg Prod.snd h2]
        exact ⟨rfl, rfl⟩
      · obtain ⟨rfl, rfl⟩ : t1 = Ty.vec Ty.str ∧ v1 = PVal.vvec [PVal.vstr [97]] := by
          constructor <;> [exact congrArg Prod.fst h1; exact congrArg Prod.snd h1]
        obtain ⟨rfl, rfl⟩ : t2 = Ty.str ∧ v2 = PVal.vstr [97] := by
          constructor <;> [exact congrArg Prod.fst h2; exact congrArg Prod.snd h2]
        exact absurd hh (by decide)
      · obtain ⟨rfl, rfl⟩ : t1 = Ty.str ∧ v1 = PVal.vstr [97] := by
          constructor <;> [exact congrArg Prod.fst h1; exact congrArg Prod.snd h1]
        obtain ⟨rfl, rfl⟩ : t2 = Ty.vec Ty.str ∧ v2 = PVal.vvec [PVal.vstr [97]] := by
          constructor <;> [exact congrArg Prod.fst h2; exact congrArg Prod.snd h2]
        exact absurd hh (by decide)
      · obtain ⟨rfl, rfl⟩ : t1 = Ty.str ∧ v1 = PVal.vstr [97] := by
          constructor <;> [exact congrArg Prod.fst h1; exact congrArg Prod.snd h1]
        obtain ⟨rfl, rfl⟩ : t2 = Ty.str ∧ v2 = PVal.vstr [97] := by
          constructor <;> [exact congrArg Prod.fst h2; exact congrArg Prod.snd h2]
        exact ⟨rfl, rfl⟩)
    (by intro t2 v2 _; left; rfl)
    rfl

/-! ## Claim C7: the flex fallback of receive_hashable -/

/-- The tbd_model internal_receive on the opened byte stream (hashio.rs
    lines 257-279): u32 version with the < 1 check, the type hash with
    the mismatch check, the scalar fields, then the children fetched by
    their tagged hashes. -/
def internalReceiveModel (sts : List ScalarTy) (cts : TyList) (bytes : List Nat)
    (base : List Nat) (fs : FS) : Except HashIOError PVal :=
  let r1 := readU32 bytes
  if r1.1 < 1 then Except.error (HashIOError.versionError r1.1)
  else
    let r2 := readHash r1.2
    if r2.1 ≠ typeHash (Ty.model sts cts) then Except.error (HashIOError.typeError r2.1)
    else
      let r3 := readScalars sts r2.2
      Except.map (fun cvs => PVal.vmodel r3.1 cvs) (getChildren cts r3.2 base fs)

/-- The tbd_model receive_hashable (hashio.rs lines 322-333): when
    internal_receive fails - with any error - the per-type flex function
    runs on the requested hash and the store; its None restores the
    original error, its Some replaces the result. -/
def receiveHashableFlex (sts : List ScalarTy) (cts : TyList)
    (flex : Hash → FS → Option PVal) (bytes : List Nat) (h : Hash)
    (base : List Nat) (fs : FS) : Except HashIOError PVal :=
  match internalReceiveModel sts cts bytes base fs with
  | Except.ok res => Except.ok res
  | Except.error e =>
    match flex h fs with
    | Option.none => Except.error e
    | some res => Except.ok res

/-- C7 (amended): the flex function is consulted exactly when
    internal_receive fails, whatever the error - VersionError, TypeError,
    but also IO and parse errors - and when it returns None the original
    error comes back unchanged; on success the flex function cannot
    influence the result. -/
theorem c7_flex_behavior (sts : List ScalarTy) (cts : TyList)
    (flex : Hash → FS → Option PVal) (bytes : List Nat) (h : Hash)
    (base : List Nat) (fs : FS) :
    (∀ e, internalReceiveModel sts cts bytes base fs = Except.error e →
      receiveHashableFlex sts cts flex bytes h base fs =
        (match flex h fs with
         | Option.none => Except.error e
         | some res => Except.ok res)) ∧
    (∀ v, internalReceiveModel sts cts bytes base fs = Except.ok v →
      receiveHashableFlex sts cts flex bytes h base fs = Except.ok v) := by
  constructor
  · intro e herr
    rw [receiveHashableFlex, herr]
  · intro v hok
    rw [receiveHashableFlex, hok]

/-- The child type list of the C7 example model: one String child. -/
def c7cts : TyList := TyList.cons Ty.str TyList.nil

/-- Bytes of a C7 example object: valid version and type hash, then a
    child hash that resolves to no stored file. -/
def c7bytes : List Nat :=
  writeU32 1 ++ writeHash (typeHash (Ty.model [] c7cts)) ++
    writeHash (Hash.hashBytes [])

/-- C7 counterexample: on these bytes internal_receive fails with an IO
    error (the child is missing from the store), which is neither a
    VersionError nor a TypeError - yet the flex function is still
    invoked, and its Some value replaces the result.  The claim's
    "exactly when ... VersionError or a TypeError" is refuted. -/
theorem c7_counterexample :
    internalReceiveModel [] c7cts c7bytes [116] ⟨[], []⟩ =
        Except.error HashIOError.ioError ∧
      receiveHashableFlex [] c7cts (fun _ _ => some (PVal.vmodel [] []))
          c7bytes Hash.none [116] ⟨[], []⟩ =
        Except.ok (PVal.vmodel [] []) := by
  constructor
  · rfl
  · rfl

/-- C7 witness: with a flex function that always declines, the original
    IO error of the counterexample bytes is returned unchanged. -/
theorem c7_flex_behavior_witness :
    receiveHashableFlex [] c7cts (fun _ _ => Option.none) c7bytes Hash.none
        [116] ⟨[], []⟩ = Except.error HashIOError.ioError :=
  (c7_flex_behavior [] c7cts (fun _ _ => Option.none) c7bytes Hash.none
      [116] ⟨[], []⟩).1 HashIOError.ioError (by rfl)

/-! ## Claim C10: put of an unloaded LazyIO handle -/

/-- hashio.rs HashIO::put instantiated at LazyIO of T for an unloaded
    handle: as_hash returns the stored referent hash, store_childs and
    store_hashable write nothing (lazyio.rs lines 118-132), so put
    creates the temp file, leaves it empty, and renames it over the
    referent's address. -/
def putLazyUnloaded (h : Hash) (base : List Nat) (fs : FS) : Except HashIOError FS :=
  let filename := filenameForHash base h
  if (fsLookup fs filename).isSome then Except.ok fs
  else do
    let fs1 ← fsCreate fs (safeFilename base h) []
    fsRename fs1 (safeFilename base h) filename

/-- C10 (confirmed): put of an unloaded LazyIO handle whose hash has no
    file in the store succeeds and creates a zero-length file at the
    referent's address. -/
theorem c10_lazy_unloaded_put (h : Hash) (base : List Nat) (fs : FS)
    (habs : fsLookup fs (filenameForHash base h) = Option.none)
    (hfc : fs.failCreate = []) :
    ∃ fs2, putLazyUnloaded h base fs = Except.ok fs2 ∧
      fsLookup fs2 (filenameForHash base h) = some [] := by
  refine ⟨fsInsert (fsErase (fsInsert fs (safeFilename base h) []) (safeFilename base h))
    (filenameForHash base h) [], ?_, fsLookup_insert _ _ _⟩
  show (if (fsLookup fs (filenameForHash base h)).isSome then Except.ok fs
    else do
      let fs1 ← fsCreate fs (safeFilename base h) []
      fsRename fs1 (safeFilename base h) (filenameForHash base h)) = _
  rw [habs]
  show (do
      let fs1 ← fsCreate fs (safeFilename base h) []
      fsRename fs1 (safeFilename base h) (filenameForHash base h)) = _
  rw [fsCreate_ok hfc]
  show fsRename (fsInsert fs (safeFilename base h) []) (safeFilename base h)
      (filenameForHash base h) = _
  rw [fsRename, fsLookup_insert]

/-- C10 witness: an unloaded handle on the digest of the empty byte
    string, against the empty store. -/
theorem c10_lazy_unloaded_put_witness :
    ∃ fs2, putLazyUnloaded (Hash.hashBytes []) [116] ⟨[], []⟩ = Except.ok fs2 ∧
      fsLookup fs2 (filenameForHash [116] (Hash.hashBytes [])) = some [] :=
  c10_lazy_unloaded_put (Hash.hashBytes []) [116] ⟨[], []⟩ rfl rfl

/-! ## Claims C3 and C8: the IOLog -/

/-- The bytes of the string literal /head (iolog.rs write_head's
    format!("{}/head", base_path)). -/
def headName : List Nat := [47, 104, 101, 97, 100]

/-- iolog.rs IOLogItem: the parent entry's digest and the logged item. -/
structure LogItem where
  parentHash : Hash
  item : PVal

/-- IOLogItem write_to: the parent hash then the item's tagged hash. -/
def logItemSerialize (t : Ty) (li : LogItem) : List Nat :=
  writeHash li.parentHash ++ writeHash (pvalHash t li.item)

/-- IOLogItem as_hash via writable_to_hash. -/
def logItemHash (t : Ty) (li : LogItem) : Hash :=
  writableToHash (logItemSerialize t li)

/-- hashio.rs put at IOLogItem: store_childs puts the item, then the
    entry's serialization goes to the temp file which is renamed. -/
def putLogItem (t : Ty) (li : LogItem) (base : List Nat) (fs : FS) :
    Except HashIOError FS :=
  let h := logItemHash t li
  let filename := filenameForHash base h
  if (fsLookup fs filename).isSome then Except.ok fs
  else do
    let fs1 ← putVal t li.item base fs
    let fs2 ← fsCreate fs1 (safeFilename base h) (logItemSerialize t li)
    fsRename fs2 (safeFilename base h) filename

/-- iolog.rs IOLog::write_head: nothing when the head is empty, else
    File::create of base/head and the head entry's hash. -/
def writeHead (t : Ty) (st : Option LogItem) (base : List Nat) (fs : FS) :
    Except HashIOError FS :=
  match st with
  | Option.none => Except.ok fs
  | some li => fsCreate fs (base ++ headName) (writeHash (logItemHash t li))

/-- The parent hash a push records: Hash::None on the empty log, else
    the current head entry's digest. -/
def logParent (t : Ty) (st : Option LogItem) : Hash :=
  match st with
  | Option.none => Hash.none
  | some parent => logItemHash t parent

/-- iolog.rs IOLog::push on the in-memory head st and the store fs:
    build the entry, put it (an error returns the Hash::None sentinel
    with the head unchanged; the partial files such a failed put leaves
    behind are not modelled), advance the in-memory head, write the head
    file (an error returns the sentinel - the head file write fails
    before any byte lands, so the store stays exactly as after the put),
    and return the entry's digest. -/
def logPush (t : Ty) (v : PVal) (st : Option LogItem) (base : List Nat) (fs : FS) :
    Option LogItem × FS × Hash :=
  match putLogItem t ⟨logParent t st, v⟩ base fs with
  | Except.error _ => (st, fs, Hash.none)
  | Except.ok fs2 =>
    match writeHead t (some ⟨logParent t st, v⟩) base fs2 with
    | Except.error _ => (some ⟨logParent t st, v⟩, fs2, Hash.none)
    | Except.ok fs3 => (some ⟨logParent t st, v⟩, fs3, logItemHash t ⟨logParent t st, v⟩)

/-- iolog.rs IOLog::head_hash. -/
def logHeadHash (t : Ty) (st : Option LogItem) : Option Hash :=
  match st with
  | Option.none => Option.none
  | some li => some (logItemHash t li)

lemma logItemHash_sha3 (t : Ty) (li : LogItem) :
    logItemHash t li = Hash.sha3 (sha3Bytes (logItemSerialize t li)) := rfl

/-- Evaluation of a fresh String put. -/
lemma putStr_eval (b base : List Nat) (fs : FS)
    (hlook : fsLookup fs (filenameForHash base (pvalHash Ty.str (PVal.vstr b))) =
      Option.none)
    (hsafe : safeFilename base (pvalHash Ty.str (PVal.vstr b)) ∉ fs.failCreate) :
    putVal Ty.str (PVal.vstr b) base fs = Except.ok
      (fsInsert (fsErase (fsInsert fs (safeFilename base (pvalHash Ty.str (PVal.vstr b)))
        (serializeStr b)) (safeFilename base (pvalHash Ty.str (PVal.vstr b))))
        (filenameForHash base (pvalHash Ty.str (PVal.vstr b))) (serializeStr b)) := by
  show (if (fsLookup fs (filenameForHash base (pvalHash Ty.str (PVal.vstr b)))).isSome then
      Except.ok fs
    else do
      let fs1 ← fsCreate fs (safeFilename base (pvalHash Ty.str (PVal.vstr b)))
        (serializeStr b)
      fsRename fs1 (safeFilename base (pvalHash Ty.str (PVal.vstr b)))
        (filenameForHash base (pvalHash Ty.str (PVal.vstr b)))) = _
  rw [hlook]
  show (do
      let fs1 ← fsCreate fs (safeFilename base (pvalHash Ty.str (PVal.vstr b)))
        (serializeStr b)
      fsRename fs1 (safeFilename base (pvalHash Ty.str (PVal.vstr b)))
        (filenameForHash base (pvalHash Ty.str (PVal.vstr b)))) = _
  rw [fsCreate, if_neg hsafe]
  show fsRename (fsInsert fs (safeFilename base (pvalHash Ty.str (PVal.vstr b)))
      (serializeStr b)) (safeFilename base (pvalHash Ty.str (PVal.vstr b)))
      (filenameForHash base (pvalHash Ty.str (PVal.vstr b))) = _
  rw [fsRename, fsLookup_insert]

/-- Evaluation of a fresh entry put once the item's put is known. -/
lemma putLogItem_fresh (t : Ty) (li : LogItem) (base : List Nat) (fs fsB : FS)
    (hlook : fsLookup fs (filenameForHash base (logItemHash t li)) = Option.none)
    (hputv : putVal t li.item base fs = Except.ok fsB)
    (hsafe : safeFilename base (logItemHash t li) ∉ fsB.failCreate) :
    putLogItem t li base fs = Except.ok
      (fsInsert (fsErase (fsInsert fsB (safeFilename base (logItemHash t li))
        (logItemSerialize t li)) (safeFilename base (logItemHash t li)))
        (filenameForHash base (logItemHash t li)) (logItemSerialize t li)) := by
  show (if (fsLookup fs (filenameForHash base (logItemHash t li))).isSome then
      Except.ok fs
    else do
      let fs1 ← putVal t li.item base fs
      let fs2 ← fsCreate fs1 (safeFilename base (logItemHash t li)) (logItemSerialize t li)
      fsRename fs2 (safeFilename base (logItemHash t li))
        (filenameForHash base (logItemHash t li))) = _
  rw [hlook]
  show (do
      let fs1 ← putVal t li.item base fs
      let fs2 ← fsCreate fs1 (safeFilename base (logItemHash t li)) (logItemSerialize t li)
      fsRename fs2 (safeFilename base (logItemHash t li))
        (filenameForHash base (logItemHash t li))) = _
  rw [hputv]
  show (do
      let fs2 ← fsCreate fsB (safeFilename base (logItemHash t li)) (logItemSerialize t li)
      fsRename fs2 (safeFilename base (logItemHash t li))
        (filenameForHash base (logItemHash t li))) = _
  rw [fsCreate, if_neg hsafe]
  show fsRename (fsInsert fsB (safeFilename base (logItemHash t li))
      (logItemSerialize t li)) (safeFilename base (logItemHash t li))
      (filenameForHash base (logItemHash t li)) = _
  rw [fsRename, fsLookup_insert]

/-- A temp sibling path is never the head file: their lengths differ. -/
lemma safe_ne_head (base : List Nat) (b : List Nat) (hb : b.length = 32) :
    safeFilename base (Hash.sha3 b) ≠ base ++ headName := by
  intro h
  have h1 := safeFilename_length hb base
  rw [h] at h1
  simp only [List.length_append, headName, List.length_cons, List.length_nil] at h1
  omega

/-- C3 (amended): when the entry and its item are stored but rewriting
    the head pointer file fails, push still returns the Hash::None
    sentinel - but the on-disk state is NOT the state from before the
    push: it is the state fs2 left by the successful object puts (entry
    and item files persist), and the in-memory head has advanced. -/
theorem c3_push_failure (t : Ty) (v : PVal) (st : Option LogItem) (base : List Nat)
    (fs fs2 : FS)
    (hput : putLogItem t (LogItem.mk (logParent t st) v) base fs = Except.ok fs2)
    (hhead : base ++ headName ∈ fs2.failCreate) :
    logPush t v st base fs = (some (LogItem.mk (logParent t st) v), fs2, Hash.none) := by
  show (match putLogItem t (LogItem.mk (logParent t st) v) base fs with
    | Except.error _ => (st, fs, Hash.none)
    | Except.ok fsB =>
      match writeHead t (some (LogItem.mk (logParent t st) v)) base fsB with
      | Except.error _ => (some (LogItem.mk (logParent t st) v), fsB, Hash.none)
      | Except.ok fs3 =>
        (some (LogItem.mk (logParent t st) v), fs3, logItemHash t (LogItem.mk (logParent t st) v))) = _
  rw [hput]
  show (match writeHead t (some (LogItem.mk (logParent t st) v)) base fs2 with
    | Except.error _ => (some (LogItem.mk (logParent t st) v), fs2, Hash.none)
    | Except.ok fs3 =>
      (some (LogItem.mk (logParent t st) v), fs3, logItemHash t (LogItem.mk (logParent t st) v))) = _
  show (match fsCreate fs2 (base ++ headName)
      (writeHash (logItemHash t (LogItem.mk (logParent t st) v))) with
    | Except.error _ => (some (LogItem.mk (logParent t st) v), fs2, Hash.none)
    | Except.ok fs3 =>
      (some (LogItem.mk (logParent t st) v), fs3, logItemHash t (LogItem.mk (logParent t st) v))) = _
  rw [fsCreate, if_pos hhead]

/-- An insert leaves at least one file. -/
lemma filesInsert_ne_nil (l : List (List Nat × List Nat)) (p c : List Nat) :
    fsFilesInsert l p c ≠ [] := by
  cases l with
  | nil => simp [fsFilesInsert]
  | cons e r =>
    show (if e.1 = p then (p, c) :: r else e :: fsFilesInsert r p c) ≠ []
    split <;> simp

/-- The store of the C3 scenario: no files, and File::create fails at
    tmp-base/head (the byte list t/head). -/
def c3fs0 : FS := ⟨[], [[116, 47, 104, 101, 97, 100]]⟩

/-- The first pushed entry of the scenarios: genesis parent, item "a". -/
def itemA : LogItem := ⟨Hash.none, PVal.vstr [97]⟩

/-- The store after a fresh String put. -/
def fsAfterStr (base b : List Nat) (fs : FS) : FS :=
  fsInsert (fsErase (fsInsert fs (safeFilename base (pvalHash Ty.str (PVal.vstr b)))
    (serializeStr b)) (safeFilename base (pvalHash Ty.str (PVal.vstr b))))
    (filenameForHash base (pvalHash Ty.str (PVal.vstr b))) (serializeStr b)

/-- The store after a fresh entry put. -/
def fsAfterEntry (t : Ty) (li : LogItem) (base : List Nat) (fs : FS) : FS :=
  fsInsert (fsErase (fsInsert fs (safeFilename base (logItemHash t li))
    (logItemSerialize t li)) (safeFilename base (logItemHash t li)))
    (filenameForHash base (logItemHash t li)) (logItemSerialize t li)

lemma c3_hsafe_str : safeFilename [116] (pvalHash Ty.str (PVal.vstr [97])) ∉
    c3fs0.failCreate := by
  intro hmem
  have hmem2 : safeFilename [116] (pvalHash Ty.str (PVal.vstr [97])) =
      [116, 47, 104, 101, 97, 100] := List.mem_singleton.mp hmem
  exact safe_ne_head [116] (sha3Bytes (serialize Ty.str (PVal.vstr [97])))
    (sha3Bytes_length _) hmem2

lemma c3_hsafe_entry : safeFilename [116] (logItemHash Ty.str itemA) ∉
    (fsAfterStr [116] [97] c3fs0).failCreate := by
  intro hmem
  have hmem2 : safeFilename [116] (logItemHash Ty.str itemA) =
      [116, 47, 104, 101, 97, 100] := List.mem_singleton.mp hmem
  exact safe_ne_head [116] (sha3Bytes (logItemSerialize Ty.str itemA))
    (sha3Bytes_length _) hmem2

lemma c3_put_eval : putLogItem Ty.str itemA [116] c3fs0 =
    Except.ok (fsAfterEntry Ty.str itemA [116] (fsAfterStr [116] [97] c3fs0)) :=
  putLogItem_fresh Ty.str itemA [116] c3fs0 (fsAfterStr [116] [97] c3fs0) rfl
    (putStr_eval [97] [116] c3fs0 rfl c3_hsafe_str) c3_hsafe_entry

lemma c3_push_eval : logPush Ty.str (PVal.vstr [97]) Option.none [116] c3fs0 =
    (some itemA, fsAfterEntry Ty.str itemA [116] (fsAfterStr [116] [97] c3fs0),
      Hash.none) := by
  show (match putLogItem Ty.str itemA [116] c3fs0 with
    | Except.error _ => (Option.none, c3fs0, Hash.none)
    | Except.ok fsB =>
      match writeHead Ty.str (some itemA) [116] fsB with
      | Except.error _ => (some itemA, fsB, Hash.none)
      | Except.ok fs3 => (some itemA, fs3, logItemHash Ty.str itemA)) = _
  rw [c3_put_eval]
  show (match writeHead Ty.str (some itemA) [116]
      (fsAfterEntry Ty.str itemA [116] (fsAfterStr [116] [97] c3fs0)) with
    | Except.error _ =>
      (some itemA, fsAfterEntry Ty.str itemA [116] (fsAfterStr [116] [97] c3fs0), Hash.none)
    | Except.ok fs3 => (some itemA, fs3, logItemHash Ty.str itemA)) = _
  show (match fsCreate (fsAfterEntry Ty.str itemA [116] (fsAfterStr [116] [97] c3fs0))
      ([116] ++ headName) (writeHash (logItemHash Ty.str itemA)) with
    | Except.error _ =>
      (some itemA, fsAfterEntry Ty.str itemA [116] (fsAfterStr [116] [97] c3fs0), Hash.none)
    | Except.ok fs3 => (some itemA, fs3, logItemHash Ty.str itemA)) = _
  rw [fsCreate, if_pos (show [116] ++ headName ∈
    (fsAfterEntry Ty.str itemA [116] (fsAfterStr [116] [97] c3fs0)).failCreate from
    List.mem_singleton.mpr rfl)]

/-- C3 counterexample: pushing "a" on the empty log over an empty store
    whose head file cannot be created returns the Hash::None sentinel,
    yet the store is no longer empty - the entry and item files were
    created and persist - and the in-memory head has advanced.  This
    refutes "the on-disk state is the same as before the push". -/
theorem c3_counterexample :
    logPush Ty.str (PVal.vstr [97]) Option.none [116] c3fs0 =
        (some itemA, fsAfterEntry Ty.str itemA [116] (fsAfterStr [116] [97] c3fs0),
          Hash.none) ∧
      c3fs0.files = [] ∧
      (fsAfterEntry Ty.str itemA [116] (fsAfterStr [116] [97] c3fs0)).files ≠ [] := by
  refine ⟨c3_push_eval, rfl, ?_⟩
  show fsFilesInsert _ _ _ ≠ []
  exact filesInsert_ne_nil _ _ _

/-- C3 witness: the amended failure theorem at the concrete scenario. -/
theorem c3_push_failure_witness :
    logPush Ty.str (PVal.vstr [97]) Option.none [116] c3fs0 =
      (some (LogItem.mk (logParent Ty.str Option.none) (PVal.vstr [97])),
        fsAfterEntry Ty.str itemA [116] (fsAfterStr [116] [97] c3fs0), Hash.none) :=
  c3_push_failure Ty.str (PVal.vstr [97]) Option.none [116] c3fs0
    (fsAfterEntry Ty.str itemA [116] (fsAfterStr [116] [97] c3fs0))
    c3_put_eval (by exact List.mem_singleton.mpr rfl)

/-- C8 (confirmed): a push that returns a non-None hash h leaves the log
    with head_hash() = Some h, and the head entry's item is the pushed
    value while its parent_hash is the previous head's digest (Hash::None
    when the log was empty). -/
theorem c8_push_head (t : Ty) (v : PVal) (st st2 : Option LogItem) (base : List Nat)
    (fs fs2 : FS) (h : Hash)
    (hpush : logPush t v st base fs = (st2, fs2, h))
    (hok : h ≠ Hash.none) :
    logHeadHash t st2 = some h ∧
      ∃ li, st2 = some li ∧ li.item = v ∧ li.parentHash = logParent t st := by
  simp only [logPush] at hpush
  cases hres : putLogItem t (LogItem.mk (logParent t st) v) base fs with
  | error e =>
    simp only [hres] at hpush
    simp only [Prod.mk.injEq] at hpush
    exact absurd hpush.2.2.symm hok
  | ok fsB =>
    simp only [hres] at hpush
    cases hw : writeHead t (some (LogItem.mk (logParent t st) v)) base fsB with
    | error e =>
      simp only [hw] at hpush
      simp only [Prod.mk.injEq] at hpush
      exact absurd hpush.2.2.symm hok
    | ok fs3 =>
      simp only [hw] at hpush
      simp only [Prod.mk.injEq] at hpush
      obtain ⟨h1, h2, h3⟩ := hpush
      subst h1
      subst h3
      exact ⟨rfl, LogItem.mk (logParent t st) v, rfl, rfl, rfl⟩

/-- The store of the successful C8 scenario: empty, no injected
    failures. -/
def c8fs0 : FS := ⟨[], []⟩

/-- The store after the successful push: objects plus the head file. -/
def c8head : FS :=
  fsInsert (fsAfterEntry Ty.str itemA [116] (fsAfterStr [116] [97] c8fs0))
    ([116] ++ headName) (writeHash (logItemHash Ty.str itemA))

lemma c8_put_eval : putLogItem Ty.str itemA [116] c8fs0 =
    Except.ok (fsAfterEntry Ty.str itemA [116] (fsAfterStr [116] [97] c8fs0)) :=
  putLogItem_fresh Ty.str itemA [116] c8fs0 (fsAfterStr [116] [97] c8fs0) rfl
    (putStr_eval [97] [116] c8fs0 rfl (fun hmem => List.not_mem_nil _ hmem))
    (fun hmem => List.not_mem_nil _ hmem)

lemma c8_push_eval : logPush Ty.str (PVal.vstr [97]) Option.none [116] c8fs0 =
    (some itemA, c8head, logItemHash Ty.str itemA) := by
  show (match putLogItem Ty.str itemA [116] c8fs0 with
    | Except.error _ => (Option.none, c8fs0, Hash.none)
    | Except.ok fsB =>
      match writeHead Ty.str (some itemA) [116] fsB with
      | Except.error _ => (some itemA, fsB, Hash.none)
      | Except.ok fs3 => (some itemA, fs3, logItemHash Ty.str itemA)) = _
  rw [c8_put_eval]
  show (match writeHead Ty.str (some itemA) [116]
      (fsAfterEntry Ty.str itemA [116] (fsAfterStr [116] [97] c8fs0)) with
    | Except.error _ =>
      (some itemA, fsAfterEntry Ty.str itemA [116] (fsAfterStr [116] [97] c8fs0), Hash.none)
    | Except.ok fs3 => (some itemA, fs3, logItemHash Ty.str itemA)) = _
  show (match fsCreate (fsAfterEntry Ty.str itemA [116] (fsAfterStr [116] [97] c8fs0))
      ([116] ++ headName) (writeHash (logItemHash Ty.str itemA)) with
    | Except.error _ =>
      (some itemA, fsAfterEntry Ty.str itemA [116] (fsAfterStr [116] [97] c8fs0), Hash.none)
    | Except.ok fs3 => (some itemA, fs3, logItemHash Ty.str itemA)) = _
  rw [fsCreate_ok rfl]
  rfl

/-- C8 witness: the successful push of "a" on the empty log and store. -/
theorem c8_push_head_witness :
    logHeadHash Ty.str (some itemA) = some (logItemHash Ty.str itemA) ∧
      ∃ li, (some itemA : Option LogItem) = some li ∧ li.item = PVal.vstr [97] ∧
        li.parentHash = logParent Ty.str Option.none :=
  c8_push_head Ty.str (PVal.vstr [97]) Option.none (some itemA) [116] c8fs0 c8head
    (logItemHash Ty.str itemA) c8_push_eval
    (by rw [logItemHash_sha3]; simp)

/-! ## Claim C5: DefaultLog and verify_log -/

/-- log.rs DefaultLogEntry: the item and its parent key. -/
structure LogEntry (α : Type) where
  entry : α
  parentHash : Option Hash

/-- log.rs DefaultLog with the no-op load and save defaults: the entry
    map (a BTreeMap keyed by entry hashes; push, get and verify_log
    never use its iteration order, so an association list with
    replace-on-equal-key insert models it) and the head key. -/
structure DLog (α : Type) where
  entries : List (Hash × LogEntry α)
  head : Option Hash

/-- BTreeMap::get on the entry map. -/
def dlogFind {α : Type} (es : List (Hash × LogEntry α)) (h : Hash) :
    Option (LogEntry α) :=
  (es.find? fun e => e.1 = h).map Prod.snd

/-- BTreeMap::insert on the entry map. -/
def dlogInsert {α : Type} : List (Hash × LogEntry α) → Hash → LogEntry α →
    List (Hash × LogEntry α)
  | [], h, e => [(h, e)]
  | x :: r, h, e => if x.1 = h then (h, e) :: r else x :: dlogInsert r h e

/-- The key DefaultLog::push computes for an item, which is also the
    hash verify_log recomputes per entry: the item's digest re-hashed at
    genesis, or combined with the parent key (log.rs lines 433-446 and
    686-693). -/
def keyExpected {α : Type} (ah : α → Hash) (t : α) : Option Hash → Hash
  | Option.none => (ah t).asHash
  | some p => (ah t).hashWith p

/-- log.rs DefaultLog::push: insert the entry under its chained key and
    advance the head. -/
def dlogPush {α : Type} (ah : α → Hash) (log : DLog α) (t : α) : DLog α × Hash :=
  (⟨dlogInsert log.entries (keyExpected ah t log.head) ⟨t, log.head⟩,
    some (keyExpected ah t log.head)⟩, keyExpected ah t log.head)

/-- A sequence of pushes. -/
def dlogPushAll {α : Type} (ah : α → Hash) : DLog α → List α → DLog α
  | log, [] => log
  | log, t :: ts => dlogPushAll ah (dlogPush ah log t).1 ts

/-- The keys a sequence of pushes generates, from a given head. -/
def pushKeysFrom {α : Type} (ah : α → Hash) : Option Hash → List α → List Hash
  | _, [] => []
  | prev, t :: ts =>
    keyExpected ah t prev :: pushKeysFrom ah (some (keyExpected ah t prev)) ts

/-- log.rs LogVerifyFailure: the entry, its stored (actual) key and the
    recomputed (expected) hash, or a wrapped LogError (EntryNotFound's
    hash). -/
inductive VerifyFailure (α : Type) where
  | hashFailure : α → Hash → Hash → VerifyFailure α
  | logError : Hash → VerifyFailure α

/-- One iteration of the verify_log loop at key h: a missing entry is
    the LogError case (log.get and log.parent_hash consult the same map,
    and the get failure returns first), otherwise the recomputed hash is
    compared against the stored key. -/
def verifyStep {α : Type} (ah : α → Hash) (es : List (Hash × LogEntry α))
    (h : Hash) : Option (VerifyFailure α) :=
  match dlogFind es h with
  | Option.none => some (VerifyFailure.logError h)
  | some e =>
    if h ≠ keyExpected ah e.entry e.parentHash then
      some (VerifyFailure.hashFailure e.entry h (keyExpected ah e.entry e.parentHash))
    else Option.none

/-- The verify_log loop body over the reversed hash list: the first
    failure returns. -/
def firstFailure {α : Type} (ah : α → Hash) (es : List (Hash × LogEntry α)) :
    List Hash → Option (VerifyFailure α)
  | [] => Option.none
  | h :: r =>
    match verifyStep ah es h with
    | some f => some f
    | Option.none => firstFailure ah es r

/-- LogIteratorHash::from_log(log).collect() with explicit fuel (the
    Rust iterator is unbounded; every run examined here terminates and
    any sufficient fuel yields its value): the head-first key walk,
    stepping to parent_hash(hash).unwrap_or(None). -/
def hashChain {α : Type} (es : List (Hash × LogEntry α)) : Nat → Option Hash → List Hash
  | 0, _ => []
  | _ + 1, Option.none => []
  | n + 1, some h =>
    h :: hashChain es n
      (match dlogFind es h with
       | Option.none => Option.none
       | some e => e.parentHash)

/-- log.rs verify_log: collect the keys head-first, then walk them in
    reverse (genesis-first), recomputing each entry's hash. -/
def verifyLog {α : Type} (ah : α → Hash) (log : DLog α) (fuel : Nat) :
    Option (VerifyFailure α) :=
  firstFailure ah log.entries (hashChain log.entries fuel log.head).reverse

/-- The chain invariant of a pushes-only log: from the given start the
    listed keys are stored, each equal to its recomputation, down to the
    genesis parent None. -/
def chainFrom {α : Type} (ah : α → Hash) (es : List (Hash × LogEntry α)) :
    Option Hash → List Hash → Prop
  | Option.none, [] => True
  | some _, [] => False
  | Option.none, _ :: _ => False
  | some h, k :: ks => k = h ∧
      ∃ e, dlogFind es h = some e ∧ keyExpected ah e.entry e.parentHash = h ∧
        chainFrom ah es e.parentHash ks

lemma dlogFind_insert_self {α : Type} (es : List (Hash × LogEntry α)) (h : Hash)
    (e : LogEntry α) : dlogFind (dlogInsert es h e) h = some e := by
  induction es with
  | nil => simp [dlogInsert, dlogFind]
  | cons x r ih =>
    by_cases hx : x.1 = h
    · simp [dlogInsert, dlogFind, hx]
    · show dlogFind (if x.1 = h then (h, e) :: r else x :: dlogInsert r h e) h = some e
      rw [if_neg hx]
      show (List.find? _ (x :: dlogInsert r h e)).map Prod.snd = some e
      rw [List.find?_cons_of_neg _ (by simpa using hx)]
      exact ih

lemma dlogFind_insert_ne {α : Type} (es : List (Hash × LogEntry α)) {h h2 : Hash}
    (hne : h2 ≠ h) (e : LogEntry α) :
    dlogFind (dlogInsert es h e) h2 = dlogFind es h2 := by
  induction es with
  | nil =>
    show (List.find? _ [(h, e)]).map Prod.snd = _
    rw [List.find?_cons_of_neg _ (by simpa using fun hh => hne hh.symm)]
    rfl
  | cons x r ih =>
    by_cases hx : x.1 = h
    · show dlogFind (if x.1 = h then (h, e) :: r else x :: dlogInsert r h e) h2 = _
      rw [if_pos hx]
      show (List.find? _ ((h, e) :: r)).map Prod.snd = _
      rw [List.find?_cons_of_neg _ (by simpa using fun hh => hne hh.symm)]
      show dlogFind r h2 = dlogFind (x :: r) h2
      by_cases hx2 : x.1 = h2
      · exact absurd (hx2.symm.trans hx) hne
      · show (List.find? _ r).map Prod.snd = (List.find? _ (x :: r)).map Prod.snd
        rw [List.find?_cons_of_neg _ (by simpa using hx2)]
    · show dlogFind (if x.1 = h then (h, e) :: r else x :: dlogInsert r h e) h2 = _
      rw [if_neg hx]
      by_cases hx2 : x.1 = h2
      · show (List.find? _ (x :: dlogInsert r h e)).map Prod.snd =
          (List.find? _ (x :: r)).map Prod.snd
        rw [List.find?_cons_of_pos _ (by simpa using hx2),
          List.find?_cons_of_pos _ (by simpa using hx2)]
      · show (List.find? _ (x :: dlogInsert r h e)).map Prod.snd =
          (List.find? _ (x :: r)).map Prod.snd
        rw [List.find?_cons_of_neg _ (by simpa using hx2),
          List.find?_cons_of_neg _ (by simpa using hx2)]
        exact ih

lemma chainFrom_insert_fresh {α : Type} (ah : α → Hash) (es : List (Hash × LogEntry α))
    (knew : Hash) (enew : LogEntry α) :
    ∀ (ks : List Hash) (ho : Option Hash), chainFrom ah es ho ks → knew ∉ ks →
      chainFrom ah (dlogInsert es knew enew) ho ks := by
  intro ks
  induction ks with
  | nil =>
    intro ho hch _
    cases ho with
    | none => trivial
    | some h => exact hch.elim
  | cons k ks ih =>
    intro ho hch hfresh
    cases ho with
    | none => exact hch.elim
    | some h =>
      obtain ⟨hk, e, hfind, hexp, hrest⟩ := hch
      have hne : h ≠ knew := fun hh =>
        hfresh (by rw [← hh, ← hk]; exact List.mem_cons_self k ks)
      refine ⟨hk, e, ?_, hexp,
        ih e.parentHash hrest (fun hm => hfresh (List.mem_cons.mpr (Or.inr hm)))⟩
      rw [dlogFind_insert_ne es hne enew]
      exact hfind

lemma pushAll_chain {α : Type} (ah : α → Hash) :
    ∀ (ts : List α) (log : DLog α) (ks : List Hash),
      chainFrom ah log.entries log.head ks →
      (∀ x ∈ pushKeysFrom ah log.head ts, x ∉ ks) →
      (pushKeysFrom ah log.head ts).Nodup →
      chainFrom ah (dlogPushAll ah log ts).entries (dlogPushAll ah log ts).head
        ((pushKeysFrom ah log.head ts).reverse ++ ks) := by
  intro ts
  induction ts with
  | nil =>
    intro log ks hch _ _
    simpa [pushKeysFrom, dlogPushAll] using hch
  | cons t ts ih =>
    intro log ks hch hfresh hnd
    simp only [pushKeysFrom, List.nodup_cons] at hnd
    have hkfresh : keyExpected ah t log.head ∉ ks :=
      hfresh _ (by simp [pushKeysFrom])
    have hch2 : chainFrom ah (dlogPush ah log t).1.entries (dlogPush ah log t).1.head
        (keyExpected ah t log.head :: ks) := by
      refine ⟨rfl, ⟨t, log.head⟩, dlogFind_insert_self _ _ _, rfl, ?_⟩
      exact chainFrom_insert_fresh ah log.entries _ _ ks log.head hch hkfresh
    have hfr : ∀ x ∈ pushKeysFrom ah (some (keyExpected ah t log.head)) ts,
        x ∉ keyExpected ah t log.head :: ks := by
      intro x hx hmem
      rcases List.mem_cons.mp hmem with h1 | hmem2
      · rw [h1] at hx
        exact hnd.1 hx
      · exact hfresh x (List.mem_cons.mpr (Or.inr hx)) hmem2
    have hmain := ih (dlogPush ah log t).1 (keyExpected ah t log.head :: ks) hch2 hfr hnd.2
    show chainFrom ah (dlogPushAll ah (dlogPush ah log t).1 ts).entries
      (dlogPushAll ah (dlogPush ah log t).1 ts).head
      ((keyExpected ah t log.head ::
        pushKeysFrom ah (some (keyExpected ah t log.head)) ts).reverse ++ ks)
    rw [List.reverse_cons, List.append_assoc, List.singleton_append]
    exact hmain

lemma chain_walk {α : Type} (ah : α → Hash) (es : List (Hash × LogEntry α)) :
    ∀ (ks : List Hash) (ho : Option Hash), chainFrom ah es ho ks →
      ∀ fuel, ks.length ≤ fuel → hashChain es fuel ho = ks := by
  intro ks
  induction ks with
  | nil =>
    intro ho hch fuel _
    cases ho with
    | none => cases fuel <;> rfl
    | some h => exact hch.elim
  | cons k ks ih =>
    intro ho hch fuel hfuel
    cases ho with
    | none => exact hch.elim
    | some h =>
      obtain ⟨hk, e, hfind, _, hrest⟩ := hch
      cases fuel with
      | zero => simp at hfuel
      | succ n =>
        show h :: hashChain es n (match dlogFind es h with
          | Option.none => Option.none
          | some e => e.parentHash) = k :: ks
        rw [hfind]
        show h :: hashChain es n e.parentHash = k :: ks
        rw [ih e.parentHash hrest n (Nat.le_of_succ_le_succ hfuel), hk]

lemma chain_steps {α : Type} (ah : α → Hash) (es : List (Hash × LogEntry α)) :
    ∀ (ks : List Hash) (ho : Option Hash), chainFrom ah es ho ks →
      ∀ k ∈ ks, verifyStep ah es k = Option.none := by
  intro ks
  induction ks with
  | nil =>
    intro ho _ k hk
    exact absurd hk (List.not_mem_nil k)
  | cons k1 ks ih =>
    intro ho hch k hk
    cases ho with
    | none => exact hch.elim
    | some h =>
      obtain ⟨hk1, e, hfind, hexp, hrest⟩ := hch
      rcases List.mem_cons.mp hk with rfl | hk2
      · subst hk1
        show (match dlogFind es k with
          | Option.none => some (VerifyFailure.logError k)
          | some e => if k ≠ keyExpected ah e.entry e.parentHash then
              some (VerifyFailure.hashFailure e.entry k (keyExpected ah e.entry e.parentHash))
            else Option.none) = Option.none
        rw [hfind]
        show (if k ≠ keyExpected ah e.entry e.parentHash then
            some (VerifyFailure.hashFailure e.entry k (keyExpected ah e.entry e.parentHash))
          else Option.none) = Option.none
        rw [hexp]
        simp
      · exact ih e.parentHash hrest k hk2

lemma firstFailure_none {α : Type} (ah : α → Hash) (es : List (Hash × LogEntry α)) :
    ∀ L : List Hash, (∀ k ∈ L, verifyStep ah es k = Option.none) →
      firstFailure ah es L = Option.none := by
  intro L
  induction L with
  | nil => intro _; rfl
  | cons k r ih =>
    intro hall
    show (match verifyStep ah es k with
      | some f => some f
      | Option.none => firstFailure ah es r) = Option.none
    rw [hall k (by simp)]
    exact ih (fun x hx => hall x (by simp [hx]))

lemma firstFailure_break {α : Type} (ah : α → Hash) (es : List (Hash × LogEntry α))
    (k : Hash) (f : VerifyFailure α) (L2 : List Hash)
    (hk : verifyStep ah es k = some f) :
    ∀ L1 : List Hash, (∀ x ∈ L1, verifyStep ah es x = Option.none) →
      firstFailure ah es (L1 ++ k :: L2) = some f := by
  intro L1
  induction L1 with
  | nil =>
    intro _
    show (match verifyStep ah es k with
      | some f => some f
      | Option.none => firstFailure ah es L2) = some f
    rw [hk]
  | cons x r ih =>
    intro hall
    show (match verifyStep ah es x with
      | some f => some f
      | Option.none => firstFailure ah es (r ++ k :: L2)) = some f
    rw [hall x (by simp)]
    exact ih (fun y hy => hall y (by simp [hy]))

lemma pushKeysFrom_length {α : Type} (ah : α → Hash) :
    ∀ (ts : List α) (prev : Option Hash),
      (pushKeysFrom ah prev ts).length = ts.length := by
  intro ts
  induction ts with
  | nil => intro prev; rfl
  | cons t ts ih =>
    intro prev
    show (pushKeysFrom ah (some (keyExpected ah t prev)) ts).length + 1 = ts.length + 1
    rw [ih]

lemma hashChain_congr {α : Type} (es2 es : List (Hash × LogEntry α))
    (hsame : ∀ h, Option.map LogEntry.parentHash (dlogFind es2 h) =
      Option.map LogEntry.parentHash (dlogFind es h)) :
    ∀ (fuel : Nat) (ho : Option Hash), hashChain es2 fuel ho = hashChain es fuel ho := by
  intro fuel
  induction fuel with
  | zero => intro ho; rfl
  | succ n ih =>
    intro ho
    cases ho with
    | none => rfl
    | some h =>
      have harg : (match dlogFind es2 h with
          | Option.none => Option.none
          | some e => e.parentHash) =
        (match dlogFind es h with
          | Option.none => Option.none
          | some e => e.parentHash) := by
        have hh := hsame h
        cases h2 : dlogFind es2 h with
        | none =>
          cases h3 : dlogFind es h with
          | none => rfl
          | some e3 =>
            rw [h2, h3] at hh
            simp at hh
        | some e2 =>
          cases h3 : dlogFind es h with
          | none =>
            rw [h2, h3] at hh
            simp at hh
          | some e3 =>
            rw [h2, h3] at hh
            simp at hh
            exact hh
      show h :: hashChain es2 n (match dlogFind es2 h with
          | Option.none => Option.none
          | some e => e.parentHash) =
        h :: hashChain es n (match dlogFind es h with
          | Option.none => Option.none
          | some e => e.parentHash)
      rw [harg, ih]

lemma verifyStep_insert_ne {α : Type} (ah : α → Hash) (es : List (Hash × LogEntry α))
    {k x : Hash} (hx : x ≠ k) (e2 : LogEntry α) :
    verifyStep ah (dlogInsert es k e2) x = verifyStep ah es x := by
  show (match dlogFind (dlogInsert es k e2) x with
    | Option.none => some (VerifyFailure.logError x)
    | some e => if x ≠ keyExpected ah e.entry e.parentHash then
        some (VerifyFailure.hashFailure e.entry x (keyExpected ah e.entry e.parentHash))
      else Option.none) = verifyStep ah es x
  rw [dlogFind_insert_ne es hx e2]
  rfl

/-- C5 (confirmed): a log built only by pushes (with pairwise distinct
    entry keys, the collision-freedom the chaining relies on) verifies
    with no failure; and when the stored entry at any key k is mutated -
    its value replaced, its parent pointer kept - so that its recomputed
    hash no longer matches, verify_log reports a LogHashFailure at
    exactly that entry, the first broken link of the genesis-first walk,
    carrying the stored key as actual and the recomputation as
    expected. -/
theorem c5_verify_log {α : Type} (ah : α → Hash) (ts : List α) (fuel : Nat)
    (hnd : (pushKeysFrom ah Option.none ts).Nodup)
    (hfuel : ts.length ≤ fuel) :
    verifyLog ah (dlogPushAll ah ⟨[], Option.none⟩ ts) fuel = Option.none ∧
    (∀ k e t2, k ∈ pushKeysFrom ah Option.none ts →
      dlogFind (dlogPushAll ah ⟨[], Option.none⟩ ts).entries k = some e →
      keyExpected ah t2 e.parentHash ≠ k →
      verifyLog ah ⟨dlogInsert (dlogPushAll ah ⟨[], Option.none⟩ ts).entries k
          ⟨t2, e.parentHash⟩, (dlogPushAll ah ⟨[], Option.none⟩ ts).head⟩ fuel =
        some (VerifyFailure.hashFailure t2 k (keyExpected ah t2 e.parentHash))) := by
  have hch0 : chainFrom ah ([] : List (Hash × LogEntry α)) Option.none [] := trivial
  have hch : chainFrom ah (dlogPushAll ah (⟨[], Option.none⟩ : DLog α) ts).entries
      (dlogPushAll ah (⟨[], Option.none⟩ : DLog α) ts).head
      ((pushKeysFrom ah Option.none ts).reverse) := by
    have := pushAll_chain ah ts ⟨[], Option.none⟩ [] hch0
      (fun x _ hm => List.not_mem_nil x hm) hnd
    rw [List.append_nil] at this
    exact this
  have hlen : ((pushKeysFrom ah Option.none ts).reverse).length ≤ fuel := by
    rw [List.length_reverse, pushKeysFrom_length ah ts Option.none]
    exact hfuel
  constructor
  · show firstFailure ah (dlogPushAll ah (⟨[], Option.none⟩ : DLog α) ts).entries
      ((hashChain (dlogPushAll ah (⟨[], Option.none⟩ : DLog α) ts).entries fuel
        (dlogPushAll ah (⟨[], Option.none⟩ : DLog α) ts).head).reverse) = Option.none
    rw [chain_walk ah _ ((pushKeysFrom ah Option.none ts).reverse) _ hch fuel hlen,
      List.reverse_reverse]
    exact firstFailure_none ah _ _ (fun k hk =>
      chain_steps ah _ _ _ hch k (List.mem_reverse.mpr hk))
  · intro k e t2 hkmem hfind hne
    have hsame : ∀ h2, Option.map LogEntry.parentHash
        (dlogFind (dlogInsert (dlogPushAll ah (⟨[], Option.none⟩ : DLog α) ts).entries k
          ⟨t2, e.parentHash⟩) h2) =
        Option.map LogEntry.parentHash
          (dlogFind (dlogPushAll ah (⟨[], Option.none⟩ : DLog α) ts).entries h2) := by
      intro h2
      by_cases hh : h2 = k
      · subst hh
        rw [dlogFind_insert_self, hfind]
        rfl
      · rw [dlogFind_insert_ne _ hh _]
    show firstFailure ah (dlogInsert (dlogPushAll ah (⟨[], Option.none⟩ : DLog α) ts).entries
        k ⟨t2, e.parentHash⟩)
      ((hashChain (dlogInsert (dlogPushAll ah (⟨[], Option.none⟩ : DLog α) ts).entries k
        ⟨t2, e.parentHash⟩) fuel
        (dlogPushAll ah (⟨[], Option.none⟩ : DLog α) ts).head).reverse) = _
    rw [hashChain_congr _ _ hsame,
      chain_walk ah _ ((pushKeysFrom ah Option.none ts).reverse) _ hch fuel hlen,
      List.reverse_reverse]
    obtain ⟨L1, L2, hsplit⟩ := List.append_of_mem hkmem
    rw [hsplit]
    refine firstFailure_break ah _ k _ L2 ?_ L1 ?_
    · show (match dlogFind (dlogInsert
          (dlogPushAll ah (⟨[], Option.none⟩ : DLog α) ts).entries k
          ⟨t2, e.parentHash⟩) k with
        | Option.none => some (VerifyFailure.logError k)
        | some e3 => if k ≠ keyExpected ah e3.entry e3.parentHash then
            some (VerifyFailure.hashFailure e3.entry k (keyExpected ah e3.entry e3.parentHash))
          else Option.none) =
        some (VerifyFailure.hashFailure t2 k (keyExpected ah t2 e.parentHash))
      rw [dlogFind_insert_self]
      show (if k ≠ keyExpected ah t2 e.parentHash then
          some (VerifyFailure.hashFailure t2 k (keyExpected ah t2 e.parentHash))
        else Option.none) = _
      rw [if_pos (fun hh => hne hh.symm)]
    · intro x hx
      have hnd2 : (L1 ++ k :: L2).Nodup := hsplit ▸ hnd
      have hxk : x ≠ k := by
        intro hxx
        subst hxx
        exact (List.disjoint_of_nodup_append hnd2) hx (List.mem_cons_self x L2)
      rw [verifyStep_insert_ne ah _ hxk _]
      refine chain_steps ah _ _ _ hch x (List.mem_reverse.mpr ?_)
      rw [hsplit]
      exact List.mem_append_left _ hx

/-- C5 witness: two pushes of bytes 1 and 2 under the SHA3 item hash,
    with distinct chained keys and enough fuel. -/
theorem c5_verify_log_witness :
    verifyLog (fun n => Hash.hashBytes [n]) (dlogPushAll (fun n => Hash.hashBytes [n])
        ⟨[], Option.none⟩ [1, 2]) 2 = Option.none ∧
    (∀ k e t2, k ∈ pushKeysFrom (fun n => Hash.hashBytes [n]) Option.none [1, 2] →
      dlogFind (dlogPushAll (fun n => Hash.hashBytes [n])
        ⟨[], Option.none⟩ [1, 2]).entries k = some e →
      keyExpected (fun n => Hash.hashBytes [n]) t2 e.parentHash ≠ k →
      verifyLog (fun n => Hash.hashBytes [n])
        ⟨dlogInsert (dlogPushAll (fun n => Hash.hashBytes [n])
            ⟨[], Option.none⟩ [1, 2]).entries k ⟨t2, e.parentHash⟩,
          (dlogPushAll (fun n => Hash.hashBytes [n]) ⟨[], Option.none⟩ [1, 2]).head⟩ 2 =
        some (VerifyFailure.hashFailure t2 k
          (keyExpected (fun n => Hash.hashBytes [n]) t2 e.parentHash))) :=
  c5_verify_log (fun n : Nat => Hash.hashBytes [n]) [1, 2] 2 (by decide) (by decide)
